import Mathlib

/-!
# GRC-20 v2 binary codec — shallow embedding and verification

This file embeds the core of the `grc-20` Rust crate (the GRC-20 v2 binary
property-graph edit codec) in Lean 4 and settles the frozen claims about it.

Conventions of the embedding:
* bytes are `Nat`s (well-formed data keeps them `< 256`; the decoder, like the
  Rust code, is total over arbitrary byte values because a Rust `u8` can hold
  any of 0..255 and our well-formedness predicates pin the range);
* a 16-byte id (`[u8; 16]`) is a `List Nat` of length 16;
* `f64` values are carried as their 64-bit IEEE-754 bit pattern (a `Nat`
  `< 2^64`); the codec only moves the 8 raw bytes, checks NaN, and compares
  against the literals ±90.0 / ±180.0, all of which are exact bit-pattern
  operations, so this is a faithful model;
* Rust's `Reader` is modelled as functions `List Nat → Except DecodeError
  (α × List Nat)` consuming a prefix and returning the unread suffix;
* Rust's `Writer` is modelled by returning the emitted `List Nat`;
* the `FxHashMap` id→index maps inside `DictionaryBuilder` are modelled by
  index lookups on the insertion-ordered vectors themselves (the Rust code
  maintains the invariant that the map is exactly the index-of function of
  the vector).
-/

namespace GRC20

/-- A 16-byte identifier (`[u8; 16]` in the source). -/
abbrev Id := List Nat

/-! ## Limits (`limits` module)

The crate declares `pub mod limits;` but the module file is not part of the
source snapshot.  Modelled from the spec: `MAX_POSITION_LEN = 64` and
`MAX_VARINT_BYTES = 10` are given explicitly; the remaining limits are
"process-wide constants, tunable at compile time", so representative values
are chosen here subject to the spec's constraint `MAX_DICT_SIZE < 0xFFFFFFFF`.
All theorems that touch a limit either take the relevant bound as a
hypothesis or are independent of the concrete value. -/

def MAX_VARINT_BYTES : Nat := 10

def MAX_POSITION_LEN : Nat := 64

def MAX_STRING_LEN : Nat := 65536

def MAX_BYTES_LEN : Nat := 1048576

def MAX_AUTHORS : Nat := 128

def MAX_DICT_SIZE : Nat := 65536

def MAX_OPS_PER_EDIT : Nat := 1048576

def MAX_VALUES_PER_ENTITY : Nat := 4096

def MAX_EMBEDDING_DIMS : Nat := 16384

def MAX_EMBEDDING_BYTES : Nat := 262144

def MAX_EDIT_SIZE : Nat := 67108864

def FORMAT_VERSION : Nat := 1

def MIN_FORMAT_VERSION : Nat := 1

/-- "GRC2" -/
def MAGIC_UNCOMPRESSED : List Nat := [71, 82, 67, 50]

/-- "GRC2Z" -/
def MAGIC_COMPRESSED : List Nat := [71, 82, 67, 50, 90]

/-! ## Data model (`model/value.rs`, `model/op.rs`, `model/edit.rs`) -/

/-- `DataType` (spec wire tags 1..13). -/
inductive DataType where
  | bool | int64 | float64 | decimal | text | bytes
  | date | time | datetime | schedule | point | rect | embedding
deriving DecidableEq, Repr

def DataType.toTag : DataType → Nat
  | .bool => 1 | .int64 => 2 | .float64 => 3 | .decimal => 4 | .text => 5
  | .bytes => 6 | .date => 7 | .time => 8 | .datetime => 9 | .schedule => 10
  | .point => 11 | .rect => 12 | .embedding => 13

/-- `DataType::from_u8`. -/
def DataType.from_u8 : Nat → Option DataType
  | 1 => some .bool | 2 => some .int64 | 3 => some .float64 | 4 => some .decimal
  | 5 => some .text | 6 => some .bytes | 7 => some .date | 8 => some .time
  | 9 => some .datetime | 10 => some .schedule | 11 => some .point
  | 12 => some .rect | 13 => some .embedding | _ => none

inductive EmbeddingSubType where
  | float32 | int8 | binary
deriving DecidableEq, Repr

def EmbeddingSubType.toTag : EmbeddingSubType → Nat
  | .float32 => 0 | .int8 => 1 | .binary => 2

/-- `EmbeddingSubType::from_u8`. -/
def EmbeddingSubType.from_u8 : Nat → Option EmbeddingSubType
  | 0 => some .float32 | 1 => some .int8 | 2 => some .binary | _ => none

/-- `EmbeddingSubType::bytes_for_dims`. -/
def EmbeddingSubType.bytes_for_dims : EmbeddingSubType → Nat → Nat
  | .float32, dims => dims * 4
  | .int8, dims => dims
  | .binary, dims => (dims + 7) / 8

/-- `DecimalMantissa`: either an `i64` or big-endian two's-complement bytes. -/
inductive DecimalMantissa where
  | i64 (v : Int)
  | big (bytes : List Nat)
deriving DecidableEq, Repr

/-- `Value` (`model/value.rs`).  Text/schedule payloads are UTF-8 byte lists;
float payloads are IEEE-754 bit patterns. -/
inductive Value where
  | bool (b : Bool)
  | int64 (value : Int) (unit : Option Id)
  | float64 (value : Nat) (unit : Option Id)
  | decimal (exponent : Int) (mantissa : DecimalMantissa) (unit : Option Id)
  | text (value : List Nat) (language : Option Id)
  | bytes (data : List Nat)
  | date (days : Int) (offset_min : Int)
  | time (time_us : Int) (offset_min : Int)
  | datetime (epoch_us : Int) (offset_min : Int)
  | schedule (value : List Nat)
  | point (lat lon : Nat) (alt : Option Nat)
  | rect (min_lat min_lon max_lat max_lon : Nat)
  | embedding (sub_type : EmbeddingSubType) (dims : Nat) (data : List Nat)
deriving DecidableEq, Repr

/-- `Value::data_type`. -/
def Value.data_type : Value → DataType
  | .bool _ => .bool
  | .int64 _ _ => .int64
  | .float64 _ _ => .float64
  | .decimal _ _ _ => .decimal
  | .text _ _ => .text
  | .bytes _ => .bytes
  | .date _ _ => .date
  | .time _ _ => .time
  | .datetime _ _ => .datetime
  | .schedule _ => .schedule
  | .point _ _ _ => .point
  | .rect _ _ _ _ => .rect
  | .embedding _ _ _ => .embedding

structure PropertyValue where
  property : Id
  value : Value
deriving DecidableEq, Repr

inductive UnsetLanguage where
  | all
  | nonLinguistic
  | specific (id : Id)
deriving DecidableEq, Repr

structure UnsetValue where
  property : Id
  language : UnsetLanguage
deriving DecidableEq, Repr

structure ContextEdge where
  type_id : Id
  to_entity_id : Id
deriving DecidableEq, Repr

structure Context where
  root_id : Id
  edges : List ContextEdge
deriving DecidableEq, Repr

/- The op structures.  `codec/edit.rs` (`validate_edit_inputs`, `op_to_owned`,
`encode_op_canonical`) accesses a `context : Option<Context>` field on every
mutating op, so the ops carry it here; the snapshot's `model/op.rs` predates
that field.  The field named `from` in the source is `from_` here (and `to` is `to_`)
because they are Lean keywords. -/

structure CreateEntity where
  id : Id
  values : List PropertyValue
  context : Option Context
deriving DecidableEq, Repr

structure UpdateEntity where
  id : Id
  set_properties : List PropertyValue
  unset_values : List UnsetValue
  context : Option Context
deriving DecidableEq, Repr

structure DeleteEntity where
  id : Id
  context : Option Context
deriving DecidableEq, Repr

structure RestoreEntity where
  id : Id
  context : Option Context
deriving DecidableEq, Repr

structure CreateRelation where
  id : Id
  relation_type : Id
  from_ : Id
  from_is_value_ref : Bool
  from_space : Option Id
  from_version : Option Id
  to_ : Id
  to_is_value_ref : Bool
  to_space : Option Id
  to_version : Option Id
  entity : Option Id
  position : Option (List Nat)
  context : Option Context
deriving DecidableEq, Repr

inductive UnsetRelationField where
  | fromSpace | fromVersion | toSpace | toVersion | position
deriving DecidableEq, Repr

structure UpdateRelation where
  id : Id
  from_space : Option Id
  from_version : Option Id
  to_space : Option Id
  to_version : Option Id
  position : Option (List Nat)
  unset : List UnsetRelationField
  context : Option Context
deriving DecidableEq, Repr

structure DeleteRelation where
  id : Id
  context : Option Context
deriving DecidableEq, Repr

structure RestoreRelation where
  id : Id
  context : Option Context
deriving DecidableEq, Repr

structure CreateValueRef where
  id : Id
  entity : Id
  property : Id
  language : Option Id
  space : Option Id
deriving DecidableEq, Repr

inductive Op where
  | createEntity (ce : CreateEntity)
  | updateEntity (ue : UpdateEntity)
  | deleteEntity (de : DeleteEntity)
  | restoreEntity (re : RestoreEntity)
  | createRelation (cr : CreateRelation)
  | updateRelation (ur : UpdateRelation)
  | deleteRelation (dr : DeleteRelation)
  | restoreRelation (rr : RestoreRelation)
  | createValueRef (cvr : CreateValueRef)
deriving DecidableEq, Repr

/-- `Edit` (`model/edit.rs`): header plus ops. -/
structure Edit where
  id : Id
  name : List Nat
  authors : List Id
  created_at : Int
  ops : List Op
deriving DecidableEq, Repr

/-- `WireDictionaries` (`model/edit.rs`). -/
structure WireDictionaries where
  properties : List (Id × DataType)
  relation_types : List Id
  languages : List Id
  units : List Id
  objects : List Id
  context_ids : List Id
  contexts : List Context
deriving DecidableEq, Repr

/-! ## Errors (`error.rs`).

`DuplicateAuthor`, `DuplicateValue` and `DuplicateUnset` are raised by
`codec/edit.rs` though the snapshot's `error.rs` predates them. -/

inductive DecodeError where
  | invalidMagic (found : List Nat)
  | unsupportedVersion (version : Nat)
  | indexOutOfBounds (dict : String) (index : Nat) (size : Nat)
  | invalidUtf8 (field : String)
  | unexpectedEof (context : String)
  | varintTooLong
  | varintOverflow
  | lengthExceedsLimit (field : String) (len : Nat) (max : Nat)
  | invalidOpType (op_type : Nat)
  | invalidDataType (data_type : Nat)
  | invalidEmbeddingSubType (sub_type : Nat)
  | invalidBool (value : Nat)
  | reservedBitsSet (context : String)
  | latitudeOutOfRange (lat : Nat)
  | longitudeOutOfRange (lon : Nat)
  | invalidPositionChar (char : Nat)
  | decimalNotNormalized
  | decimalMantissaNotMinimal
  | floatIsNan
  | malformedEncoding (context : String)
  | duplicateDictionaryEntry (dict : String) (id : Id)
  | decompressionFailed (msg : String)
  | uncompressedSizeMismatch (declared actual : Nat)
deriving DecidableEq, Repr

inductive EncodeError where
  | lengthExceedsLimit (field : String) (len : Nat) (max : Nat)
  | embeddingDimensionMismatch (sub_type dims data_len : Nat)
  | compressionFailed (msg : String)
  | decimalNotNormalized
  | floatIsNan
  | latitudeOutOfRange (lat : Nat)
  | longitudeOutOfRange (lon : Nat)
  | invalidPositionChar
  | positionTooLong
  | invalidInput (context : String)
  | duplicateAuthor (id : Id)
  | duplicateValue (property : Id) (language : Option Id)
  | duplicateUnset (property : Id) (language : Option Id)
deriving DecidableEq, Repr

/-! ## Reader primitives (`codec/primitives.rs`)

A decoder has type `List Nat → Except DecodeError (α × List Nat)`: it consumes
a prefix of the byte stream and returns the value with the remaining bytes. -/

/-- `Reader::read_byte`. -/
def read_byte (context : String) : List Nat → Except DecodeError (Nat × List Nat)
  | [] => .error (.unexpectedEof context)
  | b :: rest => .ok (b, rest)

/-- `Reader::read_bytes`. -/
def read_bytes (n : Nat) (context : String) (bs : List Nat) :
    Except DecodeError (List Nat × List Nat) :=
  if n ≤ bs.length then .ok (bs.take n, bs.drop n)
  else .error (.unexpectedEof context)

/-- `Reader::read_id` — a 16-byte id. -/
def read_id (context : String) (bs : List Nat) :
    Except DecodeError (Id × List Nat) :=
  read_bytes 16 context bs

/-- The loop of `Reader::read_varint`.  `fuel` counts the remaining loop
iterations (`MAX_VARINT_BYTES - i` for the Rust index `i`), `result` and
`shift` are the accumulators. -/
def read_varint_loop (context : String) :
    Nat → Nat → Nat → List Nat → Except DecodeError (Nat × List Nat)
  | 0, _, _, _ => .error .varintTooLong
  | fuel + 1, result, shift, bs => do
    let (byte, bs) ← read_byte context bs
    let value := byte &&& 0x7F
    if shift ≥ 64 ∨ (shift = 63 ∧ value > 1) then
      .error .varintOverflow
    else
      let result := result ||| (value <<< shift)
      if byte &&& 0x80 = 0 then
        .ok (result, bs)
      else
        -- the Rust `if i == MAX_VARINT_BYTES - 1 { return TooLong }` is the
        -- fuel-0 base case: the next iteration fails before reading a byte
        read_varint_loop context fuel result (shift + 7) bs

/-- `Reader::read_varint` — LEB128, at most `MAX_VARINT_BYTES` bytes. -/
def read_varint (context : String) (bs : List Nat) :
    Except DecodeError (Nat × List Nat) :=
  read_varint_loop context MAX_VARINT_BYTES 0 0 bs

/-- `zigzag_encode`.  The Rust bit formula `((n << 1) ^ (n >> 63)) as u64`
equals this arithmetic form on the whole `i64` range. -/
def zigzag_encode (n : Int) : Nat :=
  if 0 ≤ n then (2 * n).toNat else (-(2 * n) - 1).toNat

/-- `zigzag_decode`.  The Rust bit formula `((n >> 1) as i64) ^ -((n & 1) as
i64)` equals this arithmetic form for every `u64`. -/
def zigzag_decode (n : Nat) : Int :=
  if n % 2 = 0 then (n / 2 : Nat) else -((n / 2 : Nat) : Int) - 1

/-- `Reader::read_signed_varint`. -/
def read_signed_varint (context : String) (bs : List Nat) :
    Except DecodeError (Int × List Nat) := do
  let (u, bs) ← read_varint context bs
  .ok (zigzag_decode u, bs)

/-- Is a byte a UTF-8 continuation byte (`0x80..=0xBF`)? -/
def utf8_cont (b : Nat) : Bool := 0x80 ≤ b && b ≤ 0xBF

/-- One UTF-8 character step: given the lead byte and the following bytes,
return the bytes after the character, or `none` if malformed (RFC 3629). -/
def utf8_span (b : Nat) (rest : List Nat) : Option (List Nat) :=
  if b ≤ 0x7F then some rest
  else if 0xC2 ≤ b && b ≤ 0xDF then
    match rest with
    | c1 :: r => if utf8_cont c1 then some r else none
    | [] => none
  else if b = 0xE0 then
    match rest with
    | c1 :: c2 :: r =>
      if (0xA0 ≤ c1 && c1 ≤ 0xBF) && utf8_cont c2 then some r else none
    | _ => none
  else if (0xE1 ≤ b && b ≤ 0xEC) || (0xEE ≤ b && b ≤ 0xEF) then
    match rest with
    | c1 :: c2 :: r => if utf8_cont c1 && utf8_cont c2 then some r else none
    | _ => none
  else if b = 0xED then
    match rest with
    | c1 :: c2 :: r =>
      if (0x80 ≤ c1 && c1 ≤ 0x9F) && utf8_cont c2 then some r else none
    | _ => none
  else if b = 0xF0 then
    match rest with
    | c1 :: c2 :: c3 :: r =>
      if (0x90 ≤ c1 && c1 ≤ 0xBF) && utf8_cont c2 && utf8_cont c3 then some r else none
    | _ => none
  else if 0xF1 ≤ b && b ≤ 0xF3 then
    match rest with
    | c1 :: c2 :: c3 :: r =>
      if utf8_cont c1 && utf8_cont c2 && utf8_cont c3 then some r else none
    | _ => none
  else if b = 0xF4 then
    match rest with
    | c1 :: c2 :: c3 :: r =>
      if (0x80 ≤ c1 && c1 ≤ 0x8F) && utf8_cont c2 && utf8_cont c3 then some r else none
    | _ => none
  else none

/-- Fueled UTF-8 validation loop: consume one character per step.  A
character consumes at least one byte, so fuel = byte count always suffices. -/
def utf8_validate : Nat → List Nat → Bool
  | _, [] => true
  | 0, _ :: _ => false
  | fuel + 1, b :: rest =>
    match utf8_span b rest with
    | some r => utf8_validate fuel r
    | none => false

/-- UTF-8 validity of a byte list (the check done by `std::str::from_utf8`). -/
def isValidUtf8 (l : List Nat) : Bool := utf8_validate l.length l

/-- `Reader::read_str`.  Modelled from the spec: the function is called
throughout `codec/` but its definition is not in the snapshot; per spec §4.1
it reads a varint length, enforces `≤ max`, borrows the slice and validates
UTF-8.  (`read_string` is the same with an owned result; in this embedding
both return the byte list.) -/
def read_str (max_len : Nat) (field : String) (bs : List Nat) :
    Except DecodeError (List Nat × List Nat) := do
  let (len, bs) ← read_varint field bs
  if len > max_len then
    .error (.lengthExceedsLimit field len max_len)
  else
    let (bytes, bs) ← read_bytes len field bs
    if isValidUtf8 bytes then .ok (bytes, bs)
    else .error (.invalidUtf8 field)

/-- `Reader::read_string` — same checks as `read_str` (allocates in Rust). -/
def read_string (max_len : Nat) (field : String) (bs : List Nat) :
    Except DecodeError (List Nat × List Nat) :=
  read_str max_len field bs

/-- `Reader::read_bytes_prefixed`. -/
def read_bytes_prefixed (max_len : Nat) (field : String) (bs : List Nat) :
    Except DecodeError (List Nat × List Nat) := do
  let (len, bs) ← read_varint field bs
  if len > max_len then
    .error (.lengthExceedsLimit field len max_len)
  else
    read_bytes len field bs

/-- Little-endian byte list to `Nat`. -/
def le_to_nat : List Nat → Nat
  | [] => 0
  | b :: rest => b + 256 * le_to_nat rest

/-- Is a 64-bit pattern an IEEE-754 NaN (exponent all ones, fraction ≠ 0)? -/
def f64_is_nan (p : Nat) : Bool :=
  (p >>> 52) &&& 0x7FF = 0x7FF && p &&& 0xFFFFFFFFFFFFF ≠ 0

/-- Is a 32-bit pattern an IEEE-754 single NaN? -/
def f32_is_nan (p : Nat) : Bool :=
  (p >>> 23) &&& 0xFF = 0xFF && p &&& 0x7FFFFF ≠ 0

/-- `Reader::read_f64` — 8 little-endian bytes, NaN rejected. -/
def read_f64 (context : String) (bs : List Nat) :
    Except DecodeError (Nat × List Nat) := do
  let (bytes, bs) ← read_bytes 8 context bs
  let value := le_to_nat bytes
  if f64_is_nan value then .error .floatIsNan
  else .ok (value, bs)

/-- `Reader::read_f64_unchecked`. -/
def read_f64_unchecked (context : String) (bs : List Nat) :
    Except DecodeError (Nat × List Nat) := do
  let (bytes, bs) ← read_bytes 8 context bs
  .ok (le_to_nat bytes, bs)

/-- The id-reading loop of `read_id_vec`. -/
def read_ids (field : String) : Nat → List Nat → Except DecodeError (List Id × List Nat)
  | 0, bs => .ok ([], bs)
  | n + 1, bs => do
    let (id, bs) ← read_id field bs
    let (ids, bs) ← read_ids field n bs
    .ok (id :: ids, bs)

/-- `Reader::read_id_vec`. -/
def read_id_vec (max_len : Nat) (field : String) (bs : List Nat) :
    Except DecodeError (List Id × List Nat) := do
  let (count, bs) ← read_varint field bs
  if count > max_len then
    .error (.lengthExceedsLimit field count max_len)
  else
    read_ids field count bs

/-! ## Writer primitives (`codec/primitives.rs`) -/

/-- The loop of `Writer::write_varint` (LEB128), with structural fuel (an iteration
divides `v` by 128, so `v` itself bounds the iteration count). -/
def write_varint_go : Nat → Nat → List Nat
  | 0, v => [v]
  | fuel + 1, v =>
    if v < 128 then [v]
    else (v % 128 ||| 0x80) :: write_varint_go fuel (v / 128)

/-- `Writer::write_varint`. -/
def write_varint (v : Nat) : List Nat := write_varint_go v v

/-- `Writer::write_signed_varint`. -/
def write_signed_varint (v : Int) : List Nat :=
  write_varint (zigzag_encode v)

/-- `Nat` to `n` little-endian bytes (truncating like an `as`-cast). -/
def nat_to_le : Nat → Nat → List Nat
  | 0, _ => []
  | n + 1, v => v % 256 :: nat_to_le n (v / 256)

/-- Two's-complement little-endian bytes of an integer (`i{8n}::to_le_bytes`). -/
def int_to_le (n : Nat) (v : Int) : List Nat :=
  nat_to_le n (v % (2 ^ (8 * n))).toNat

/-- `Writer::write_string` (length-prefixed). -/
def write_string (s : List Nat) : List Nat :=
  write_varint s.length ++ s

/-- `Writer::write_bytes_prefixed`. -/
def write_bytes_prefixed (b : List Nat) : List Nat :=
  write_varint b.length ++ b

/-- `Writer::write_id_vec`. -/
def write_id_vec (ids : List Id) : List Nat :=
  write_varint ids.length ++ ids.flatten


/-! ## Float comparison helpers

IEEE-754 comparison on 64-bit patterns: NaN compares false; otherwise compare
by sign and magnitude, with `-0.0 == +0.0`.  Used to model the Rust `f64`
comparisons `<`, `>` and `(..=..).contains`. -/

def f64_sign (p : Nat) : Nat := p >>> 63

def f64_mag (p : Nat) : Nat := p % 2 ^ 63

/-- IEEE `p < q` on bit patterns. -/
def f64_lt (p q : Nat) : Bool :=
  if f64_is_nan p || f64_is_nan q then false
  else if f64_sign p = 0 then
    if f64_sign q = 0 then f64_mag p < f64_mag q
    else false
  else
    if f64_sign q = 0 then !(f64_mag p == 0 && f64_mag q == 0)
    else f64_mag q < f64_mag p

/-- IEEE `p ≤ q` on bit patterns. -/
def f64_le (p q : Nat) : Bool :=
  if f64_is_nan p || f64_is_nan q then false
  else if f64_sign p = 0 then
    if f64_sign q = 0 then f64_mag p ≤ f64_mag q
    else f64_mag p == 0 && f64_mag q == 0
  else
    if f64_sign q = 0 then true
    else f64_mag q ≤ f64_mag p

/-- Bit pattern of `90.0`. -/
def F64_POS_90 : Nat := 0x4056800000000000

/-- Bit pattern of `-90.0`. -/
def F64_NEG_90 : Nat := 0xC056800000000000

/-- Bit pattern of `180.0`. -/
def F64_POS_180 : Nat := 0x4066800000000000

/-- Bit pattern of `-180.0`. -/
def F64_NEG_180 : Nat := 0xC066800000000000

/-- `(-90.0..=90.0).contains(&lat)` on bit patterns. -/
def lat_in_range (p : Nat) : Bool := f64_le F64_NEG_90 p && f64_le p F64_POS_90

/-- `(-180.0..=180.0).contains(&lon)` on bit patterns. -/
def lon_in_range (p : Nat) : Bool := f64_le F64_NEG_180 p && f64_le p F64_POS_180

/-! ## Value codec — decoding (`codec/value.rs`) -/

/-- The unit-reference resolution repeated in `decode_int64`, `decode_float64`
and `decode_decimal`: index 0 is "no unit", `n ≥ 1` is `units[n-1]`. -/
def resolve_unit (dicts : WireDictionaries) (unit_index : Nat) :
    Except DecodeError (Option Id) :=
  if unit_index = 0 then .ok none
  else if unit_index - 1 ≥ dicts.units.length then
    .error (.indexOutOfBounds "units" unit_index (dicts.units.length + 1))
  else .ok (some (dicts.units.getD (unit_index - 1) []))

/-- Language-reference resolution from `decode_text`. -/
def resolve_language (dicts : WireDictionaries) (lang_index : Nat) :
    Except DecodeError (Option Id) :=
  if lang_index = 0 then .ok none
  else if lang_index - 1 ≥ dicts.languages.length then
    .error (.indexOutOfBounds "languages" lang_index (dicts.languages.length + 1))
  else .ok (some (dicts.languages.getD (lang_index - 1) []))

def decode_bool (bs : List Nat) : Except DecodeError (Value × List Nat) := do
  let (byte, bs) ← read_byte "bool" bs
  match byte with
  | 0 => .ok (.bool false, bs)
  | 1 => .ok (.bool true, bs)
  | _ => .error (.invalidBool byte)

def decode_int64 (dicts : WireDictionaries) (bs : List Nat) :
    Except DecodeError (Value × List Nat) := do
  let (value, bs) ← read_signed_varint "int64" bs
  let (unit_index, bs) ← read_varint "int64.unit" bs
  let unit ← resolve_unit dicts unit_index
  .ok (.int64 value unit, bs)

def decode_float64 (dicts : WireDictionaries) (bs : List Nat) :
    Except DecodeError (Value × List Nat) := do
  let (value, bs) ← read_f64 "float64" bs
  let (unit_index, bs) ← read_varint "float64.unit" bs
  let unit ← resolve_unit dicts unit_index
  .ok (.float64 value unit, bs)

/-- `is_big_mantissa_zero`. -/
def is_big_mantissa_zero (bytes : List Nat) : Bool := bytes.all (· = 0)

/-- `twos_complement_abs_mod_10`: fold the inverted bytes with
`r = (r*6 + b) % 10`, then add 1 mod 10. -/
def twos_complement_abs_mod_10 (bytes : List Nat) : Nat :=
  (bytes.foldl (fun r byte => (r * 6 + (255 - byte)) % 10) 0 + 1) % 10

/-- `is_big_mantissa_divisible_by_10`. -/
def is_big_mantissa_divisible_by_10 (bytes : List Nat) : Bool :=
  match bytes with
  | [] => true
  | b :: _ =>
    if b &&& 0x80 ≠ 0 then twos_complement_abs_mod_10 bytes = 0
    else bytes.foldl (fun r byte => (r * 6 + byte) % 10) 0 = 0

/-- The `as i32` truncation of a signed 64-bit value. -/
def to_i32 (v : Int) : Int := (v + 2 ^ 31) % (2 ^ 32) - 2 ^ 31

def decode_decimal (dicts : WireDictionaries) (bs : List Nat) :
    Except DecodeError (Value × List Nat) := do
  let (e, bs) ← read_signed_varint "decimal.exponent" bs
  let exponent := to_i32 e
  let (mantissa_type, bs) ← read_byte "decimal.mantissa_type" bs
  let (mantissa, bs) ←
    match mantissa_type with
    | 0 => do
      let (v, bs) ← read_signed_varint "decimal.mantissa" bs
      pure (DecimalMantissa.i64 v, bs)
    | 1 => do
      let (len, bs) ← read_varint "decimal.mantissa_len" bs
      let (bytes, bs) ← read_bytes len "decimal.mantissa_bytes" bs
      -- minimal-encoding check (redundant sign-extension bytes)
      if bytes.length > 1 then
        let first := bytes.getD 0 0
        let second := bytes.getD 1 0
        if (first = 0 ∧ second &&& 0x80 = 0) ∨ (first = 0xFF ∧ second &&& 0x80 ≠ 0) then
          Except.error .decimalMantissaNotMinimal
        else
          pure (DecimalMantissa.big bytes, bs)
      else
        pure (DecimalMantissa.big bytes, bs)
    | _ => .error (.malformedEncoding "invalid decimal mantissa type")
  -- normalization check
  let _ ←
    match mantissa with
    | .i64 v =>
      if v = 0 then
        if exponent ≠ 0 then Except.error DecodeError.decimalNotNormalized else pure ()
      else if v % 10 = 0 then Except.error DecodeError.decimalNotNormalized
      else pure ()
    | .big bytes =>
      if is_big_mantissa_zero bytes then
        if exponent ≠ 0 then Except.error DecodeError.decimalNotNormalized else pure ()
      else if is_big_mantissa_divisible_by_10 bytes then
        Except.error DecodeError.decimalNotNormalized
      else pure ()
  let (unit_index, bs) ← read_varint "decimal.unit" bs
  let unit ← resolve_unit dicts unit_index
  .ok (.decimal exponent mantissa unit, bs)

def decode_text (dicts : WireDictionaries) (bs : List Nat) :
    Except DecodeError (Value × List Nat) := do
  let (value, bs) ← read_str MAX_STRING_LEN "text" bs
  let (lang_index, bs) ← read_varint "text.language" bs
  let language ← resolve_language dicts lang_index
  .ok (.text value language, bs)

def decode_bytes (bs : List Nat) : Except DecodeError (Value × List Nat) := do
  let (len, bs) ← read_varint "bytes.len" bs
  if len > MAX_BYTES_LEN then
    .error (.lengthExceedsLimit "bytes" len MAX_BYTES_LEN)
  else do
    let (bytes, bs) ← read_bytes len "bytes" bs
    .ok (.bytes bytes, bs)

/-- Sign of a little-endian byte list read as `i{8n}` (two's complement). -/
def le_to_int (n : Nat) (bytes : List Nat) : Int :=
  if le_to_nat bytes ≥ 2 ^ (8 * n - 1) then (le_to_nat bytes : Int) - 2 ^ (8 * n)
  else (le_to_nat bytes : Int)

def decode_date (bs : List Nat) : Except DecodeError (Value × List Nat) := do
  let (bytes, bs) ← read_bytes 6 "date" bs
  let days := le_to_int 4 (bytes.take 4)
  let offset_min := le_to_int 2 (bytes.drop 4)
  if offset_min < -1440 ∨ offset_min > 1440 then
    .error (.malformedEncoding "DATE offset_min outside range")
  else
    .ok (.date days offset_min, bs)

def decode_time (bs : List Nat) : Except DecodeError (Value × List Nat) := do
  let (bytes, bs) ← read_bytes 8 "time" bs
  -- int48 sign-extended to i64
  let time_us := le_to_int 6 (bytes.take 6)
  let offset_min := le_to_int 2 (bytes.drop 6)
  if time_us < 0 ∨ time_us > 86399999999 then
    .error (.malformedEncoding "TIME time_us outside range")
  else if offset_min < -1440 ∨ offset_min > 1440 then
    .error (.malformedEncoding "TIME offset_min outside range")
  else
    .ok (.time time_us offset_min, bs)

def decode_datetime (bs : List Nat) : Except DecodeError (Value × List Nat) := do
  let (bytes, bs) ← read_bytes 10 "datetime" bs
  let epoch_us := le_to_int 8 (bytes.take 8)
  let offset_min := le_to_int 2 (bytes.drop 8)
  if offset_min < -1440 ∨ offset_min > 1440 then
    .error (.malformedEncoding "DATETIME offset_min outside range")
  else
    .ok (.datetime epoch_us offset_min, bs)

def decode_schedule (bs : List Nat) : Except DecodeError (Value × List Nat) := do
  let (value, bs) ← read_str MAX_STRING_LEN "schedule" bs
  .ok (.schedule value, bs)

def decode_point (bs : List Nat) : Except DecodeError (Value × List Nat) := do
  let (ordinate_count, bs) ← read_byte "point.ordinate_count" bs
  if ordinate_count ≠ 2 ∧ ordinate_count ≠ 3 then
    .error (.malformedEncoding "POINT ordinate_count must be 2 or 3")
  else do
    let (lat, bs) ← read_f64 "point.lat" bs
    let (lon, bs) ← read_f64 "point.lon" bs
    let (alt, bs) ←
      if ordinate_count = 3 then do
        let (a, bs) ← read_f64 "point.alt" bs
        pure (some a, bs)
      else pure (none, bs)
    if ¬ lat_in_range lat then .error (.latitudeOutOfRange lat)
    else if ¬ lon_in_range lon then .error (.longitudeOutOfRange lon)
    else if f64_is_nan lat || f64_is_nan lon then .error .floatIsNan
    else if (alt.map f64_is_nan).getD false then .error .floatIsNan
    else .ok (.point lat lon alt, bs)

def decode_rect (bs : List Nat) : Except DecodeError (Value × List Nat) := do
  let (min_lat, bs) ← read_f64 "rect.min_lat" bs
  let (min_lon, bs) ← read_f64 "rect.min_lon" bs
  let (max_lat, bs) ← read_f64 "rect.max_lat" bs
  let (max_lon, bs) ← read_f64 "rect.max_lon" bs
  if ¬ lat_in_range min_lat ∨ ¬ lat_in_range max_lat then
    .error (.latitudeOutOfRange (if ¬ lat_in_range min_lat then min_lat else max_lat))
  else if ¬ lon_in_range min_lon ∨ ¬ lon_in_range max_lon then
    .error (.longitudeOutOfRange (if ¬ lon_in_range min_lon then min_lon else max_lon))
  else if f64_is_nan min_lat || f64_is_nan min_lon || f64_is_nan max_lat || f64_is_nan max_lon then
    .error .floatIsNan
  else
    .ok (.rect min_lat min_lon max_lat max_lon, bs)

/-- NaN scan over the complete 4-byte chunks (`chunks_exact(4)`). -/
def f32_chunks_no_nan : List Nat → Bool
  | b0 :: b1 :: b2 :: b3 :: rest =>
    !f32_is_nan (le_to_nat [b0, b1, b2, b3]) && f32_chunks_no_nan rest
  | _ => true

def decode_embedding (bs : List Nat) : Except DecodeError (Value × List Nat) := do
  let (sub_type_byte, bs) ← read_byte "embedding.sub_type" bs
  match EmbeddingSubType.from_u8 sub_type_byte with
  | none => .error (.invalidEmbeddingSubType sub_type_byte)
  | some sub_type => do
    let (dims, bs) ← read_varint "embedding.dims" bs
    if dims > MAX_EMBEDDING_DIMS then
      .error (.lengthExceedsLimit "embedding.dims" dims MAX_EMBEDDING_DIMS)
    else do
      let expected_bytes := sub_type.bytes_for_dims dims
      if expected_bytes > MAX_EMBEDDING_BYTES then
        .error (.lengthExceedsLimit "embedding.data" expected_bytes MAX_EMBEDDING_BYTES)
      else do
        let (data, bs) ← read_bytes expected_bytes "embedding.data" bs
        if sub_type = .float32 ∧ ¬ f32_chunks_no_nan data then
          .error .floatIsNan
        else if sub_type = .binary ∧ dims % 8 ≠ 0 ∧
            (data.getLastD 0) &&& (255 - ((1 <<< (dims % 8)) - 1)) ≠ 0 then
          -- unused high bits of the last byte must be zero
          .error (.malformedEncoding "binary embedding has non-zero unused bits")
        else
          .ok (.embedding sub_type dims data, bs)

/-- `decode_value` — dispatch on the property data type. -/
def decode_value (data_type : DataType) (dicts : WireDictionaries) (bs : List Nat) :
    Except DecodeError (Value × List Nat) :=
  match data_type with
  | .bool => decode_bool bs
  | .int64 => decode_int64 dicts bs
  | .float64 => decode_float64 dicts bs
  | .decimal => decode_decimal dicts bs
  | .text => decode_text dicts bs
  | .bytes => decode_bytes bs
  | .date => decode_date bs
  | .time => decode_time bs
  | .datetime => decode_datetime bs
  | .schedule => decode_schedule bs
  | .point => decode_point bs
  | .rect => decode_rect bs
  | .embedding => decode_embedding bs

/-- `decode_property_value`. -/
def decode_property_value (dicts : WireDictionaries) (bs : List Nat) :
    Except DecodeError (PropertyValue × List Nat) := do
  let (prop_index, bs) ← read_varint "property" bs
  if prop_index ≥ dicts.properties.length then
    .error (.indexOutOfBounds "properties" prop_index dicts.properties.length)
  else do
    let (property, data_type) := dicts.properties.getD prop_index ([], .bool)
    let (value, bs) ← decode_value data_type dicts bs
    .ok (⟨property, value⟩, bs)

/-- `validate_position` (`codec/value.rs`): at most 64 bytes, ASCII
alphanumeric only.  Note: unlike `model/op.rs`'s `validate_position`, the
codec's version does NOT reject the empty string. -/
def is_ascii_alphanumeric (b : Nat) : Bool :=
  (0x30 ≤ b && b ≤ 0x39) || (0x41 ≤ b && b ≤ 0x5A) || (0x61 ≤ b && b ≤ 0x7A)

def validate_position (pos : List Nat) : Except EncodeError Unit :=
  if pos.length > MAX_POSITION_LEN then .error .positionTooLong
  else if pos.all is_ascii_alphanumeric then .ok ()
  else .error .invalidPositionChar

/-- `decode_position`.  The Rust code iterates the chars of the (UTF-8
validated) string; checking every byte is equivalent since every non-ASCII
char has bytes ≥ 0x80 which fail the alphanumeric test. -/
def decode_position (bs : List Nat) : Except DecodeError (List Nat × List Nat) := do
  let (pos, bs) ← read_str MAX_POSITION_LEN "position" bs
  match pos.find? (fun c => !is_ascii_alphanumeric c) with
  | some c => .error (.invalidPositionChar c)
  | none => .ok (pos, bs)


/-! ## DictionaryBuilder (`model/edit.rs`)

The `FxHashMap` index maps are modelled by index-of lookups on the
insertion-ordered vectors (the Rust invariant is that map and vector agree). -/

/-- First index of an id in a list, if present. -/
def idx_of (l : List Id) (x : Id) : Option Nat :=
  match l with
  | [] => none
  | y :: rest => if y = x then some 0 else (idx_of rest x).map (· + 1)

/-- First index of a property id in a `(id, data_type)` list. -/
def prop_idx_of (l : List (Id × DataType)) (x : Id) : Option Nat :=
  match l with
  | [] => none
  | p :: rest => if p.1 = x then some 0 else (prop_idx_of rest x).map (· + 1)

/-- First index of a context in a context list. -/
def ctx_idx_of (l : List Context) (x : Context) : Option Nat :=
  match l with
  | [] => none
  | c :: rest => if c = x then some 0 else (ctx_idx_of rest x).map (· + 1)

structure DictionaryBuilder where
  properties : List (Id × DataType)
  relation_types : List Id
  languages : List Id
  units : List Id
  objects : List Id
  context_ids : List Id
  contexts : List Context
deriving DecidableEq, Repr

def DictionaryBuilder.new : DictionaryBuilder := ⟨[], [], [], [], [], [], []⟩

/-- `DictionaryBuilder::add_property` — idempotent by id, keeps the first data
type seen. -/
def DictionaryBuilder.add_property (b : DictionaryBuilder) (id : Id) (data_type : DataType) :
    Nat × DictionaryBuilder :=
  match prop_idx_of b.properties id with
  | some idx => (idx, b)
  | none => (b.properties.length, { b with properties := b.properties ++ [(id, data_type)] })

def DictionaryBuilder.add_relation_type (b : DictionaryBuilder) (id : Id) :
    Nat × DictionaryBuilder :=
  match idx_of b.relation_types id with
  | some idx => (idx, b)
  | none => (b.relation_types.length, { b with relation_types := b.relation_types ++ [id] })

/-- `add_language`: 0 for none, `idx + 1` for a real entry. -/
def DictionaryBuilder.add_language (b : DictionaryBuilder) (id : Option Id) :
    Nat × DictionaryBuilder :=
  match id with
  | none => (0, b)
  | some lang_id =>
    match idx_of b.languages lang_id with
    | some idx => (idx + 1, b)
    | none => (b.languages.length + 1, { b with languages := b.languages ++ [lang_id] })

/-- `add_unit`: 0 for none, `idx + 1` for a real entry. -/
def DictionaryBuilder.add_unit (b : DictionaryBuilder) (id : Option Id) :
    Nat × DictionaryBuilder :=
  match id with
  | none => (0, b)
  | some unit_id =>
    match idx_of b.units unit_id with
    | some idx => (idx + 1, b)
    | none => (b.units.length + 1, { b with units := b.units ++ [unit_id] })

def DictionaryBuilder.add_object (b : DictionaryBuilder) (id : Id) :
    Nat × DictionaryBuilder :=
  match idx_of b.objects id with
  | some idx => (idx, b)
  | none => (b.objects.length, { b with objects := b.objects ++ [id] })

def DictionaryBuilder.add_context_id (b : DictionaryBuilder) (id : Id) :
    Nat × DictionaryBuilder :=
  match idx_of b.context_ids id with
  | some idx => (idx, b)
  | none => (b.context_ids.length, { b with context_ids := b.context_ids ++ [id] })

/-- `add_context`: register the root and edge ids, then intern the context by
structural equality. -/
def DictionaryBuilder.add_context (b : DictionaryBuilder) (context : Context) :
    Nat × DictionaryBuilder :=
  match ctx_idx_of b.contexts context with
  | some idx => (idx, b)
  | none =>
    let b := (b.add_context_id context.root_id).2
    let b := context.edges.foldl
      (fun b edge => ((b.add_relation_type edge.type_id).2.add_context_id edge.to_entity_id).2) b
    (b.contexts.length, { b with contexts := b.contexts ++ [context] })

def DictionaryBuilder.get_property_index (b : DictionaryBuilder) (id : Id) : Option Nat :=
  prop_idx_of b.properties id

/-- `get_language_index`: `some 0` for none, `idx + 1` for present entries. -/
def DictionaryBuilder.get_language_index (b : DictionaryBuilder) (id : Option Id) : Option Nat :=
  match id with
  | none => some 0
  | some lang_id => (idx_of b.languages lang_id).map (· + 1)

def DictionaryBuilder.get_object_index (b : DictionaryBuilder) (id : Id) : Option Nat :=
  idx_of b.objects id

/-- `DictionaryBuilder::build`. -/
def DictionaryBuilder.build (b : DictionaryBuilder) : WireDictionaries :=
  ⟨b.properties, b.relation_types, b.languages, b.units, b.objects, b.context_ids, b.contexts⟩

/-- `write_dictionaries`: properties (count then (id, tag) pairs) followed by
the five id vectors. -/
def DictionaryBuilder.write_dictionaries (b : DictionaryBuilder) : List Nat :=
  write_varint b.properties.length
    ++ (b.properties.map (fun p => p.1 ++ [p.2.toTag])).flatten
    ++ write_id_vec b.relation_types
    ++ write_id_vec b.languages
    ++ write_id_vec b.units
    ++ write_id_vec b.objects
    ++ write_id_vec b.context_ids

/-- `write_contexts`.  The Rust `.expect(...)` lookups are modelled with
`getD 0`; `add_context` guarantees the ids are present. -/
def DictionaryBuilder.write_contexts (b : DictionaryBuilder) : List Nat :=
  write_varint b.contexts.length
    ++ (b.contexts.map (fun ctx =>
          write_varint ((idx_of b.context_ids ctx.root_id).getD 0)
          ++ write_varint ctx.edges.length
          ++ (ctx.edges.map (fun edge =>
                write_varint ((idx_of b.relation_types edge.type_id).getD 0)
                ++ write_varint ((idx_of b.context_ids edge.to_entity_id).getD 0))).flatten)).flatten

/-- `validate_limits`. -/
def DictionaryBuilder.validate_limits (b : DictionaryBuilder) : Except EncodeError Unit :=
  if b.properties.length > MAX_DICT_SIZE then
    .error (.lengthExceedsLimit "properties" b.properties.length MAX_DICT_SIZE)
  else if b.relation_types.length > MAX_DICT_SIZE then
    .error (.lengthExceedsLimit "relation_types" b.relation_types.length MAX_DICT_SIZE)
  else if b.languages.length > MAX_DICT_SIZE then
    .error (.lengthExceedsLimit "languages" b.languages.length MAX_DICT_SIZE)
  else if b.units.length > MAX_DICT_SIZE then
    .error (.lengthExceedsLimit "units" b.units.length MAX_DICT_SIZE)
  else if b.objects.length > MAX_DICT_SIZE then
    .error (.lengthExceedsLimit "objects" b.objects.length MAX_DICT_SIZE)
  else if b.context_ids.length > MAX_DICT_SIZE then
    .error (.lengthExceedsLimit "context_ids" b.context_ids.length MAX_DICT_SIZE)
  else if b.contexts.length > MAX_DICT_SIZE then
    .error (.lengthExceedsLimit "contexts" b.contexts.length MAX_DICT_SIZE)
  else
    match b.contexts.find? (fun ctx => ctx.edges.length > MAX_DICT_SIZE) with
    | some ctx => .error (.lengthExceedsLimit "context_edges" ctx.edges.length MAX_DICT_SIZE)
    | none => .ok ()

/-! ### Sorting for canonical form (`into_sorted`)

Rust's stable `sort`/`sort_by` is modelled by Mathlib's stable
`List.insertionSort` with the corresponding ≤ relation. -/

/-- Lexicographic `≤` on byte lists (`[u8; 16]::cmp` for equal lengths). -/
def bytes_le : List Nat → List Nat → Bool
  | [], _ => true
  | _ :: _, [] => false
  | a :: arest, b :: brest =>
    if a < b then true else if b < a then false else bytes_le arest brest

/-- Lexicographic `<` on byte lists. -/
def bytes_lt : List Nat → List Nat → Bool
  | [], [] => false
  | [], _ :: _ => true
  | _ :: _, [] => false
  | a :: arest, b :: brest =>
    if a < b then true else if b < a then false else bytes_lt arest brest

/-- `≤` on edge lists ordered as `Vec<(type_id, to_entity_id)>::cmp`. -/
def edges_le : List ContextEdge → List ContextEdge → Bool
  | [], _ => true
  | _ :: _, [] => false
  | e :: erest, f :: frest =>
    if bytes_lt e.type_id f.type_id then true
    else if bytes_lt f.type_id e.type_id then false
    else if bytes_lt e.to_entity_id f.to_entity_id then true
    else if bytes_lt f.to_entity_id e.to_entity_id then false
    else edges_le erest frest

/-- The context comparison of `into_sorted`: by `root_id`, then edges. -/
def context_le (a b : Context) : Bool :=
  if bytes_lt a.root_id b.root_id then true
  else if bytes_lt b.root_id a.root_id then false
  else edges_le a.edges b.edges

def sort_ids (l : List Id) : List Id :=
  l.insertionSort (fun a b => bytes_le a b)

/-- `DictionaryBuilder::into_sorted`: stable-sort every dictionary by raw id
bytes and the contexts by `(root_id, edges)`. -/
def DictionaryBuilder.into_sorted (b : DictionaryBuilder) : DictionaryBuilder where
  properties := b.properties.insertionSort (fun p q => bytes_le p.1 q.1)
  relation_types := sort_ids b.relation_types
  languages := sort_ids b.languages
  units := sort_ids b.units
  objects := sort_ids b.objects
  context_ids := sort_ids b.context_ids
  contexts := b.contexts.insertionSort (fun a b => context_le a b)


/-! ## Value codec — encoding (`codec/value.rs`) -/

/-- `encode_decimal` — normalization check, then exponent, mantissa tag and
mantissa payload. -/
def encode_decimal (exponent : Int) (mantissa : DecimalMantissa) :
    Except EncodeError (List Nat) := do
  let _ ←
    match mantissa with
    | .i64 v =>
      if v = 0 then
        if exponent ≠ 0 then Except.error EncodeError.decimalNotNormalized else pure ()
      else if v % 10 = 0 then Except.error EncodeError.decimalNotNormalized
      else pure ()
    | .big bytes =>
      if is_big_mantissa_zero bytes then
        if exponent ≠ 0 then Except.error EncodeError.decimalNotNormalized else pure ()
      else if is_big_mantissa_divisible_by_10 bytes then
        Except.error EncodeError.decimalNotNormalized
      else pure ()
  match mantissa with
  | .i64 v => .ok (write_signed_varint exponent ++ [0] ++ write_signed_varint v)
  | .big bytes =>
    .ok (write_signed_varint exponent ++ [1] ++ write_varint bytes.length ++ bytes)

/-- `encode_value`: emits the payload while interning units/languages in the
builder. -/
def encode_value (b : DictionaryBuilder) (v : Value) :
    Except EncodeError (List Nat × DictionaryBuilder) :=
  match v with
  | .bool v => .ok ([if v then 1 else 0], b)
  | .int64 value unit =>
    let (unit_index, b) := b.add_unit unit
    .ok (write_signed_varint value ++ write_varint unit_index, b)
  | .float64 value unit =>
    if f64_is_nan value then .error .floatIsNan
    else
      let (unit_index, b) := b.add_unit unit
      .ok (nat_to_le 8 value ++ write_varint unit_index, b)
  | .decimal exponent mantissa unit => do
    let dec ← encode_decimal exponent mantissa
    let (unit_index, b) := b.add_unit unit
    .ok (dec ++ write_varint unit_index, b)
  | .text value language =>
    let (lang_index, b) := b.add_language language
    .ok (write_string value ++ write_varint lang_index, b)
  | .bytes data => .ok (write_bytes_prefixed data, b)
  | .date days offset_min =>
    if offset_min < -1440 ∨ offset_min > 1440 then
      .error (.invalidInput "DATE offset_min outside range")
    else .ok (int_to_le 4 days ++ int_to_le 2 offset_min, b)
  | .time time_us offset_min =>
    if time_us < 0 ∨ time_us > 86399999999 then
      .error (.invalidInput "TIME time_us outside range")
    else if offset_min < -1440 ∨ offset_min > 1440 then
      .error (.invalidInput "TIME offset_min outside range")
    else
      -- the first 6 of the 8 little-endian bytes of the i64
      .ok (int_to_le 6 time_us ++ int_to_le 2 offset_min, b)
  | .datetime epoch_us offset_min =>
    if offset_min < -1440 ∨ offset_min > 1440 then
      .error (.invalidInput "DATETIME offset_min outside range")
    else .ok (int_to_le 8 epoch_us ++ int_to_le 2 offset_min, b)
  | .schedule s => .ok (write_string s, b)
  | .point lat lon alt =>
    if f64_lt lat F64_NEG_90 || f64_lt F64_POS_90 lat then
      .error (.latitudeOutOfRange lat)
    else if f64_lt lon F64_NEG_180 || f64_lt F64_POS_180 lon then
      .error (.longitudeOutOfRange lon)
    else if f64_is_nan lat || f64_is_nan lon then .error .floatIsNan
    else if (alt.map f64_is_nan).getD false then .error .floatIsNan
    else
      let ordinate_count : Nat := if alt.isSome then 3 else 2
      .ok ([ordinate_count] ++ nat_to_le 8 lat ++ nat_to_le 8 lon
            ++ (match alt with | some a => nat_to_le 8 a | none => []), b)
  | .rect min_lat min_lon max_lat max_lon =>
    if f64_lt min_lat F64_NEG_90 || f64_lt F64_POS_90 min_lat
        || f64_lt max_lat F64_NEG_90 || f64_lt F64_POS_90 max_lat then
      .error (.latitudeOutOfRange
        (if f64_lt min_lat F64_NEG_90 || f64_lt F64_POS_90 min_lat then min_lat else max_lat))
    else if f64_lt min_lon F64_NEG_180 || f64_lt F64_POS_180 min_lon
        || f64_lt max_lon F64_NEG_180 || f64_lt F64_POS_180 max_lon then
      .error (.longitudeOutOfRange
        (if f64_lt min_lon F64_NEG_180 || f64_lt F64_POS_180 min_lon then min_lon else max_lon))
    else if f64_is_nan min_lat || f64_is_nan min_lon || f64_is_nan max_lat || f64_is_nan max_lon then
      .error .floatIsNan
    else
      .ok (nat_to_le 8 min_lat ++ nat_to_le 8 min_lon
            ++ nat_to_le 8 max_lat ++ nat_to_le 8 max_lon, b)
  | .embedding sub_type dims data =>
    let expected := sub_type.bytes_for_dims dims
    if data.length ≠ expected then
      .error (.embeddingDimensionMismatch sub_type.toTag dims data.length)
    else if sub_type = .float32 ∧ ¬ f32_chunks_no_nan data then
      .error .floatIsNan
    else
      .ok ([sub_type.toTag] ++ write_varint dims ++ data, b)

/-- `encode_property_value` — property index then value payload. -/
def encode_property_value (b : DictionaryBuilder) (pv : PropertyValue) (data_type : DataType) :
    Except EncodeError (List Nat × DictionaryBuilder) := do
  let (prop_index, b) := b.add_property pv.property data_type
  let (vbytes, b) ← encode_value b pv.value
  .ok (write_varint prop_index ++ vbytes, b)

/-! ## Op codec — decoding (`codec/op.rs`) -/

/-- The repeated `ObjectRef` resolution (varint index into `objects`). -/
def resolve_object (dicts : WireDictionaries) (index : Nat) : Except DecodeError Id :=
  if index ≥ dicts.objects.length then
    .error (.indexOutOfBounds "objects" index dicts.objects.length)
  else .ok (dicts.objects.getD index [])

def decode_property_values (dicts : WireDictionaries) :
    Nat → List Nat → Except DecodeError (List PropertyValue × List Nat)
  | 0, bs => .ok ([], bs)
  | n + 1, bs => do
    let (pv, bs) ← decode_property_value dicts bs
    let (pvs, bs) ← decode_property_values dicts n bs
    .ok (pv :: pvs, bs)

def decode_create_entity (dicts : WireDictionaries) (bs : List Nat) :
    Except DecodeError (Op × List Nat) := do
  let (id, bs) ← read_id "entity_id" bs
  let (value_count, bs) ← read_varint "value_count" bs
  if value_count > MAX_VALUES_PER_ENTITY then
    .error (.lengthExceedsLimit "values" value_count MAX_VALUES_PER_ENTITY)
  else do
    let (values, bs) ← decode_property_values dicts value_count bs
    .ok (.createEntity ⟨id, values, none⟩, bs)

/-- One entry of the `unset_values` loop in `decode_update_entity`.  The
language varint is cast `as u32` in the source, i.e. reduced mod `2^32`,
before the sentinel comparison. -/
def decode_unset_value (dicts : WireDictionaries) (bs : List Nat) :
    Except DecodeError (UnsetValue × List Nat) := do
  let (prop_index, bs) ← read_varint "property" bs
  if prop_index ≥ dicts.properties.length then
    .error (.indexOutOfBounds "properties" prop_index dicts.properties.length)
  else do
    let property := (dicts.properties.getD prop_index ([], .bool)).1
    let (lv, bs) ← read_varint "unset.language" bs
    let lang_value := lv % 2 ^ 32
    if lang_value = 0xFFFFFFFF then
      .ok (⟨property, .all⟩, bs)
    else if lang_value = 0 then
      .ok (⟨property, .nonLinguistic⟩, bs)
    else if lang_value - 1 ≥ dicts.languages.length then
      .error (.indexOutOfBounds "languages" lang_value (dicts.languages.length + 1))
    else
      .ok (⟨property, .specific (dicts.languages.getD (lang_value - 1) [])⟩, bs)

def decode_unset_values (dicts : WireDictionaries) :
    Nat → List Nat → Except DecodeError (List UnsetValue × List Nat)
  | 0, bs => .ok ([], bs)
  | n + 1, bs => do
    let (u, bs) ← decode_unset_value dicts bs
    let (us, bs) ← decode_unset_values dicts n bs
    .ok (u :: us, bs)

def decode_update_entity (dicts : WireDictionaries) (bs : List Nat) :
    Except DecodeError (Op × List Nat) := do
  let (id_index, bs) ← read_varint "entity_id" bs
  let id ← resolve_object dicts id_index
  let (flags, bs) ← read_byte "update_flags" bs
  if flags &&& 0xFC ≠ 0 then
    .error (.reservedBitsSet "UpdateEntity flags")
  else do
    let (set_properties, bs) ←
      if flags &&& 0x01 ≠ 0 then do
        let (count, bs) ← read_varint "set_properties_count" bs
        if count > MAX_VALUES_PER_ENTITY then
          Except.error (.lengthExceedsLimit "set_properties" count MAX_VALUES_PER_ENTITY)
        else
          decode_property_values dicts count bs
      else pure ([], bs)
    let (unset_values, bs) ←
      if flags &&& 0x02 ≠ 0 then do
        let (count, bs) ← read_varint "unset_values_count" bs
        if count > MAX_VALUES_PER_ENTITY then
          Except.error (.lengthExceedsLimit "unset_values" count MAX_VALUES_PER_ENTITY)
        else
          decode_unset_values dicts count bs
      else pure ([], bs)
    .ok (.updateEntity ⟨id, set_properties, unset_values, none⟩, bs)

def decode_delete_entity (dicts : WireDictionaries) (bs : List Nat) :
    Except DecodeError (Op × List Nat) := do
  let (id_index, bs) ← read_varint "entity_id" bs
  let id ← resolve_object dicts id_index
  .ok (.deleteEntity ⟨id, none⟩, bs)

def decode_restore_entity (dicts : WireDictionaries) (bs : List Nat) :
    Except DecodeError (Op × List Nat) := do
  let (id_index, bs) ← read_varint "entity_id" bs
  let id ← resolve_object dicts id_index
  .ok (.restoreEntity ⟨id, none⟩, bs)

def decode_create_relation (dicts : WireDictionaries) (bs : List Nat) :
    Except DecodeError (Op × List Nat) := do
  let (id, bs) ← read_id "relation_id" bs
  let (type_index, bs) ← read_varint "relation_type" bs
  if type_index ≥ dicts.relation_types.length then
    .error (.indexOutOfBounds "relation_types" type_index dicts.relation_types.length)
  else do
    let relation_type := dicts.relation_types.getD type_index []
    let (flags, bs) ← read_byte "relation_flags" bs
    let from_is_value_ref := flags &&& 0x40 ≠ 0
    let to_is_value_ref := flags &&& 0x80 ≠ 0
    let (from_, bs) ←
      if from_is_value_ref then read_id "from" bs
      else do
        let (from_index, bs) ← read_varint "from" bs
        let f ← resolve_object dicts from_index
        pure (f, bs)
    let (to_, bs) ←
      if to_is_value_ref then read_id "to" bs
      else do
        let (to_index, bs) ← read_varint "to" bs
        let t ← resolve_object dicts to_index
        pure (t, bs)
    let (from_space, bs) ←
      if flags &&& 0x01 ≠ 0 then do
        let (v, bs) ← read_id "from_space" bs
        pure (some v, bs)
      else pure (none, bs)
    let (from_version, bs) ←
      if flags &&& 0x02 ≠ 0 then do
        let (v, bs) ← read_id "from_version" bs
        pure (some v, bs)
      else pure (none, bs)
    let (to_space, bs) ←
      if flags &&& 0x04 ≠ 0 then do
        let (v, bs) ← read_id "to_space" bs
        pure (some v, bs)
      else pure (none, bs)
    let (to_version, bs) ←
      if flags &&& 0x08 ≠ 0 then do
        let (v, bs) ← read_id "to_version" bs
        pure (some v, bs)
      else pure (none, bs)
    let (entity, bs) ←
      if flags &&& 0x10 ≠ 0 then do
        let (v, bs) ← read_id "entity_id" bs
        pure (some v, bs)
      else pure (none, bs)
    let (position, bs) ←
      if flags &&& 0x20 ≠ 0 then do
        let (v, bs) ← decode_position bs
        pure (some v, bs)
      else pure (none, bs)
    .ok (.createRelation
      ⟨id, relation_type, from_, from_is_value_ref, from_space, from_version,
        to_, to_is_value_ref, to_space, to_version, entity, position, none⟩, bs)

def decode_update_relation (dicts : WireDictionaries) (bs : List Nat) :
    Except DecodeError (Op × List Nat) := do
  let (id_index, bs) ← read_varint "relation_id" bs
  let id ← resolve_object dicts id_index
  let (set_flags, bs) ← read_byte "set_flags" bs
  let (unset_flags, bs) ← read_byte "unset_flags" bs
  if set_flags &&& 0xE0 ≠ 0 then
    .error (.reservedBitsSet "UpdateRelation set_flags")
  else if unset_flags &&& 0xE0 ≠ 0 then
    .error (.reservedBitsSet "UpdateRelation unset_flags")
  else do
    let (from_space, bs) ←
      if set_flags &&& 0x01 ≠ 0 then do
        let (v, bs) ← read_id "from_space" bs
        pure (some v, bs)
      else pure (none, bs)
    let (from_version, bs) ←
      if set_flags &&& 0x02 ≠ 0 then do
        let (v, bs) ← read_id "from_version" bs
        pure (some v, bs)
      else pure (none, bs)
    let (to_space, bs) ←
      if set_flags &&& 0x04 ≠ 0 then do
        let (v, bs) ← read_id "to_space" bs
        pure (some v, bs)
      else pure (none, bs)
    let (to_version, bs) ←
      if set_flags &&& 0x08 ≠ 0 then do
        let (v, bs) ← read_id "to_version" bs
        pure (some v, bs)
      else pure (none, bs)
    let (position, bs) ←
      if set_flags &&& 0x10 ≠ 0 then do
        let (v, bs) ← decode_position bs
        pure (some v, bs)
      else pure (none, bs)
    -- unset list rebuilt from the bits in fixed field order
    let unset : List UnsetRelationField :=
      (if unset_flags &&& 0x01 ≠ 0 then [UnsetRelationField.fromSpace] else [])
      ++ (if unset_flags &&& 0x02 ≠ 0 then [UnsetRelationField.fromVersion] else [])
      ++ (if unset_flags &&& 0x04 ≠ 0 then [UnsetRelationField.toSpace] else [])
      ++ (if unset_flags &&& 0x08 ≠ 0 then [UnsetRelationField.toVersion] else [])
      ++ (if unset_flags &&& 0x10 ≠ 0 then [UnsetRelationField.position] else [])
    .ok (.updateRelation
      ⟨id, from_space, from_version, to_space, to_version, position, unset, none⟩, bs)

def decode_delete_relation (dicts : WireDictionaries) (bs : List Nat) :
    Except DecodeError (Op × List Nat) := do
  let (id_index, bs) ← read_varint "relation_id" bs
  let id ← resolve_object dicts id_index
  .ok (.deleteRelation ⟨id, none⟩, bs)

def decode_restore_relation (dicts : WireDictionaries) (bs : List Nat) :
    Except DecodeError (Op × List Nat) := do
  let (id_index, bs) ← read_varint "relation_id" bs
  let id ← resolve_object dicts id_index
  .ok (.restoreRelation ⟨id, none⟩, bs)

def decode_create_value_ref (dicts : WireDictionaries) (bs : List Nat) :
    Except DecodeError (Op × List Nat) := do
  let (id, bs) ← read_id "value_ref_id" bs
  let (entity_index, bs) ← read_varint "entity" bs
  let entity ← resolve_object dicts entity_index
  let (property_index, bs) ← read_varint "property" bs
  if property_index ≥ dicts.properties.length then
    .error (.indexOutOfBounds "properties" property_index dicts.properties.length)
  else do
    let (property, data_type) := dicts.properties.getD property_index ([], .bool)
    let (flags, bs) ← read_byte "value_ref_flags" bs
    if flags &&& 0xFC ≠ 0 then
      .error (.reservedBitsSet "CreateValueRef flags")
    else do
      let (language, bs) ←
        if flags &&& 0x01 ≠ 0 then
          if data_type ≠ DataType.text then
            Except.error (.malformedEncoding
              "CreateValueRef has_language but property DataType is not TEXT")
          else do
            let (lang_index, bs) ← read_varint "language" bs
            if lang_index = 0 then pure (none, bs)
            else if lang_index - 1 ≥ dicts.languages.length then
              Except.error (.indexOutOfBounds "languages" lang_index (dicts.languages.length + 1))
            else pure (some (dicts.languages.getD (lang_index - 1) []), bs)
        else pure (none, bs)
      let (space, bs) ←
        if flags &&& 0x02 ≠ 0 then do
          let (v, bs) ← read_id "space" bs
          pure (some v, bs)
        else pure (none, bs)
      .ok (.createValueRef ⟨id, entity, property, language, space⟩, bs)

/-- `decode_op` — read the op-type byte and dispatch. -/
def decode_op (dicts : WireDictionaries) (bs : List Nat) :
    Except DecodeError (Op × List Nat) := do
  let (op_type, bs) ← read_byte "op_type" bs
  match op_type with
  | 1 => decode_create_entity dicts bs
  | 2 => decode_update_entity dicts bs
  | 3 => decode_delete_entity dicts bs
  | 4 => decode_restore_entity dicts bs
  | 5 => decode_create_relation dicts bs
  | 6 => decode_update_relation dicts bs
  | 7 => decode_delete_relation dicts bs
  | 8 => decode_restore_relation dicts bs
  | 9 => decode_create_value_ref dicts bs
  | _ => .error (.invalidOpType op_type)


/-! ## Op codec — encoding (`codec/op.rs`)

Both call sites of `encode_op` (`encode_edit_fast` and the canonical pass 1)
pass an empty `property_types` map, so the `data_type` picked for every
property value is `pv.value.data_type()`; the map parameter is dropped here. -/

def encode_property_values (b : DictionaryBuilder) :
    List PropertyValue → Except EncodeError (List Nat × DictionaryBuilder)
  | [] => .ok ([], b)
  | pv :: rest => do
    let (bytes, b) ← encode_property_value b pv pv.value.data_type
    let (more, b) ← encode_property_values b rest
    .ok (bytes ++ more, b)

def encode_create_entity (b : DictionaryBuilder) (ce : CreateEntity) :
    Except EncodeError (List Nat × DictionaryBuilder) := do
  let (vbytes, b) ← encode_property_values b ce.values
  .ok ([1] ++ ce.id ++ write_varint ce.values.length ++ vbytes, b)

/-- The `unset_values` loop of `encode_update_entity`: a placeholder
`DataType::Bool` is used to intern the property. -/
def encode_unset_values (b : DictionaryBuilder) :
    List UnsetValue → List Nat × DictionaryBuilder
  | [] => ([], b)
  | u :: rest =>
    let (idx, b) := b.add_property u.property .bool
    let (lang_value, b) :=
      match u.language with
      | .all => (0xFFFFFFFF, b)
      | .nonLinguistic => (0, b)
      | .specific lang_id => b.add_language (some lang_id)
    let (more, b) := encode_unset_values b rest
    (write_varint idx ++ write_varint lang_value ++ more, b)

def encode_update_entity (b : DictionaryBuilder) (ue : UpdateEntity) :
    Except EncodeError (List Nat × DictionaryBuilder) := do
  let (id_index, b) := b.add_object ue.id
  let flags : Nat :=
    (if ue.set_properties ≠ [] then 0x01 else 0)
    ||| (if ue.unset_values ≠ [] then 0x02 else 0)
  let (set_bytes, b) ←
    if ue.set_properties ≠ [] then do
      let (vbytes, b) ← encode_property_values b ue.set_properties
      pure (write_varint ue.set_properties.length ++ vbytes, b)
    else pure ([], b)
  let (unset_bytes, b) :=
    if ue.unset_values ≠ [] then
      let (ubytes, b) := encode_unset_values b ue.unset_values
      (write_varint ue.unset_values.length ++ ubytes, b)
    else ([], b)
  .ok ([2] ++ write_varint id_index ++ [flags] ++ set_bytes ++ unset_bytes, b)

def encode_delete_entity (b : DictionaryBuilder) (de : DeleteEntity) :
    List Nat × DictionaryBuilder :=
  let (id_index, b) := b.add_object de.id
  ([3] ++ write_varint id_index, b)

def encode_restore_entity (b : DictionaryBuilder) (re : RestoreEntity) :
    List Nat × DictionaryBuilder :=
  let (id_index, b) := b.add_object re.id
  ([4] ++ write_varint id_index, b)

def encode_create_relation (b : DictionaryBuilder) (cr : CreateRelation) :
    Except EncodeError (List Nat × DictionaryBuilder) := do
  let (type_index, b) := b.add_relation_type cr.relation_type
  let flags : Nat :=
    (if cr.from_space.isSome then 0x01 else 0)
    ||| (if cr.from_version.isSome then 0x02 else 0)
    ||| (if cr.to_space.isSome then 0x04 else 0)
    ||| (if cr.to_version.isSome then 0x08 else 0)
    ||| (if cr.entity.isSome then 0x10 else 0)
    ||| (if cr.position.isSome then 0x20 else 0)
    ||| (if cr.from_is_value_ref then 0x40 else 0)
    ||| (if cr.to_is_value_ref then 0x80 else 0)
  let (from_bytes, b) :=
    if cr.from_is_value_ref then (cr.from_, b)
    else
      let (from_index, b) := b.add_object cr.from_
      (write_varint from_index, b)
  let (to_bytes, b) :=
    if cr.to_is_value_ref then (cr.to_, b)
    else
      let (to_index, b) := b.add_object cr.to_
      (write_varint to_index, b)
  let position_bytes ←
    match cr.position with
    | some pos => do
      let _ ← validate_position pos
      pure (write_string pos)
    | none => pure []
  .ok ([5] ++ cr.id ++ write_varint type_index ++ [flags]
        ++ from_bytes ++ to_bytes
        ++ (cr.from_space.getD []) ++ (cr.from_version.getD [])
        ++ (cr.to_space.getD []) ++ (cr.to_version.getD [])
        ++ (cr.entity.getD []) ++ position_bytes, b)

def unset_relation_field_bit : UnsetRelationField → Nat
  | .fromSpace => 0x01
  | .fromVersion => 0x02
  | .toSpace => 0x04
  | .toVersion => 0x08
  | .position => 0x10

def encode_update_relation (b : DictionaryBuilder) (ur : UpdateRelation) :
    Except EncodeError (List Nat × DictionaryBuilder) := do
  let (id_index, b) := b.add_object ur.id
  let set_flags : Nat :=
    (if ur.from_space.isSome then 0x01 else 0)
    ||| (if ur.from_version.isSome then 0x02 else 0)
    ||| (if ur.to_space.isSome then 0x04 else 0)
    ||| (if ur.to_version.isSome then 0x08 else 0)
    ||| (if ur.position.isSome then 0x10 else 0)
  let unset_flags : Nat :=
    ur.unset.foldl (fun acc f => acc ||| unset_relation_field_bit f) 0
  let position_bytes ←
    match ur.position with
    | some pos => do
      let _ ← validate_position pos
      pure (write_string pos)
    | none => pure []
  .ok ([6] ++ write_varint id_index ++ [set_flags] ++ [unset_flags]
        ++ (ur.from_space.getD []) ++ (ur.from_version.getD [])
        ++ (ur.to_space.getD []) ++ (ur.to_version.getD [])
        ++ position_bytes, b)

def encode_delete_relation (b : DictionaryBuilder) (dr : DeleteRelation) :
    List Nat × DictionaryBuilder :=
  let (id_index, b) := b.add_object dr.id
  ([7] ++ write_varint id_index, b)

def encode_restore_relation (b : DictionaryBuilder) (rr : RestoreRelation) :
    List Nat × DictionaryBuilder :=
  let (id_index, b) := b.add_object rr.id
  ([8] ++ write_varint id_index, b)

/-- `encode_create_value_ref` — the property is interned with placeholder
type Text (when a language is present) or Bool. -/
def encode_create_value_ref (b : DictionaryBuilder) (cvr : CreateValueRef) :
    List Nat × DictionaryBuilder :=
  let (entity_index, b) := b.add_object cvr.entity
  let data_type : DataType := if cvr.language.isSome then .text else .bool
  let (property_index, b) := b.add_property cvr.property data_type
  let flags : Nat :=
    (if cvr.language.isSome then 0x01 else 0)
    ||| (if cvr.space.isSome then 0x02 else 0)
  let (lang_bytes, b) :=
    match cvr.language with
    | some lang_id =>
      let (lang_index, b) := b.add_language (some lang_id)
      (write_varint lang_index, b)
    | none => ([], b)
  ([9] ++ cvr.id ++ write_varint entity_index ++ write_varint property_index
    ++ [flags] ++ lang_bytes ++ (cvr.space.getD []), b)

/-- `encode_op` — dispatch (op-type byte written by each case). -/
def encode_op (b : DictionaryBuilder) (op : Op) :
    Except EncodeError (List Nat × DictionaryBuilder) :=
  match op with
  | .createEntity ce => encode_create_entity b ce
  | .updateEntity ue => encode_update_entity b ue
  | .deleteEntity de => .ok (encode_delete_entity b de)
  | .restoreEntity re => .ok (encode_restore_entity b re)
  | .createRelation cr => encode_create_relation b cr
  | .updateRelation ur => encode_update_relation b ur
  | .deleteRelation dr => .ok (encode_delete_relation b dr)
  | .restoreRelation rr => .ok (encode_restore_relation b rr)
  | .createValueRef cvr => .ok (encode_create_value_ref b cvr)


/-! ## Edit codec — decoding (`codec/edit.rs`) -/

/-- The property-dictionary read loop with duplicate detection (`seen` is the
hash set of already-read ids). -/
def read_properties (seen : List Id) :
    Nat → List Nat → Except DecodeError (List (Id × DataType) × List Nat)
  | 0, bs => .ok ([], bs)
  | n + 1, bs => do
    let (id, bs) ← read_id "property_id" bs
    if id ∈ seen then
      .error (.duplicateDictionaryEntry "properties" id)
    else do
      let (dt_byte, bs) ← read_byte "data_type" bs
      match DataType.from_u8 dt_byte with
      | none => .error (.invalidDataType dt_byte)
      | some data_type => do
        let (rest, bs) ← read_properties (id :: seen) n bs
        .ok ((id, data_type) :: rest, bs)

def read_ids_no_duplicates (field : String) (seen : List Id) :
    Nat → List Nat → Except DecodeError (List Id × List Nat)
  | 0, bs => .ok ([], bs)
  | n + 1, bs => do
    let (id, bs) ← read_id field bs
    if id ∈ seen then
      .error (.duplicateDictionaryEntry field id)
    else do
      let (ids, bs) ← read_ids_no_duplicates field (id :: seen) n bs
      .ok (id :: ids, bs)

/-- `read_id_vec_no_duplicates`. -/
def read_id_vec_no_duplicates (max_len : Nat) (field : String) (bs : List Nat) :
    Except DecodeError (List Id × List Nat) := do
  let (count, bs) ← read_varint field bs
  if count > max_len then
    .error (.lengthExceedsLimit field count max_len)
  else
    read_ids_no_duplicates field [] count bs

def decode_context_edges (dicts : WireDictionaries) :
    Nat → List Nat → Except DecodeError (List ContextEdge × List Nat)
  | 0, bs => .ok ([], bs)
  | n + 1, bs => do
    let (type_id_index, bs) ← read_varint "edge_type_id" bs
    if type_id_index ≥ dicts.relation_types.length then
      .error (.indexOutOfBounds "relation_types" type_id_index dicts.relation_types.length)
    else do
      let type_id := dicts.relation_types.getD type_id_index []
      let (to_entity_id_index, bs) ← read_varint "edge_to_entity_id" bs
      if to_entity_id_index ≥ dicts.context_ids.length then
        .error (.indexOutOfBounds "context_ids" to_entity_id_index dicts.context_ids.length)
      else do
        let to_entity_id := dicts.context_ids.getD to_entity_id_index []
        let (edges, bs) ← decode_context_edges dicts n bs
        .ok (⟨type_id, to_entity_id⟩ :: edges, bs)

/-- `decode_context`. -/
def decode_context (dicts : WireDictionaries) (bs : List Nat) :
    Except DecodeError (Context × List Nat) := do
  let (root_id_index, bs) ← read_varint "root_id" bs
  if root_id_index ≥ dicts.context_ids.length then
    .error (.indexOutOfBounds "context_ids" root_id_index dicts.context_ids.length)
  else do
    let root_id := dicts.context_ids.getD root_id_index []
    let (edge_count, bs) ← read_varint "edge_count" bs
    if edge_count > MAX_DICT_SIZE then
      .error (.lengthExceedsLimit "context_edges" edge_count MAX_DICT_SIZE)
    else do
      let (edges, bs) ← decode_context_edges dicts edge_count bs
      .ok (⟨root_id, edges⟩, bs)

def decode_contexts (dicts : WireDictionaries) :
    Nat → List Nat → Except DecodeError (List Context × List Nat)
  | 0, bs => .ok ([], bs)
  | n + 1, bs => do
    let (ctx, bs) ← decode_context dicts bs
    let (ctxs, bs) ← decode_contexts dicts n bs
    .ok (ctx :: ctxs, bs)

def decode_ops (dicts : WireDictionaries) :
    Nat → List Nat → Except DecodeError (List Op × List Nat)
  | 0, bs => .ok ([], bs)
  | n + 1, bs => do
    let (op, bs) ← decode_op dicts bs
    let (ops, bs) ← decode_ops dicts n bs
    .ok (op :: ops, bs)

/-- `decode_edit_borrowed`: header, dictionaries, contexts, ops.  The decoder
does not require the input to be fully consumed. -/
def decode_edit_borrowed (input : List Nat) : Except DecodeError Edit := do
  let bs := input
  let (_, bs) ← read_bytes 4 "magic" bs
  let (version, bs) ← read_byte "version" bs
  if version < MIN_FORMAT_VERSION ∨ version > FORMAT_VERSION then
    .error (.unsupportedVersion version)
  else do
    let (edit_id, bs) ← read_id "edit_id" bs
    let (name, bs) ← read_str MAX_STRING_LEN "name" bs
    let (authors, bs) ← read_id_vec MAX_AUTHORS "authors" bs
    let (created_at, bs) ← read_signed_varint "created_at" bs
    let (property_count, bs) ← read_varint "property_count" bs
    if property_count > MAX_DICT_SIZE then
      .error (.lengthExceedsLimit "properties" property_count MAX_DICT_SIZE)
    else do
      let (properties, bs) ← read_properties [] property_count bs
      let (relation_types, bs) ← read_id_vec_no_duplicates MAX_DICT_SIZE "relation_types" bs
      let (languages, bs) ← read_id_vec_no_duplicates MAX_DICT_SIZE "languages" bs
      let (units, bs) ← read_id_vec_no_duplicates MAX_DICT_SIZE "units" bs
      let (objects, bs) ← read_id_vec_no_duplicates MAX_DICT_SIZE "objects" bs
      let (context_ids, bs) ← read_id_vec_no_duplicates MAX_DICT_SIZE "context_ids" bs
      let dicts0 : WireDictionaries :=
        ⟨properties, relation_types, languages, units, objects, context_ids, []⟩
      let (context_count, bs) ← read_varint "context_count" bs
      if context_count > MAX_DICT_SIZE then
        .error (.lengthExceedsLimit "contexts" context_count MAX_DICT_SIZE)
      else do
        let (contexts, bs) ← decode_contexts dicts0 context_count bs
        let dicts := { dicts0 with contexts := contexts }
        let (op_count, bs) ← read_varint "op_count" bs
        if op_count > MAX_OPS_PER_EDIT then
          .error (.lengthExceedsLimit "ops" op_count MAX_OPS_PER_EDIT)
        else do
          let (ops, _) ← decode_ops dicts op_count bs
          .ok ⟨edit_id, name, authors, created_at, ops⟩

/-- `decode_edit`: magic dispatch, size limit, then the borrowed decode.  The
`GRC2Z` branch decompresses with the external `zstd` crate; no claim concerns
compressed inputs, so that branch is represented by its failure result. -/
def decode_edit (input : List Nat) : Except DecodeError Edit :=
  if input.length < 4 then .error (.unexpectedEof "magic")
  else if input.length ≥ 5 ∧ input.take 5 = MAGIC_COMPRESSED then
    .error (.decompressionFailed "zstd decompression is external to this model")
  else if input.take 4 = MAGIC_UNCOMPRESSED then
    if input.length > MAX_EDIT_SIZE then
      .error (.lengthExceedsLimit "edit" input.length MAX_EDIT_SIZE)
    else decode_edit_borrowed input
  else .error (.invalidMagic (input.take 4))

/-! ## Edit codec — encoding (`codec/edit.rs`) -/

structure EncodeOptions where
  canonical : Bool
deriving DecidableEq, Repr

def validate_context_limits (context : Context) : Except EncodeError Unit :=
  if context.edges.length > MAX_DICT_SIZE then
    .error (.lengthExceedsLimit "context_edges" context.edges.length MAX_DICT_SIZE)
  else .ok ()

def op_context : Op → Option Context
  | .createEntity ce => ce.context
  | .updateEntity ue => ue.context
  | .deleteEntity de => de.context
  | .restoreEntity re => re.context
  | .createRelation cr => cr.context
  | .updateRelation ur => ur.context
  | .deleteRelation dr => dr.context
  | .restoreRelation rr => rr.context
  | .createValueRef _ => none

def validate_op_inputs (op : Op) : Except EncodeError Unit := do
  let _ ←
    match op with
    | .createEntity ce =>
      if ce.values.length > MAX_VALUES_PER_ENTITY then
        Except.error (.lengthExceedsLimit "values" ce.values.length MAX_VALUES_PER_ENTITY)
      else pure ()
    | .updateEntity ue =>
      if ue.set_properties.length > MAX_VALUES_PER_ENTITY then
        Except.error
          (.lengthExceedsLimit "set_properties" ue.set_properties.length MAX_VALUES_PER_ENTITY)
      else if ue.unset_values.length > MAX_VALUES_PER_ENTITY then
        Except.error
          (.lengthExceedsLimit "unset_values" ue.unset_values.length MAX_VALUES_PER_ENTITY)
      else pure ()
    | _ => pure ()
  match op_context op with
  | some ctx => validate_context_limits ctx
  | none => pure ()

def validate_ops_inputs : List Op → Except EncodeError Unit
  | [] => .ok ()
  | op :: rest => do
    let _ ← validate_op_inputs op
    validate_ops_inputs rest

/-- `validate_edit_inputs` — cheap size checks before any byte is emitted. -/
def validate_edit_inputs (edit : Edit) : Except EncodeError Unit := do
  if edit.name.length > MAX_STRING_LEN then
    .error (.lengthExceedsLimit "name" edit.name.length MAX_STRING_LEN)
  else if edit.authors.length > MAX_AUTHORS then
    .error (.lengthExceedsLimit "authors" edit.authors.length MAX_AUTHORS)
  else if edit.ops.length > MAX_OPS_PER_EDIT then
    .error (.lengthExceedsLimit "ops" edit.ops.length MAX_OPS_PER_EDIT)
  else
    validate_ops_inputs edit.ops

def encode_ops (b : DictionaryBuilder) :
    List Op → Except EncodeError (List Nat × DictionaryBuilder)
  | [] => .ok ([], b)
  | op :: rest => do
    let (bytes, b) ← encode_op b op
    let (more, b) ← encode_ops b rest
    .ok (bytes ++ more, b)

/-- `encode_edit_fast` — single pass: encode ops while building dictionaries,
then assemble magic, version, header, dictionaries, contexts, op count, ops. -/
def encode_edit_fast (edit : Edit) : Except EncodeError (List Nat) := do
  let (ops_bytes, dict_builder) ← encode_ops DictionaryBuilder.new edit.ops
  let _ ← dict_builder.validate_limits
  .ok (MAGIC_UNCOMPRESSED ++ [FORMAT_VERSION]
        ++ edit.id ++ write_string edit.name ++ write_id_vec edit.authors
        ++ write_signed_varint edit.created_at
        ++ dict_builder.write_dictionaries
        ++ dict_builder.write_contexts
        ++ write_varint edit.ops.length ++ ops_bytes)

/-! ### Canonical encoder (`codec/edit.rs`) -/

/-- `sort_and_check_values`: key each value by `(property_index,
language_index)` using the (sorted) builder, stable-sort, reject adjacent
duplicate keys with `DuplicateValue`. -/
def value_sort_key (b : DictionaryBuilder) (pv : PropertyValue) : Nat × Nat :=
  let prop_idx := (b.get_property_index pv.property).getD 0
  let lang_idx :=
    match pv.value with
    | .text _ language => (b.get_language_index language).getD 0
    | _ => 0
  (prop_idx, lang_idx)

def pair_le (a b : Nat × Nat) : Bool :=
  a.1 < b.1 || (a.1 = b.1 && a.2 ≤ b.2)

def value_language : Value → Option Id
  | .text _ language => language
  | _ => none

def find_adjacent_dup_value :
    List ((Nat × Nat) × PropertyValue) → Option PropertyValue
  | (k1, _) :: (k2, pv2) :: rest =>
    if k1 = k2 then some pv2 else find_adjacent_dup_value ((k2, pv2) :: rest)
  | _ => none

def sort_and_check_values (b : DictionaryBuilder) (values : List PropertyValue) :
    Except EncodeError (List PropertyValue) :=
  let indexed := values.map (fun pv => (value_sort_key b pv, pv))
  let sorted := indexed.insertionSort (fun x y => pair_le x.1 y.1)
  match find_adjacent_dup_value sorted with
  | some pv => .error (.duplicateValue pv.property (value_language pv.value))
  | none => .ok (sorted.map (·.2))

/-- `sort_and_check_unsets`: key `(property_index, language_sort_key)` with
`All → 0xFFFFFFFF`, the wire-0 variant (`English` in `edit.rs`,
`NonLinguistic` in `model/op.rs`) `→ 0`, `Specific(L) → language_index(L)`. -/
def unset_sort_key (b : DictionaryBuilder) (u : UnsetValue) : Nat × Nat :=
  let prop_idx := (b.get_property_index u.property).getD 0
  let lang_key : Nat :=
    match u.language with
    | .all => 0xFFFFFFFF
    | .nonLinguistic => 0
    | .specific lang_id => (b.get_language_index (some lang_id)).getD 0
  (prop_idx, lang_key)

def unset_language_id : UnsetLanguage → Option Id
  | .all => none
  | .nonLinguistic => none
  | .specific id => some id

def find_adjacent_dup_unset :
    List ((Nat × Nat) × UnsetValue) → Option UnsetValue
  | (k1, _) :: (k2, u2) :: rest =>
    if k1 = k2 then some u2 else find_adjacent_dup_unset ((k2, u2) :: rest)
  | _ => none

def sort_and_check_unsets (b : DictionaryBuilder) (unsets : List UnsetValue) :
    Except EncodeError (List UnsetValue) :=
  let indexed := unsets.map (fun u => (unset_sort_key b u, u))
  let sorted := indexed.insertionSort (fun x y => pair_le x.1 y.1)
  match find_adjacent_dup_unset sorted with
  | some u => .error (.duplicateUnset u.property (unset_language_id u.language))
  | none => .ok (sorted.map (·.2))

/-- `encode_op_canonical`: CreateEntity and UpdateEntity get sorted value and
unset lists plus a trailing context-ref varint (0xFFFFFFFF for "no context");
every other op delegates to the regular `encode_op`. -/
def encode_op_canonical (b : DictionaryBuilder) (op : Op) :
    Except EncodeError (List Nat × DictionaryBuilder) :=
  match op with
  | .createEntity ce => do
    let sorted_values ← sort_and_check_values b ce.values
    let (vbytes, b) ← encode_property_values b sorted_values
    let (context_ref, b) :=
      match ce.context with
      | some ctx => b.add_context ctx
      | none => (0xFFFFFFFF, b)
    .ok ([1] ++ ce.id ++ write_varint sorted_values.length ++ vbytes
          ++ write_varint context_ref, b)
  | .updateEntity ue => do
    let sorted_set ← sort_and_check_values b ue.set_properties
    let sorted_unset ← sort_and_check_unsets b ue.unset_values
    let (id_index, b) := b.add_object ue.id
    let flags : Nat :=
      (if sorted_set ≠ [] then 0x01 else 0)
      ||| (if sorted_unset ≠ [] then 0x02 else 0)
    let (set_bytes, b) ←
      if sorted_set ≠ [] then do
        let (vbytes, b) ← encode_property_values b sorted_set
        pure (write_varint sorted_set.length ++ vbytes, b)
      else pure ([], b)
    let (unset_bytes, b) :=
      if sorted_unset ≠ [] then
        let (ubytes, b) := encode_unset_values b sorted_unset
        (write_varint sorted_unset.length ++ ubytes, b)
      else ([], b)
    let (context_ref, b) :=
      match ue.context with
      | some ctx => b.add_context ctx
      | none => (0xFFFFFFFF, b)
    .ok ([2] ++ write_varint id_index ++ [flags] ++ set_bytes ++ unset_bytes
          ++ write_varint context_ref, b)
  | _ => encode_op b op

def encode_ops_canonical (b : DictionaryBuilder) :
    List Op → Except EncodeError (List Nat × DictionaryBuilder)
  | [] => .ok ([], b)
  | op :: rest => do
    let (bytes, b) ← encode_op_canonical b op
    let (more, b) ← encode_ops_canonical b rest
    .ok (bytes ++ more, b)

def find_adjacent_dup_id : List Id → Option Id
  | a :: b :: rest => if a = b then some b else find_adjacent_dup_id (b :: rest)
  | _ => none

/-- `encode_edit_canonical` — pass 1 dry-runs the fast op encoder to collect
dictionaries, pass 2 re-encodes with the sorted builder. -/
def encode_edit_canonical (edit : Edit) : Except EncodeError (List Nat) := do
  let (_, dict_builder) ← encode_ops DictionaryBuilder.new edit.ops
  let _ ← dict_builder.validate_limits
  let sorted_builder := dict_builder.into_sorted
  let sorted_authors := sort_ids edit.authors
  match find_adjacent_dup_id sorted_authors with
  | some id => .error (.duplicateAuthor id)
  | none => do
    let (ops_bytes, _) ← encode_ops_canonical sorted_builder edit.ops
    .ok (MAGIC_UNCOMPRESSED ++ [FORMAT_VERSION]
          ++ edit.id ++ write_string edit.name ++ write_id_vec sorted_authors
          ++ write_signed_varint edit.created_at
          ++ sorted_builder.write_dictionaries
          ++ sorted_builder.write_contexts
          ++ write_varint edit.ops.length ++ ops_bytes)

/-- `encode_edit_with_options`. -/
def encode_edit_with_options (edit : Edit) (options : EncodeOptions) :
    Except EncodeError (List Nat) := do
  let _ ← validate_edit_inputs edit
  if options.canonical then encode_edit_canonical edit
  else encode_edit_fast edit

/-- `encode_edit` — the default (non-canonical) encoder. -/
def encode_edit (edit : Edit) : Except EncodeError (List Nat) :=
  encode_edit_with_options edit ⟨false⟩


/-! ## Definitions supporting the claims -/

/-- Big-endian byte list as an unsigned natural. -/
def be_to_nat (bytes : List Nat) : Nat := bytes.foldl (fun acc b => acc * 256 + b) 0

/-- The integer denoted by big-endian two's-complement bytes. -/
def twos_complement_int (bytes : List Nat) : Int :=
  match bytes with
  | [] => 0
  | b :: _ =>
    if b &&& 0x80 ≠ 0 then (be_to_nat bytes : Int) - 2 ^ (8 * bytes.length)
    else (be_to_nat bytes : Int)

/-- The integer a decimal mantissa denotes. -/
def mantissa_int : DecimalMantissa → Int
  | .i64 v => v
  | .big bytes => twos_complement_int bytes

/-- A wire fragment for a decimal value with a big mantissa of `n` bytes
(`0x01` then zeros): exponent 0, mantissa tag 1, declared length `n`, the `n`
mantissa bytes, unit-ref 0. -/
def dec_stream (n : Nat) : List Nat :=
  [0, 1] ++ write_varint n ++ (1 :: List.replicate (n - 1) 0) ++ [0]

/-- Is a decode result a `LengthExceedsLimit` error? -/
def is_length_error {α : Type} : Except DecodeError α → Prop
  | .error (.lengthExceedsLimit _ _ _) => True
  | _ => False

/-- An error that is not `ReservedBitsSet` (for any context). -/
def rbs_free (e : DecodeError) : Prop := ∀ c, e ≠ .reservedBitsSet c

/-- An error that is not `LengthExceedsLimit` (for any field/length/limit). -/
def len_free (e : DecodeError) : Prop := ∀ f l m, e ≠ .lengthExceedsLimit f l m

/-- Every error a result can carry satisfies `P`. -/
def errs {α : Type} (P : DecodeError → Prop) : Except DecodeError α → Prop
  | .error e => P e
  | .ok _ => True

def empty_dicts : WireDictionaries := ⟨[], [], [], [], [], [], []⟩

/-- Equality of decode/encode results is decidable (used to evaluate the
codec on concrete inputs). -/
instance {ε α : Type} [DecidableEq ε] [DecidableEq α] : DecidableEq (Except ε α)
  | .ok a, .ok b =>
    if h : a = b then .isTrue (by rw [h]) else .isFalse (by intro c; cases c; exact h rfl)
  | .error e, .error f =>
    if h : e = f then .isTrue (by rw [h]) else .isFalse (by intro c; cases c; exact h rfl)
  | .ok _, .error _ => .isFalse (by intro c; cases c)
  | .error _, .ok _ => .isFalse (by intro c; cases c)

def idA : Id := List.replicate 16 1
def idB : Id := List.replicate 16 2
def idC : Id := List.replicate 16 3
def idD : Id := List.replicate 16 4

/-- Well-formed mantissa bytes (each a real byte). -/
def mantissa_wf : DecimalMantissa → Prop
  | .i64 _ => True
  | .big bytes => ∀ b ∈ bytes, b ≤ 255

/-- A one-property, one-object dictionary for concrete decodes. -/
def d8 : WireDictionaries := ⟨[(idA, .bool)], [], [], [], [idB], [], []⟩

/-- A two-op edit exercising the canonical encoder's context-ref suffix. -/
def eC4 : Edit :=
  ⟨idA, [], [], 0, [.createEntity ⟨idB, [], none⟩, .deleteEntity ⟨idC, none⟩]⟩

/-- An UpdateRelation op that unsets `position` and then `from_space`, in that
order: structurally valid input for the encoder. -/
def eC1 : Edit :=
  ⟨idA, [], [], 0,
    [.updateRelation ⟨idB, none, none, none, none, none,
      [.position, .fromSpace], none⟩]⟩

/-- What actually comes back from the wire: the same edit with the unset list
rebuilt in fixed field order. -/
def eC1_wire : Edit :=
  ⟨idA, [], [], 0,
    [.updateRelation ⟨idB, none, none, none, none, none,
      [.fromSpace, .position], none⟩]⟩

def c1_bytes : List Nat :=
  MAGIC_UNCOMPRESSED ++ 1 ::
    (idA ++ [0, 0, 0, 0, 0, 0, 0, 1] ++ idB ++ [0, 0, 1, 6, 0, 0, 17])

def vBool : PropertyValue := ⟨idC, .bool true⟩
def vText : PropertyValue := ⟨idC, .text [120] (some idD)⟩
def e2a : Edit := ⟨idA, [], [], 0, [.createEntity ⟨idB, [vBool, vText], none⟩]⟩
def e2b : Edit := ⟨idA, [], [], 0, [.createEntity ⟨idB, [vText, vBool], none⟩]⟩

def c2_front : List Nat := MAGIC_UNCOMPRESSED ++ 1 :: (idA ++ [0, 0, 0, 1] ++ idC)
def c2_suffix : List Nat :=
  [0, 1] ++ idD ++ [0, 0, 0, 0, 1, 1] ++ idB
    ++ [2, 0, 1, 0, 1, 120, 1, 255, 255, 255, 255, 15]

/-! ## Supporting lemmas: Except, bits, varints -/

@[simp]
theorem ok_bind {ε α β : Type} (a : α) (f : α → Except ε β) :
    (Except.ok a : Except ε α) >>= f = f a := rfl

@[simp]
theorem error_bind {ε α β : Type} (e : ε) (f : α → Except ε β) :
    (Except.error e : Except ε α) >>= f = Except.error e := rfl

theorem byte_lor_128 : ∀ x < 128, x ||| 128 = x + 128 := by decide

theorem byte_cont_and_127 : ∀ x < 128, (x + 128) &&& 127 = x := by decide

theorem byte_cont_and_128 : ∀ x < 128, (x + 128) &&& 128 ≠ 0 := by decide

theorem byte_small_and_127 : ∀ x < 128, x &&& 127 = x := by decide

theorem byte_small_and_128 : ∀ x < 128, x &&& 128 = 0 := by decide

/-- Subsuming a low word by `lor` with a shifted high word is addition. -/
theorem lor_shiftLeft_eq_add {a : Nat} (b n : Nat) (h : a < 2 ^ n) :
    a ||| b <<< n = a + b * 2 ^ n := by
  apply Nat.eq_of_testBit_eq
  intro j
  have key : (a + b * 2 ^ n).testBit j =
      if j < n then a.testBit j else b.testBit (j - n) := by
    rw [show a + b * 2 ^ n = 2 ^ n * b + a by ring]
    exact Nat.testBit_mul_pow_two_add b h j
  rw [Nat.testBit_lor, Nat.testBit_shiftLeft, key]
  rcases lt_or_le j n with hj | hj
  · rw [if_pos hj]
    have hn : ¬ (j ≥ n) := by omega
    simp [hn]
  · rw [if_neg (by omega)]
    have ha : a.testBit j = false :=
      Nat.testBit_eq_false_of_lt (lt_of_lt_of_le h (Nat.pow_le_pow_right (by norm_num) hj))
    have hn : j ≥ n := hj
    simp [ha, hn]

theorem to_i32_of_range {v : Int} (h1 : -(2 ^ 31) ≤ v) (h2 : v < 2 ^ 31) :
    to_i32 v = v := by
  unfold to_i32
  have : (v + 2 ^ 31) % (2 ^ 32) = v + 2 ^ 31 := Int.emod_eq_of_lt (by omega) (by omega)
  omega

theorem write_varint_go_fuel (fuel₁ : Nat) : ∀ fuel₂ v, v ≤ fuel₁ → v ≤ fuel₂ →
    write_varint_go fuel₁ v = write_varint_go fuel₂ v := by
  induction fuel₁ using Nat.strong_induction_on with
  | _ f ih =>
    intro g v hf hg
    match f, g with
    | 0, 0 => rfl
    | 0, g + 1 =>
      interval_cases v
      rw [write_varint_go, write_varint_go, if_pos (by omega)]
    | f + 1, 0 =>
      interval_cases v
      rw [write_varint_go, write_varint_go, if_pos (by omega)]
    | f + 1, g + 1 =>
      rw [write_varint_go, write_varint_go]
      by_cases hv : v < 128
      · rw [if_pos hv, if_pos hv]
      · rw [if_neg hv, if_neg hv,
          ih f (by omega) g (v / 128) (by omega) (by omega)]

theorem write_varint_small {v : Nat} (h : v < 128) : write_varint v = [v] := by
  rw [write_varint]
  match v with
  | 0 => rfl
  | v + 1 => rw [write_varint_go, if_pos h]

theorem write_varint_large {v : Nat} (h : ¬ v < 128) :
    write_varint v = (v % 128 ||| 0x80) :: write_varint (v / 128) := by
  rw [write_varint, write_varint]
  obtain ⟨w, rfl⟩ : ∃ w, v = w + 1 := ⟨v - 1, by omega⟩
  rw [write_varint_go, if_neg h,
    write_varint_go_fuel w ((w + 1) / 128) ((w + 1) / 128) (by omega) le_rfl]

/-- The varint reader inverts the writer, at any loop entry state. -/
theorem read_varint_loop_write (ctx : String) (v k result : Nat) (hk : k ≤ 9)
    (hres : result < 2 ^ (7 * k)) (hv : v < 2 ^ (64 - 7 * k)) (rest : List Nat) :
    read_varint_loop ctx (10 - k) result (7 * k) (write_varint v ++ rest) =
      .ok (result + v * 2 ^ (7 * k), rest) := by
  obtain ⟨fuel, hfuel⟩ : ∃ f, 10 - k = f + 1 := ⟨9 - k, by omega⟩
  by_cases hsmall : v < 128
  · rw [write_varint_small hsmall, hfuel]
    simp only [read_varint_loop, List.cons_append, List.nil_append, read_byte, ok_bind]
    have hval : v &&& 127 = v := byte_small_and_127 v hsmall
    have hcond : ¬ (7 * k ≥ 64 ∨ (7 * k = 63 ∧ v &&& 127 > 1)) := by
      rw [hval]
      rcases Nat.lt_or_ge k 9 with h9 | h9
      · omega
      · have hk9 : k = 9 := by omega
        subst hk9
        simp only [show 64 - 7 * 9 = 1 by norm_num, pow_one] at hv
        omega
    rw [if_neg hcond, hval]
    have hcont : v &&& 128 = 0 := byte_small_and_128 v hsmall
    rw [if_pos hcont, lor_shiftLeft_eq_add v (7 * k) hres]
  · rw [write_varint_large hsmall, hfuel]
    have hk8 : k ≤ 8 := by
      by_contra hgt
      have hk9 : k = 9 := by omega
      subst hk9
      simp only [show 64 - 7 * 9 = 1 by norm_num, pow_one] at hv
      omega
    have hmod : v % 128 < 128 := Nat.mod_lt _ (by norm_num)
    have hbyte : v % 128 ||| 0x80 = v % 128 + 128 := byte_lor_128 _ hmod
    simp only [read_varint_loop, List.cons_append, read_byte, ok_bind, hbyte]
    have hval : (v % 128 + 128) &&& 127 = v % 128 := byte_cont_and_127 _ hmod
    have hcond : ¬ (7 * k ≥ 64 ∨ (7 * k = 63 ∧ (v % 128 + 128) &&& 127 > 1)) := by
      rw [hval]; omega
    rw [if_neg hcond, hval]
    have hcont : ¬ ((v % 128 + 128) &&& 128 = 0) := byte_cont_and_128 _ hmod
    rw [if_neg hcont]
    have hp : (2 : Nat) ^ (7 * (k + 1)) = 2 ^ (7 * k) * 128 := by
      rw [show 7 * (k + 1) = 7 * k + 7 by ring, pow_add]; norm_num
    have hacc : result ||| (v % 128) <<< (7 * k) = result + v % 128 * 2 ^ (7 * k) :=
      lor_shiftLeft_eq_add (v % 128) (7 * k) hres
    have h127 : v % 128 ≤ 127 := by omega
    have hres2 : result + v % 128 * 2 ^ (7 * k) < 2 ^ (7 * (k + 1)) := by
      rw [hp]; nlinarith [hres, h127]
    have hv2 : v / 128 < 2 ^ (64 - 7 * (k + 1)) := by
      rw [Nat.div_lt_iff_lt_mul (by norm_num : (0:Nat) < 128)]
      have hsplit : (2 : Nat) ^ (64 - 7 * k) = 2 ^ (64 - 7 * (k + 1)) * 128 := by
        rw [show 64 - 7 * k = 64 - 7 * (k + 1) + 7 by omega, pow_add]; norm_num
      omega
    have hrec := read_varint_loop_write ctx (v / 128) (k + 1)
      (result + v % 128 * 2 ^ (7 * k)) (by omega) hres2 hv2 rest
    have hfuel2 : fuel = 10 - (k + 1) := by omega
    have hshift : 7 * k + 7 = 7 * (k + 1) := by ring
    rw [hfuel2, hshift, hacc, hrec]
    have hdm : v % 128 + 128 * (v / 128) = v := Nat.mod_add_div v 128
    congr 2
    conv_rhs => rw [← hdm]
    rw [hp]; ring
termination_by v
decreasing_by exact Nat.div_lt_self (by omega) (by norm_num)

/-- `read_varint` inverts `write_varint` for every `u64` value. -/
theorem read_varint_write (ctx : String) {v : Nat} (hv : v < 2 ^ 64) (rest : List Nat) :
    read_varint ctx (write_varint v ++ rest) = .ok (v, rest) := by
  have h := read_varint_loop_write ctx v 0 0 (by omega) (by norm_num) (by simpa) rest
  simpa [read_varint, MAX_VARINT_BYTES] using h

theorem zigzag_encode_lt {n : Int} (h1 : -(2 ^ 63) ≤ n) (h2 : n < 2 ^ 63) :
    zigzag_encode n < 2 ^ 64 := by
  unfold zigzag_encode
  split <;> omega

theorem zigzag_decode_encode {n : Int} (h1 : -(2 ^ 63) ≤ n) (h2 : n < 2 ^ 63) :
    zigzag_decode (zigzag_encode n) = n := by
  unfold zigzag_decode zigzag_encode
  split
  · rename_i h
    have h3 : (2 * n).toNat = 2 * n.toNat := by omega
    rw [if_pos (by omega)]
    omega
  · rename_i h
    rw [if_neg (by omega)]
    omega

theorem read_signed_varint_write (ctx : String) {v : Int}
    (h1 : -(2 ^ 63) ≤ v) (h2 : v < 2 ^ 63) (rest : List Nat) :
    read_signed_varint ctx (write_signed_varint v ++ rest) = .ok (v, rest) := by
  unfold read_signed_varint write_signed_varint
  rw [read_varint_write ctx (zigzag_encode_lt h1 h2) rest]
  simp [zigzag_decode_encode h1 h2]

theorem read_bytes_exact (ctx : String) {l : List Nat} {n : Nat} (h : l.length = n)
    (rest : List Nat) : read_bytes n ctx (l ++ rest) = .ok (l, rest) := by
  subst h
  unfold read_bytes
  rw [if_pos (by simp), List.take_left, List.drop_left]

theorem read_id_exact (ctx : String) {id : Id} (h : id.length = 16) (rest : List Nat) :
    read_id ctx (id ++ rest) = .ok (id, rest) :=
  read_bytes_exact ctx h rest

theorem nat_to_le_length (n v : Nat) : (nat_to_le n v).length = n := by
  induction n generalizing v with
  | zero => rfl
  | succ m ih => simp [nat_to_le, ih]

theorem le_to_nat_nat_to_le {n v : Nat} (h : v < 2 ^ (8 * n)) :
    le_to_nat (nat_to_le n v) = v := by
  induction n generalizing v with
  | zero => simp at h; simp [nat_to_le, le_to_nat, h]
  | succ m ih =>
    simp only [nat_to_le, le_to_nat]
    rw [ih]
    · omega
    · have : (2 : Nat) ^ (8 * (m + 1)) = 2 ^ (8 * m) * 256 := by
        rw [show 8 * (m + 1) = 8 * m + 8 by ring, pow_add]; norm_num
      omega

theorem nat_to_le_bytes_lt (n v : Nat) : ∀ b ∈ nat_to_le n v, b < 256 := by
  induction n generalizing v with
  | zero => simp [nat_to_le]
  | succ m ih =>
    simp only [nat_to_le, List.mem_cons]
    rintro b (rfl | hb)
    · omega
    · exact ih _ _ hb

theorem int_to_le_length (n : Nat) (v : Int) : (int_to_le n v).length = n :=
  nat_to_le_length n _

/-- Reading back an `n`-byte two's-complement little-endian integer. -/
theorem le_to_int_int_to_le {n : Nat} (hn : 0 < n) {v : Int}
    (h1 : -(2 ^ (8 * n - 1)) ≤ v) (h2 : v < 2 ^ (8 * n - 1)) :
    le_to_int n (int_to_le n v) = v := by
  have hQP : (2 : Int) ^ (8 * n) = 2 ^ (8 * n - 1) * 2 := by
    rw [← pow_succ]
    congr 1
    omega
  have hQpos : (0 : Int) < 2 ^ (8 * n) := by positivity
  have hmod : v % (2 ^ (8 * n)) = if 0 ≤ v then v else v + 2 ^ (8 * n) := by
    split
    · exact Int.emod_eq_of_lt (by omega) (by omega)
    · conv_lhs => rw [show v = (v + 2 ^ (8 * n)) + (-1) * 2 ^ (8 * n) by ring]
      rw [Int.add_mul_emod_self]
      exact Int.emod_eq_of_lt (by omega) (by omega)
  have hnonneg : 0 ≤ v % (2 ^ (8 * n)) := Int.emod_nonneg v (by positivity)
  have hvlt : v % (2 ^ (8 * n)) < 2 ^ (8 * n) := Int.emod_lt_of_pos v hQpos
  have htoNat : ((v % (2 ^ (8 * n))).toNat : Int) = v % (2 ^ (8 * n)) :=
    Int.toNat_of_nonneg hnonneg
  have hcastQ : (((2 : Nat) ^ (8 * n) : Nat) : Int) = (2 : Int) ^ (8 * n) := by push_cast; ring
  have hcastP : (((2 : Nat) ^ (8 * n - 1) : Nat) : Int) = (2 : Int) ^ (8 * n - 1) := by
    push_cast; ring
  have hltNat : (v % (2 ^ (8 * n))).toNat < 2 ^ (8 * n) := by omega
  unfold le_to_int int_to_le
  rw [le_to_nat_nat_to_le hltNat]
  split <;> rename_i hcase
  · -- high bit set: the value was negative
    rw [ge_iff_le, ← Nat.cast_le (α := Int), hcastP, htoNat] at hcase
    rw [htoNat]
    split at hmod <;> omega
  · rw [ge_iff_le, ← Nat.cast_le (α := Int), hcastP, htoNat] at hcase
    rw [htoNat]
    split at hmod <;> omega

theorem read_str_write (f : String) {s : List Nat} {max_len : Nat}
    (hlen : s.length ≤ max_len) (hmax : max_len < 2 ^ 64) (hutf : isValidUtf8 s = true)
    (rest : List Nat) :
    read_str max_len f (write_string s ++ rest) = .ok (s, rest) := by
  unfold read_str write_string
  rw [List.append_assoc, read_varint_write f (by omega) (s ++ rest)]
  simp only [ok_bind]
  rw [if_neg (by omega), read_bytes_exact f rfl rest]
  simp [hutf]

theorem read_string_write (f : String) {s : List Nat} {max_len : Nat}
    (hlen : s.length ≤ max_len) (hmax : max_len < 2 ^ 64) (hutf : isValidUtf8 s = true)
    (rest : List Nat) :
    read_string max_len f (write_string s ++ rest) = .ok (s, rest) :=
  read_str_write f hlen hmax hutf rest

theorem read_ids_write (f : String) {ids : List Id} (hwf : ∀ id ∈ ids, id.length = 16)
    (rest : List Nat) :
    read_ids f ids.length (ids.flatten ++ rest) = .ok (ids, rest) := by
  induction ids with
  | nil => simp [read_ids]
  | cons id tl ih =>
    rw [show (id :: tl).flatten ++ rest = id ++ (tl.flatten ++ rest) by simp,
      show (id :: tl).length = tl.length + 1 from rfl, read_ids,
      read_id_exact f (hwf id (by simp)) _]
    simp only [ok_bind]
    rw [ih (fun i hi => hwf i (by simp [hi]))]
    simp

theorem read_id_vec_write (f : String) {ids : List Id} {max_len : Nat}
    (hwf : ∀ id ∈ ids, id.length = 16) (hlen : ids.length ≤ max_len)
    (hmax : max_len < 2 ^ 64) (rest : List Nat) :
    read_id_vec max_len f (write_id_vec ids ++ rest) = .ok (ids, rest) := by
  unfold read_id_vec write_id_vec
  rw [List.append_assoc, read_varint_write f (by omega) _]
  simp only [ok_bind]
  rw [if_neg (by omega)]
  exact read_ids_write f hwf rest

/-- An all-ASCII-alphanumeric byte list is valid UTF-8. -/
theorem utf8_of_alnum {s : List Nat} (h : s.all is_ascii_alphanumeric = true) :
    isValidUtf8 s = true := by
  induction s with
  | nil => rfl
  | cons b tl ih =>
    simp only [List.all_cons, Bool.and_eq_true] at h
    have hb : b ≤ 0x7F := by
      have := h.1
      unfold is_ascii_alphanumeric at this
      simp only [Bool.or_eq_true, Bool.and_eq_true, decide_eq_true_eq] at this
      omega
    have hspan : utf8_span b tl = some tl := by
      unfold utf8_span
      rw [if_pos (by omega)]
    rw [isValidUtf8] at ih ⊢
    simp only [List.length_cons, utf8_validate, hspan]
    exact ih h.2


/-! ## Claim C7: varint length and overflow behaviour -/

/-- One continuation-byte iteration of the varint loop at a shift below 63. -/
theorem varint_loop_cont_step (ctx : String) (fuel res shift b : Nat) (bs : List Nat)
    (hfuel : fuel ≠ 0) (hshift : shift < 63) (hcont : b &&& 0x80 ≠ 0) :
    read_varint_loop ctx fuel res shift (b :: bs) =
      read_varint_loop ctx (fuel - 1) (res ||| (b &&& 0x7F) <<< shift) (shift + 7) bs := by
  obtain ⟨f, rfl⟩ : ∃ f, fuel = f + 1 := ⟨fuel - 1, by omega⟩
  rw [read_varint_loop]
  simp only [read_byte, ok_bind, Nat.add_sub_cancel]
  rw [if_neg (by rintro (h | ⟨h, _⟩) <;> omega), if_neg hcont]

/-- C7 counterexample: eleven `0xFF` bytes — the first ten all have the
continuation bit set — are rejected with `VarintOverflow`, not the
`VarintTooLong` the claim asserts: at index 9 the overflow check
(`shift == 63 && value > 1`) fires before the continuation check. -/
theorem C7_counterexample :
    read_varint "v" (List.replicate 11 0xFF) = .error .varintOverflow ∧
    DecodeError.varintOverflow ≠ DecodeError.varintTooLong := by
  exact ⟨by decide, by decide⟩

/-- C7 (amended): after nine continuation bytes, a tenth byte whose 7-bit
payload exceeds 1 is rejected `VarintOverflow` (whether or not its
continuation bit is set); a tenth continuation byte with payload ≤ 1 is
rejected `VarintTooLong`; and every written varint below `2^64` reads back. -/
theorem C7_varint_limits (ctx : String) :
    (∀ b0 b1 b2 b3 b4 b5 b6 b7 b8 b9 rest,
      b0 &&& 0x80 ≠ 0 → b1 &&& 0x80 ≠ 0 → b2 &&& 0x80 ≠ 0 →
      b3 &&& 0x80 ≠ 0 → b4 &&& 0x80 ≠ 0 → b5 &&& 0x80 ≠ 0 →
      b6 &&& 0x80 ≠ 0 → b7 &&& 0x80 ≠ 0 → b8 &&& 0x80 ≠ 0 →
      b9 &&& 0x7F > 1 →
      read_varint ctx (b0 :: b1 :: b2 :: b3 :: b4 :: b5 :: b6 :: b7 :: b8 :: b9 :: rest) =
        .error .varintOverflow) ∧
    (∀ b0 b1 b2 b3 b4 b5 b6 b7 b8 b9 rest,
      b0 &&& 0x80 ≠ 0 → b1 &&& 0x80 ≠ 0 → b2 &&& 0x80 ≠ 0 →
      b3 &&& 0x80 ≠ 0 → b4 &&& 0x80 ≠ 0 → b5 &&& 0x80 ≠ 0 →
      b6 &&& 0x80 ≠ 0 → b7 &&& 0x80 ≠ 0 → b8 &&& 0x80 ≠ 0 →
      b9 &&& 0x7F ≤ 1 → b9 &&& 0x80 ≠ 0 →
      read_varint ctx (b0 :: b1 :: b2 :: b3 :: b4 :: b5 :: b6 :: b7 :: b8 :: b9 :: rest) =
        .error .varintTooLong) ∧
    (∀ v rest, v < 2 ^ 64 → read_varint ctx (write_varint v ++ rest) = .ok (v, rest)) := by
  have step90 : ∀ b0 b1 b2 b3 b4 b5 b6 b7 b8 b9 : Nat, ∀ rest : List Nat,
      b0 &&& 0x80 ≠ 0 → b1 &&& 0x80 ≠ 0 → b2 &&& 0x80 ≠ 0 →
      b3 &&& 0x80 ≠ 0 → b4 &&& 0x80 ≠ 0 → b5 &&& 0x80 ≠ 0 →
      b6 &&& 0x80 ≠ 0 → b7 &&& 0x80 ≠ 0 → b8 &&& 0x80 ≠ 0 →
      ∃ R, read_varint ctx
          (b0 :: b1 :: b2 :: b3 :: b4 :: b5 :: b6 :: b7 :: b8 :: b9 :: rest) =
        read_varint_loop ctx 1 R 63 (b9 :: rest) := by
    intro b0 b1 b2 b3 b4 b5 b6 b7 b8 b9 rest h0 h1 h2 h3 h4 h5 h6 h7 h8
    apply Exists.intro
    show read_varint_loop ctx 10 0 0 _ = _
    rw [varint_loop_cont_step ctx 10 0 0 b0 _ (by omega) (by omega) h0]
    rw [varint_loop_cont_step ctx (10 - 1) _ (0 + 7) b1 _ (by omega) (by omega) h1]
    rw [varint_loop_cont_step ctx (10 - 1 - 1) _ (0 + 7 + 7) b2 _ (by omega) (by omega) h2]
    rw [varint_loop_cont_step ctx (10 - 1 - 1 - 1) _ (0 + 7 + 7 + 7) b3 _
      (by omega) (by omega) h3]
    rw [varint_loop_cont_step ctx (10 - 1 - 1 - 1 - 1) _ (0 + 7 + 7 + 7 + 7) b4 _
      (by omega) (by omega) h4]
    rw [varint_loop_cont_step ctx (10 - 1 - 1 - 1 - 1 - 1) _ (0 + 7 + 7 + 7 + 7 + 7) b5 _
      (by omega) (by omega) h5]
    rw [varint_loop_cont_step ctx (10 - 1 - 1 - 1 - 1 - 1 - 1) _
      (0 + 7 + 7 + 7 + 7 + 7 + 7) b6 _ (by omega) (by omega) h6]
    rw [varint_loop_cont_step ctx (10 - 1 - 1 - 1 - 1 - 1 - 1 - 1) _
      (0 + 7 + 7 + 7 + 7 + 7 + 7 + 7) b7 _ (by omega) (by omega) h7]
    rw [varint_loop_cont_step ctx (10 - 1 - 1 - 1 - 1 - 1 - 1 - 1 - 1) _
      (0 + 7 + 7 + 7 + 7 + 7 + 7 + 7 + 7) b8 _ (by omega) (by omega) h8]
  refine ⟨?_, ?_, fun v rest hv => read_varint_write ctx hv rest⟩
  · intro b0 b1 b2 b3 b4 b5 b6 b7 b8 b9 rest h0 h1 h2 h3 h4 h5 h6 h7 h8 hbig
    obtain ⟨R, hR⟩ := step90 b0 b1 b2 b3 b4 b5 b6 b7 b8 b9 rest h0 h1 h2 h3 h4 h5 h6 h7 h8
    rw [hR]
    show read_varint_loop ctx (0 + 1) R 63 (b9 :: rest) = _
    rw [read_varint_loop]
    simp only [read_byte, ok_bind]
    rw [if_pos (Or.inr ⟨by norm_num, hbig⟩)]
  · intro b0 b1 b2 b3 b4 b5 b6 b7 b8 b9 rest h0 h1 h2 h3 h4 h5 h6 h7 h8 hsmall hcont
    obtain ⟨R, hR⟩ := step90 b0 b1 b2 b3 b4 b5 b6 b7 b8 b9 rest h0 h1 h2 h3 h4 h5 h6 h7 h8
    rw [hR]
    show read_varint_loop ctx (0 + 1) R 63 (b9 :: rest) = _
    rw [read_varint_loop]
    simp only [read_byte, ok_bind]
    rw [if_neg (by rintro (h | ⟨_, h⟩) <;> omega), if_neg hcont]
    rfl

/-- Witness for C7: ten `0x80` bytes then a stray byte give `VarintTooLong`;
nine `0x80` bytes then `0x83` (payload 3 at shift 63) give `VarintOverflow`;
the 2-byte varint for 300 reads back. -/
theorem C7_varint_limits_witness :
    read_varint "w" [0x80, 0x80, 0x80, 0x80, 0x80, 0x80, 0x80, 0x80, 0x80, 0x80, 5] =
      .error .varintTooLong ∧
    read_varint "w" [0x80, 0x80, 0x80, 0x80, 0x80, 0x80, 0x80, 0x80, 0x80, 0x83] =
      .error .varintOverflow ∧
    read_varint "w" (write_varint 300 ++ [7]) = .ok (300, [7]) := by
  refine ⟨?_, ?_, ?_⟩
  · exact (C7_varint_limits "w").2.1 0x80 0x80 0x80 0x80 0x80 0x80 0x80 0x80 0x80 0x80 [5]
      (by decide) (by decide) (by decide) (by decide) (by decide) (by decide)
      (by decide) (by decide) (by decide) (by decide) (by decide)
  · exact (C7_varint_limits "w").1 0x80 0x80 0x80 0x80 0x80 0x80 0x80 0x80 0x80 0x83 []
      (by decide) (by decide) (by decide) (by decide) (by decide) (by decide)
      (by decide) (by decide) (by decide) (by decide)
  · exact (C7_varint_limits "w").2.2 300 [7] (by norm_num)

/-! ## Claim C9: unset-language `as u32` truncation -/

/-- C9: when decoding an unset entry, the language varint is reduced modulo
`2^32` before interpretation — any value congruent to `0xFFFFFFFF` decodes as
the all-languages sentinel and any value congruent to 0 as the non-linguistic
slot, for any in-range property index. -/
theorem C9_unset_language_mod (dicts : WireDictionaries) (p v : Nat) (rest : List Nat)
    (hp : p < dicts.properties.length) (hpv : p < 2 ^ 64) (hv : v < 2 ^ 64) :
    (v % 2 ^ 32 = 0xFFFFFFFF →
      decode_unset_value dicts (write_varint p ++ (write_varint v ++ rest)) =
        .ok (⟨(dicts.properties.getD p ([], .bool)).1, .all⟩, rest)) ∧
    (v % 2 ^ 32 = 0 →
      decode_unset_value dicts (write_varint p ++ (write_varint v ++ rest)) =
        .ok (⟨(dicts.properties.getD p ([], .bool)).1, .nonLinguistic⟩, rest)) := by
  have h1 : read_varint "property" (write_varint p ++ (write_varint v ++ rest)) =
      .ok (p, write_varint v ++ rest) := read_varint_write _ hpv _
  have h2 : read_varint "unset.language" (write_varint v ++ rest) = .ok (v, rest) :=
    read_varint_write _ hv _
  constructor
  · intro hmod
    unfold decode_unset_value
    simp only [h1, ok_bind, h2]
    rw [if_neg (by omega), if_pos hmod]
  · intro hmod
    unfold decode_unset_value
    simp only [h1, ok_bind, h2]
    rw [if_neg (by omega), if_neg (by omega), if_pos hmod]

/-- Witness for C9: with a one-property dictionary, language varint
`2^33 - 1` (≡ `0xFFFFFFFF` mod `2^32`) decodes as all-languages, and
`2^33` (≡ 0) as non-linguistic. -/
theorem C9_unset_language_mod_witness :
    decode_unset_value ⟨[(idA, .text)], [], [], [], [], [], []⟩
        (write_varint 0 ++ (write_varint (2 ^ 33 - 1) ++ [9])) =
      .ok (⟨idA, .all⟩, [9]) ∧
    decode_unset_value ⟨[(idA, .text)], [], [], [], [], [], []⟩
        (write_varint 0 ++ (write_varint (2 ^ 33) ++ [9])) =
      .ok (⟨idA, .nonLinguistic⟩, [9]) := by
  constructor
  · exact (C9_unset_language_mod ⟨[(idA, .text)], [], [], [], [], [], []⟩ 0 (2 ^ 33 - 1) [9]
      (by decide) (by norm_num) (by norm_num)).1 (by norm_num)
  · exact (C9_unset_language_mod ⟨[(idA, .text)], [], [], [], [], [], []⟩ 0 (2 ^ 33) [9]
      (by decide) (by norm_num) (by norm_num)).2 (by norm_num)

/-! ## Claim C5: position validation -/

/-- C5: the codec accepts the empty position on both encode and decode —
`validate_position` only checks the length cap and the alphanumeric alphabet,
so encoding a `CreateRelation` whose position is `""` succeeds, contradicting
the claim that empty positions are rejected.  The other parts hold: over 64
bytes fails `PositionTooLong`, a non-alphanumeric byte fails
`InvalidPositionChar`, and 64 alphanumeric bytes pass. -/
theorem C5_empty_position_accepted :
    validate_position [] = .ok () ∧
    decode_position [0] = .ok ([], []) ∧
    (encode_op DictionaryBuilder.new
      (.createRelation ⟨idA, idB, idC, false, none, none, idD, false, none, none,
        none, some [], none⟩)).isOk = true ∧
    validate_position (List.replicate 65 97) = .error .positionTooLong ∧
    validate_position [97, 95, 98] = .error .invalidPositionChar ∧
    validate_position (List.replicate 64 97) = .ok () := by
  refine ⟨rfl, by decide, by decide, by decide, by decide, by decide⟩


/-! ## Claim C4: context-refs on the wire -/

/-- C4: the context-ref is written by the canonical encoder but never read by
the decoder — the wire formats disagree.  The fast encoder emits a
`DeleteEntity` as exactly `[3, 0]` with no context-ref varint; the decoder
consumes only those two bytes (a following `0xFF` is left in the stream, not
read as a context-ref); and canonically encoding a two-op edit then decoding
fails with `InvalidOpType 255`, the decoder misreading the first op's
`0xFFFFFFFF` context-ref as the second op's type byte. -/
theorem C4_context_ref_not_decoded :
    encode_op DictionaryBuilder.new (.deleteEntity ⟨idA, none⟩) =
      .ok ([3, 0], ⟨[], [], [], [], [idA], [], []⟩) ∧
    decode_op ⟨[], [], [], [], [idA], [], []⟩ [3, 0, 0xFF] =
      .ok (.deleteEntity ⟨idA, none⟩, [0xFF]) ∧
    (match encode_edit_with_options eC4 ⟨true⟩ with
      | .ok bytes => decode_edit bytes
      | .error _ => .ok eC4) = .error (.invalidOpType 255) := by
  refine ⟨by decide, by decide, by decide⟩


/-! ## Claim C6: decimal normalization arithmetic -/

/-- The mod-10 fold computes the mod 10 of the base-256 fold (for any
per-byte transform `g`), since `256 ≡ 6 (mod 10)`. -/
theorem fold6_eq_mod (g : Nat → Nat) : ∀ (bytes : List Nat) (r : Nat),
    bytes.foldl (fun a b => (a * 6 + g b) % 10) (r % 10) =
      (bytes.foldl (fun a b => a * 256 + g b) r) % 10
  | [], _ => rfl
  | b :: bs, r => by
    show bs.foldl _ ((r % 10 * 6 + g b) % 10) = _
    rw [show (r % 10 * 6 + g b) % 10 = (r * 256 + g b) % 10 from by omega]
    exact fold6_eq_mod g bs (r * 256 + g b)

/-- Base-256 folds split off their initial accumulator. -/
theorem foldl_base256 (g : Nat → Nat) : ∀ (bytes : List Nat) (r : Nat),
    bytes.foldl (fun a b => a * 256 + g b) r =
      r * 256 ^ bytes.length + bytes.foldl (fun a b => a * 256 + g b) 0
  | [], _ => by simp
  | b :: bs, r => by
    have h1 := foldl_base256 g bs (r * 256 + g b)
    have h2 := foldl_base256 g bs (0 * 256 + g b)
    simp only [List.foldl_cons] at h1 h2 ⊢
    rw [h1, h2, List.length_cons]
    ring

theorem be_to_nat_cons (b : Nat) (bs : List Nat) :
    be_to_nat (b :: bs) = b * 256 ^ bs.length + be_to_nat bs := by
  have := foldl_base256 (fun x => x) bs (0 * 256 + b)
  simp only [be_to_nat, List.foldl_cons]
  simpa using this

theorem be_lt : ∀ (bytes : List Nat), (∀ b ∈ bytes, b ≤ 255) →
    be_to_nat bytes < 256 ^ bytes.length
  | [], _ => by simp [be_to_nat]
  | b :: bs, hb => by
    have ih := be_lt bs (fun x hx => hb x (List.mem_cons_of_mem _ hx))
    have hble : b ≤ 255 := hb b (List.mem_cons_self b bs)
    rw [be_to_nat_cons, List.length_cons, pow_succ]
    nlinarith

/-- Folding the inverted bytes computes the bitwise complement of the
big-endian value. -/
theorem inv_be : ∀ (bytes : List Nat), (∀ b ∈ bytes, b ≤ 255) →
    bytes.foldl (fun a b => a * 256 + (255 - b)) 0 =
      256 ^ bytes.length - 1 - be_to_nat bytes
  | [], _ => rfl
  | b :: bs, hb => by
    have ih := inv_be bs (fun x hx => hb x (List.mem_cons_of_mem _ hx))
    have hlt := be_lt bs (fun x hx => hb x (List.mem_cons_of_mem _ hx))
    have hble : b ≤ 255 := hb b (List.mem_cons_self b bs)
    have h1 := foldl_base256 (fun x => 255 - x) bs (0 * 256 + (255 - b))
    simp only [List.foldl_cons]
    rw [h1, ih, be_to_nat_cons, List.length_cons, pow_succ]
    have hp : 0 < 256 ^ bs.length := pow_pos (by norm_num) _
    have hmul : b * 256 ^ bs.length ≤ 255 * 256 ^ bs.length :=
      Nat.mul_le_mul_right _ hble
    simp only [Nat.zero_mul, Nat.zero_add]
    rw [Nat.sub_mul]
    omega

theorem fold6_pos (bytes : List Nat) :
    bytes.foldl (fun r byte => (r * 6 + byte) % 10) 0 = be_to_nat bytes % 10 := by
  have := fold6_eq_mod (fun x => x) bytes 0
  simpa [be_to_nat] using this

theorem fold6_neg (bytes : List Nat) :
    bytes.foldl (fun r byte => (r * 6 + (255 - byte)) % 10) 0 =
      (bytes.foldl (fun a b => a * 256 + (255 - b)) 0) % 10 := by
  have := fold6_eq_mod (fun x => 255 - x) bytes 0
  simpa using this

theorem be_eq_zero_iff : ∀ (bytes : List Nat),
    (be_to_nat bytes = 0 ↔ is_big_mantissa_zero bytes = true)
  | [] => by simp [be_to_nat, is_big_mantissa_zero]
  | b :: bs => by
    have ih := be_eq_zero_iff bs
    rw [be_to_nat_cons]
    simp only [is_big_mantissa_zero, List.all_cons, Bool.and_eq_true,
      decide_eq_true_eq] at ih ⊢
    have hp : 0 < 256 ^ bs.length := pow_pos (by norm_num) _
    constructor
    · intro h
      obtain ⟨h1, h2⟩ := Nat.add_eq_zero.mp h
      rcases Nat.mul_eq_zero.mp h1 with hb0 | hA
      · exact ⟨hb0, ih.mp h2⟩
      · omega
    · rintro ⟨hb0, hall⟩
      rw [hb0, ih.mpr hall]
      simp

theorem tc_zero_iff (bytes : List Nat) (hb : ∀ b ∈ bytes, b ≤ 255) :
    is_big_mantissa_zero bytes = true ↔ twos_complement_int bytes = 0 := by
  constructor
  · intro h
    have hbe : be_to_nat bytes = 0 := (be_eq_zero_iff bytes).mpr h
    cases bytes with
    | nil => rfl
    | cons b bs =>
      have hb0 : b = 0 := by
        have := be_to_nat_cons b bs
        have hp : 0 < 256 ^ bs.length := pow_pos (by norm_num) _
        nlinarith [hbe, this]
      show (if b &&& 0x80 ≠ 0 then ((be_to_nat (b :: bs) : Int)) - 2 ^ (8 * (b :: bs).length)
        else (be_to_nat (b :: bs) : Int)) = 0
      rw [if_neg (by rw [hb0]; decide), hbe]
      rfl
  · intro h
    cases bytes with
    | nil => rfl
    | cons b bs =>
      rw [show twos_complement_int (b :: bs) =
          (if b &&& 0x80 ≠ 0 then ((be_to_nat (b :: bs) : Int)) - 2 ^ (8 * (b :: bs).length)
            else (be_to_nat (b :: bs) : Int)) from rfl] at h
      by_cases hbit : b &&& 0x80 ≠ 0
      · rw [if_pos hbit] at h
        exfalso
        have hlt : be_to_nat (b :: bs) < 256 ^ (b :: bs).length := be_lt _ hb
        have h256 : ((256 ^ (b :: bs).length : Nat) : Int) = 2 ^ (8 * (b :: bs).length) := by
          push_cast
          rw [pow_mul]
          norm_num
        omega
      · rw [if_neg hbit] at h
        have hbe : be_to_nat (b :: bs) = 0 := by exact_mod_cast h
        exact (be_eq_zero_iff _).mp hbe

theorem tc_div_iff (b : Nat) (bs : List Nat) (hb : ∀ x ∈ b :: bs, x ≤ 255) :
    (is_big_mantissa_divisible_by_10 (b :: bs) = true ↔
      twos_complement_int (b :: bs) % 10 = 0) := by
  have hlt := be_lt (b :: bs) hb
  have h256 : ((256 ^ (b :: bs).length : Nat) : Int) = 2 ^ (8 * (b :: bs).length) := by
    push_cast
    rw [pow_mul]
    norm_num
  have hshape : ∀ P : Prop, (is_big_mantissa_divisible_by_10 (b :: bs) = true ↔ P) =
      ((if b &&& 0x80 ≠ 0 then decide (twos_complement_abs_mod_10 (b :: bs) = 0)
        else decide ((b :: bs).foldl (fun r byte => (r * 6 + byte) % 10) 0 = 0)) = true ↔ P) :=
    fun _ => rfl
  have htc : twos_complement_int (b :: bs) =
      (if b &&& 0x80 ≠ 0 then ((be_to_nat (b :: bs) : Int)) - 2 ^ (8 * (b :: bs).length)
        else (be_to_nat (b :: bs) : Int)) := rfl
  by_cases hbit : b &&& 0x80 ≠ 0
  · rw [htc, hshape, if_pos hbit, if_pos hbit]
    have habs : twos_complement_abs_mod_10 (b :: bs) =
        (256 ^ (b :: bs).length - be_to_nat (b :: bs)) % 10 := by
      unfold twos_complement_abs_mod_10
      rw [fold6_neg, inv_be _ hb]
      omega
    rw [habs]
    simp only [decide_eq_true_eq]
    omega
  · rw [htc, hshape, if_neg hbit, if_neg hbit]
    rw [fold6_pos]
    simp only [decide_eq_true_eq]
    omega

/-- C6: `encode_decimal` fails `DecimalNotNormalized` exactly when the
mantissa's denoted integer is zero with a non-zero exponent, or non-zero and
divisible by 10 — for a big mantissa the denoted integer is the big-endian
two's-complement value, so the `r = (r*6 + byte) % 10` fold (and, for
negative values, the inverted fold plus 1 mod 10) does compute its
divisibility by 10. -/
theorem C6_decimal_normalization (exponent : Int) (m : DecimalMantissa)
    (hwf : mantissa_wf m) :
    encode_decimal exponent m = .error .decimalNotNormalized ↔
      (mantissa_int m = 0 ∧ exponent ≠ 0) ∨
      (mantissa_int m ≠ 0 ∧ mantissa_int m % 10 = 0) := by
  cases m with
  | i64 v =>
    by_cases hz : v = 0
    · subst hz
      by_cases he : exponent = 0
      · subst he
        simp [encode_decimal, mantissa_int]
      · simp [encode_decimal, mantissa_int, he]
    · by_cases hd : v % 10 = 0 <;>
        simp [encode_decimal, mantissa_int, hz, hd]
  | big bytes =>
    have hb : ∀ x ∈ bytes, x ≤ 255 := hwf
    by_cases hz : is_big_mantissa_zero bytes = true
    · have h0 : twos_complement_int bytes = 0 := (tc_zero_iff bytes hb).mp hz
      by_cases he : exponent = 0 <;>
        simp [encode_decimal, mantissa_int, hz, he, h0]
    · have h0 : twos_complement_int bytes ≠ 0 := fun c => hz ((tc_zero_iff bytes hb).mpr c)
      cases bytes with
      | nil => simp [is_big_mantissa_zero] at hz
      | cons b bs =>
        by_cases hd : is_big_mantissa_divisible_by_10 (b :: bs) = true
        · have hdiv : twos_complement_int (b :: bs) % 10 = 0 := (tc_div_iff b bs hb).mp hd
          simp [encode_decimal, mantissa_int, hz, hd, h0, hdiv]
        · have hdiv : ¬ twos_complement_int (b :: bs) % 10 = 0 :=
            fun c => hd ((tc_div_iff b bs hb).mpr c)
          simp [encode_decimal, mantissa_int, hz, hd, h0, hdiv]

/-- Witness for C6 at concrete mantissas: `0xF6` denotes `-10`, divisible by
10, so encoding fails; `0x80` denotes `-128`, not divisible, so with a zero
mantissa excluded the error is impossible. -/
theorem C6_decimal_normalization_witness :
    encode_decimal 2 (.big [0xF6]) = .error .decimalNotNormalized ∧
    encode_decimal 2 (.big [0x80]) ≠ .error .decimalNotNormalized := by
  constructor
  · exact (C6_decimal_normalization 2 (.big [0xF6])
        (show ∀ b ∈ [(0xF6 : Nat)], b ≤ 255 by decide)).mpr
      (Or.inr ⟨by decide, by decide⟩)
  · intro h
    rcases (C6_decimal_normalization 2 (.big [0x80])
        (show ∀ b ∈ [(0x80 : Nat)], b ≤ 255 by decide)).mp h with
      ⟨h1, _⟩ | ⟨_, h2⟩
    · exact absurd h1 (by decide)
    · exact absurd h2 (by decide)


/-! ## Error-class lemmas: which errors a decoder can produce -/

theorem errs_bind {P : DecodeError → Prop} {α β : Type} {x : Except DecodeError α}
    {f : α → Except DecodeError β} (hx : errs P x) (hf : ∀ a, errs P (f a)) :
    errs P (x >>= f) := by
  cases x with
  | error e => exact hx
  | ok a => exact hf a

theorem errs_ne_error {P : DecodeError → Prop} {α : Type} {r : Except DecodeError α}
    (h : errs P r) {e : DecodeError} (he : ¬ P e) : r ≠ .error e := by
  intro hr
  cases r with
  | error e2 => cases hr; exact he h
  | ok a => cases hr

theorem rbs_read_byte (ctx : String) (bs : List Nat) : errs rbs_free (read_byte ctx bs) := by
  cases bs with
  | nil => intro c h; simp at h
  | cons b rest => trivial

theorem rbs_read_bytes (n : Nat) (ctx : String) (bs : List Nat) :
    errs rbs_free (read_bytes n ctx bs) := by
  unfold read_bytes
  split
  · trivial
  · intro c h; simp at h

theorem rbs_read_id (ctx : String) (bs : List Nat) : errs rbs_free (read_id ctx bs) :=
  rbs_read_bytes 16 ctx bs

theorem rbs_read_varint_loop (ctx : String) :
    ∀ (fuel res shift : Nat) (bs : List Nat),
      errs rbs_free (read_varint_loop ctx fuel res shift bs)
  | 0, _, _, _ => by intro c h; simp at h
  | fuel + 1, res, shift, bs => by
    rw [read_varint_loop]
    apply errs_bind (rbs_read_byte ctx bs)
    rintro ⟨byte, bs2⟩
    dsimp only
    repeat' split
    all_goals first
      | trivial
      | (intro c h; simp at h)
      | exact rbs_read_varint_loop ctx fuel _ _ _

theorem rbs_read_varint (ctx : String) (bs : List Nat) :
    errs rbs_free (read_varint ctx bs) :=
  rbs_read_varint_loop ctx _ _ _ _

theorem rbs_read_signed_varint (ctx : String) (bs : List Nat) :
    errs rbs_free (read_signed_varint ctx bs) := by
  unfold read_signed_varint
  apply errs_bind (rbs_read_varint ctx bs)
  rintro ⟨v, bs2⟩
  trivial

theorem rbs_read_str (max_len : Nat) (field : String) (bs : List Nat) :
    errs rbs_free (read_str max_len field bs) := by
  unfold read_str
  apply errs_bind (rbs_read_varint field bs)
  rintro ⟨len, bs2⟩
  try dsimp only
  repeat' split
  all_goals first
    | trivial
    | (intro c h; simp at h)
    | (apply errs_bind (rbs_read_bytes _ field _)
       rintro ⟨bytes, bs3⟩
       try dsimp only
       repeat' split
       all_goals first
         | trivial
         | (intro c h; simp at h))

theorem rbs_read_f64 (ctx : String) (bs : List Nat) : errs rbs_free (read_f64 ctx bs) := by
  unfold read_f64
  apply errs_bind (rbs_read_bytes 8 ctx bs)
  rintro ⟨bytes, bs2⟩
  try dsimp only
  repeat' split
  all_goals first
    | trivial
    | (intro c h; simp at h)

theorem rbs_resolve_unit (dicts : WireDictionaries) (n : Nat) :
    errs rbs_free (resolve_unit dicts n) := by
  unfold resolve_unit
  split
  · trivial
  · split
    · intro c h; simp at h
    · trivial

theorem rbs_resolve_language (dicts : WireDictionaries) (n : Nat) :
    errs rbs_free (resolve_language dicts n) := by
  unfold resolve_language
  split
  · trivial
  · split
    · intro c h; simp at h
    · trivial

theorem rbs_resolve_object (dicts : WireDictionaries) (n : Nat) :
    errs rbs_free (resolve_object dicts n) := by
  unfold resolve_object
  split
  · intro c h; simp at h
  · trivial

theorem rbs_decode_position (bs : List Nat) : errs rbs_free (decode_position bs) := by
  unfold decode_position
  apply errs_bind (rbs_read_str MAX_POSITION_LEN "position" bs)
  rintro ⟨pos, bs2⟩
  try dsimp only
  repeat' split
  all_goals first
    | trivial
    | (intro c h; simp at h)


theorem errs_pure {P : DecodeError → Prop} {α : Type} (a : α) :
    errs P (pure (f := Except DecodeError) a) := trivial

theorem errs_pure_bind {P : DecodeError → Prop} {α β : Type} {a : α}
    {k : α → Except DecodeError β} (h : errs P (k a)) :
    errs P (pure a >>= k) := h

theorem pure_bind_ex {ε α β : Type} (a : α) (f : α → Except ε β) :
    (pure a : Except ε α) >>= f = f a := rfl

theorem rbs_decode_decimal (dicts : WireDictionaries) (bs : List Nat) :
    errs rbs_free (decode_decimal dicts bs) := by
  unfold decode_decimal
  apply errs_bind (rbs_read_signed_varint _ _)
  rintro ⟨e, bs1⟩
  dsimp only
  apply errs_bind (rbs_read_byte _ _)
  rintro ⟨mt, bs2⟩
  dsimp only
  rcases mt with _ | _ | mt
  · apply errs_bind (rbs_read_signed_varint _ _)
    rintro ⟨v, bs3⟩
    dsimp only
    apply errs_pure_bind
    dsimp only
    repeat' split
    all_goals first
      | (intro c h; simp at h)
      | (apply errs_bind (rbs_read_varint _ _)
         rintro ⟨ui, bsu⟩
         dsimp only
         apply errs_bind (rbs_resolve_unit _ _)
         intro unit
         trivial)
  · apply errs_bind (rbs_read_varint _ _)
    rintro ⟨len, bs3⟩
    dsimp only
    apply errs_bind (rbs_read_bytes _ _ _)
    rintro ⟨bytes, bs4⟩
    dsimp only
    repeat' split
    all_goals first
      | (intro c h; simp at h)
      | (apply errs_pure_bind
         dsimp only
         repeat' split
         all_goals first
           | (intro c h; simp at h)
           | (apply errs_bind (rbs_read_varint _ _)
              rintro ⟨ui, bsu⟩
              dsimp only
              apply errs_bind (rbs_resolve_unit _ _)
              intro unit
              trivial))
  · intro c h; simp at h


theorem rbs_decode_bool (bs : List Nat) : errs rbs_free (decode_bool bs) := by
  unfold decode_bool
  apply errs_bind (rbs_read_byte "bool" bs)
  rintro ⟨b, bs1⟩
  try dsimp only
  repeat' split
  all_goals first
    | trivial
    | (intro c h; simp at h)

theorem rbs_decode_int64 (dicts : WireDictionaries) (bs : List Nat) :
    errs rbs_free (decode_int64 dicts bs) := by
  unfold decode_int64
  apply errs_bind (rbs_read_signed_varint _ _)
  rintro ⟨v, bs1⟩
  try dsimp only
  apply errs_bind (rbs_read_varint _ _)
  rintro ⟨u, bs2⟩
  try dsimp only
  apply errs_bind (rbs_resolve_unit _ _)
  intro unit
  trivial

theorem rbs_decode_float64 (dicts : WireDictionaries) (bs : List Nat) :
    errs rbs_free (decode_float64 dicts bs) := by
  unfold decode_float64
  apply errs_bind (rbs_read_f64 _ _)
  rintro ⟨v, bs1⟩
  try dsimp only
  apply errs_bind (rbs_read_varint _ _)
  rintro ⟨u, bs2⟩
  try dsimp only
  apply errs_bind (rbs_resolve_unit _ _)
  intro unit
  trivial

theorem rbs_decode_text (dicts : WireDictionaries) (bs : List Nat) :
    errs rbs_free (decode_text dicts bs) := by
  unfold decode_text
  apply errs_bind (rbs_read_str _ _ _)
  rintro ⟨v, bs1⟩
  try dsimp only
  apply errs_bind (rbs_read_varint _ _)
  rintro ⟨li, bs2⟩
  try dsimp only
  apply errs_bind (rbs_resolve_language _ _)
  intro lang
  trivial

theorem rbs_decode_bytes (bs : List Nat) : errs rbs_free (decode_bytes bs) := by
  unfold decode_bytes
  apply errs_bind (rbs_read_varint _ _)
  rintro ⟨len, bs1⟩
  try dsimp only
  split
  · intro c h; simp at h
  · apply errs_bind (rbs_read_bytes _ _ _)
    rintro ⟨bytes, bs2⟩
    trivial

theorem rbs_decode_date (bs : List Nat) : errs rbs_free (decode_date bs) := by
  unfold decode_date
  apply errs_bind (rbs_read_bytes _ _ _)
  rintro ⟨bytes, bs1⟩
  try dsimp only
  repeat' split
  all_goals first
    | trivial
    | (intro c h; simp at h)

theorem rbs_decode_time (bs : List Nat) : errs rbs_free (decode_time bs) := by
  unfold decode_time
  apply errs_bind (rbs_read_bytes _ _ _)
  rintro ⟨bytes, bs1⟩
  try dsimp only
  repeat' split
  all_goals first
    | trivial
    | (intro c h; simp at h)

theorem rbs_decode_datetime (bs : List Nat) : errs rbs_free (decode_datetime bs) := by
  unfold decode_datetime
  apply errs_bind (rbs_read_bytes _ _ _)
  rintro ⟨bytes, bs1⟩
  try dsimp only
  repeat' split
  all_goals first
    | trivial
    | (intro c h; simp at h)

theorem rbs_decode_schedule (bs : List Nat) : errs rbs_free (decode_schedule bs) := by
  unfold decode_schedule
  apply errs_bind (rbs_read_str _ _ _)
  rintro ⟨v, bs1⟩
  trivial

theorem rbs_decode_point (bs : List Nat) : errs rbs_free (decode_point bs) := by
  unfold decode_point
  apply errs_bind (rbs_read_byte _ _)
  rintro ⟨n, bs1⟩
  dsimp only
  split
  · intro c h; simp at h
  · apply errs_bind (rbs_read_f64 _ _)
    rintro ⟨lat, bs2⟩
    dsimp only
    apply errs_bind (rbs_read_f64 _ _)
    rintro ⟨lon, bs3⟩
    dsimp only
    split
    · apply errs_bind (rbs_read_f64 _ _)
      rintro ⟨a, bs4⟩
      dsimp only
      apply errs_pure_bind
      dsimp only
      repeat' split
      all_goals first
        | trivial
        | (intro c h; simp at h)
    · apply errs_pure_bind
      dsimp only
      repeat' split
      all_goals first
        | trivial
        | (intro c h; simp at h)

theorem rbs_decode_rect (bs : List Nat) : errs rbs_free (decode_rect bs) := by
  unfold decode_rect
  apply errs_bind (rbs_read_f64 _ _)
  rintro ⟨a, bs1⟩
  dsimp only
  apply errs_bind (rbs_read_f64 _ _)
  rintro ⟨b, bs2⟩
  dsimp only
  apply errs_bind (rbs_read_f64 _ _)
  rintro ⟨c, bs3⟩
  dsimp only
  apply errs_bind (rbs_read_f64 _ _)
  rintro ⟨d, bs4⟩
  dsimp only
  repeat' split
  all_goals first
    | trivial
    | (intro c h; simp at h)

theorem rbs_decode_embedding (bs : List Nat) : errs rbs_free (decode_embedding bs) := by
  unfold decode_embedding
  apply errs_bind (rbs_read_byte _ _)
  rintro ⟨st, bs1⟩
  dsimp only
  split
  · intro c h; simp at h
  · apply errs_bind (rbs_read_varint _ _)
    rintro ⟨dims, bs2⟩
    dsimp only
    repeat' split
    all_goals first
      | trivial
      | (intro c h; simp at h)
      | (apply errs_bind (rbs_read_bytes _ _ _)
         rintro ⟨data, bs3⟩
         dsimp only
         repeat' split
         all_goals first
           | trivial
           | (intro c h; simp at h))

theorem rbs_decode_value (data_type : DataType) (dicts : WireDictionaries) (bs : List Nat) :
    errs rbs_free (decode_value data_type dicts bs) := by
  cases data_type
  · exact rbs_decode_bool bs
  · exact rbs_decode_int64 dicts bs
  · exact rbs_decode_float64 dicts bs
  · exact rbs_decode_decimal dicts bs
  · exact rbs_decode_text dicts bs
  · exact rbs_decode_bytes bs
  · exact rbs_decode_date bs
  · exact rbs_decode_time bs
  · exact rbs_decode_datetime bs
  · exact rbs_decode_schedule bs
  · exact rbs_decode_point bs
  · exact rbs_decode_rect bs
  · exact rbs_decode_embedding bs

theorem rbs_decode_property_value (dicts : WireDictionaries) (bs : List Nat) :
    errs rbs_free (decode_property_value dicts bs) := by
  unfold decode_property_value
  apply errs_bind (rbs_read_varint _ _)
  rintro ⟨pi, bs1⟩
  dsimp only
  split
  · intro c h; simp at h
  · apply errs_bind (rbs_decode_value _ _ _)
    rintro ⟨v, bs2⟩
    trivial

theorem rbs_decode_property_values (dicts : WireDictionaries) :
    ∀ (n : Nat) (bs : List Nat), errs rbs_free (decode_property_values dicts n bs)
  | 0, _ => trivial
  | n + 1, bs => by
    rw [decode_property_values]
    apply errs_bind (rbs_decode_property_value _ _)
    rintro ⟨pv, bs1⟩
    dsimp only
    apply errs_bind (rbs_decode_property_values dicts n bs1)
    rintro ⟨pvs, bs2⟩
    trivial

theorem rbs_decode_unset_value (dicts : WireDictionaries) (bs : List Nat) :
    errs rbs_free (decode_unset_value dicts bs) := by
  unfold decode_unset_value
  apply errs_bind (rbs_read_varint _ _)
  rintro ⟨pi, bs1⟩
  dsimp only
  split
  · intro c h; simp at h
  · apply errs_bind (rbs_read_varint _ _)
    rintro ⟨lv, bs2⟩
    dsimp only
    repeat' split
    all_goals first
      | trivial
      | (intro c h; simp at h)

theorem rbs_decode_unset_values (dicts : WireDictionaries) :
    ∀ (n : Nat) (bs : List Nat), errs rbs_free (decode_unset_values dicts n bs)
  | 0, _ => trivial
  | n + 1, bs => by
    rw [decode_unset_values]
    apply errs_bind (rbs_decode_unset_value _ _)
    rintro ⟨u, bs1⟩
    dsimp only
    apply errs_bind (rbs_decode_unset_values dicts n bs1)
    rintro ⟨us, bs2⟩
    trivial


set_option maxHeartbeats 4000000 in
/-- C8: each reserved-mask flag byte is rejected exactly when a reserved bit
is set — `UpdateEntity` flags with mask `0xFC`, `UpdateRelation` set/unset
flags with mask `0xE0`, `CreateValueRef` flags with mask `0xFC` all fail
`ReservedBitsSet`; with the reserved bits clear the decoders never produce a
`ReservedBitsSet` error. -/
theorem C8_reserved_bits (dicts : WireDictionaries) (rest : List Nat) :
    (∀ idx B, idx < dicts.objects.length → idx < 2 ^ 64 →
      ((B &&& 0xFC ≠ 0 →
        decode_update_entity dicts (write_varint idx ++ (B :: rest)) =
          .error (.reservedBitsSet "UpdateEntity flags")) ∧
       (B &&& 0xFC = 0 → ∀ c,
        decode_update_entity dicts (write_varint idx ++ (B :: rest)) ≠
          .error (.reservedBitsSet c)))) ∧
    (∀ idx S U, idx < dicts.objects.length → idx < 2 ^ 64 →
      ((S &&& 0xE0 ≠ 0 →
        decode_update_relation dicts (write_varint idx ++ (S :: U :: rest)) =
          .error (.reservedBitsSet "UpdateRelation set_flags")) ∧
       (S &&& 0xE0 = 0 → U &&& 0xE0 ≠ 0 →
        decode_update_relation dicts (write_varint idx ++ (S :: U :: rest)) =
          .error (.reservedBitsSet "UpdateRelation unset_flags")) ∧
       (S &&& 0xE0 = 0 → U &&& 0xE0 = 0 → ∀ c,
        decode_update_relation dicts (write_varint idx ++ (S :: U :: rest)) ≠
          .error (.reservedBitsSet c)))) ∧
    (∀ i eidx pidx B, i.length = 16 → eidx < dicts.objects.length → eidx < 2 ^ 64 →
      pidx < dicts.properties.length → pidx < 2 ^ 64 →
      ((B &&& 0xFC ≠ 0 →
        decode_create_value_ref dicts
            (i ++ (write_varint eidx ++ (write_varint pidx ++ (B :: rest)))) =
          .error (.reservedBitsSet "CreateValueRef flags")) ∧
       (B &&& 0xFC = 0 → ∀ c,
        decode_create_value_ref dicts
            (i ++ (write_varint eidx ++ (write_varint pidx ++ (B :: rest)))) ≠
          .error (.reservedBitsSet c)))) := by
  refine ⟨?_, ?_, ?_⟩
  · intro idx B hidx h64
    have hv : read_varint "entity_id" (write_varint idx ++ (B :: rest)) =
        .ok (idx, B :: rest) := read_varint_write _ h64 _
    have hro : resolve_object dicts idx = .ok (dicts.objects.getD idx []) := by
      unfold resolve_object
      rw [if_neg (by omega)]
    constructor
    · intro hB
      unfold decode_update_entity
      simp only [hv, ok_bind, hro, read_byte]
      rw [if_pos hB]
    · intro hB c
      unfold decode_update_entity
      simp only [hv, ok_bind, hro, read_byte]
      rw [if_neg (by omega)]
      refine @errs_ne_error rbs_free _ _ ?_ _ (fun hh => hh c rfl)
      repeat' first
        | trivial
        | (intro c2 h2; simp at h2)
        | (rintro ⟨_, _⟩)
        | (intro _)
        | split
        | dsimp only
        | (apply errs_bind (rbs_read_varint _ _))
        | (apply errs_bind (rbs_decode_property_values _ _ _))
        | (apply errs_bind (rbs_decode_unset_values _ _ _))
  · intro idx S U hidx h64
    have hv : read_varint "relation_id" (write_varint idx ++ (S :: U :: rest)) =
        .ok (idx, S :: U :: rest) := read_varint_write _ h64 _
    have hro : resolve_object dicts idx = .ok (dicts.objects.getD idx []) := by
      unfold resolve_object
      rw [if_neg (by omega)]
    refine ⟨?_, ?_, ?_⟩
    · intro hS
      unfold decode_update_relation
      simp only [hv, ok_bind, hro, read_byte]
      rw [if_pos hS]
    · intro hS hU
      unfold decode_update_relation
      simp only [hv, ok_bind, hro, read_byte]
      rw [if_neg (by omega), if_pos hU]
    · intro hS hU c
      unfold decode_update_relation
      simp only [hv, ok_bind, hro, read_byte]
      rw [if_neg (by omega), if_neg (by omega)]
      refine @errs_ne_error rbs_free _ _ ?_ _ (fun hh => hh c rfl)
      all_goals by_cases hb1 : S &&& 0x01 ≠ 0
      all_goals first
        | (rw [if_pos hb1]
           apply errs_bind (rbs_read_id _ _)
           rintro ⟨_, _⟩
           try dsimp only [pure_bind_ex, ok_bind])
        | (rw [if_neg hb1]
           try dsimp only [pure_bind_ex, ok_bind])
      all_goals by_cases hb2 : S &&& 0x02 ≠ 0
      all_goals first
        | (rw [if_pos hb2]
           apply errs_bind (rbs_read_id _ _)
           rintro ⟨_, _⟩
           try dsimp only [pure_bind_ex, ok_bind])
        | (rw [if_neg hb2]
           try dsimp only [pure_bind_ex, ok_bind])
      all_goals by_cases hb3 : S &&& 0x04 ≠ 0
      all_goals first
        | (rw [if_pos hb3]
           apply errs_bind (rbs_read_id _ _)
           rintro ⟨_, _⟩
           try dsimp only [pure_bind_ex, ok_bind])
        | (rw [if_neg hb3]
           try dsimp only [pure_bind_ex, ok_bind])
      all_goals by_cases hb4 : S &&& 0x08 ≠ 0
      all_goals first
        | (rw [if_pos hb4]
           apply errs_bind (rbs_read_id _ _)
           rintro ⟨_, _⟩
           try dsimp only [pure_bind_ex, ok_bind])
        | (rw [if_neg hb4]
           try dsimp only [pure_bind_ex, ok_bind])
      all_goals by_cases hb5 : S &&& 0x10 ≠ 0
      all_goals first
        | (rw [if_pos hb5]
           apply errs_bind (rbs_decode_position _)
           rintro ⟨_, _⟩
           try dsimp only [pure_bind_ex, ok_bind])
        | (rw [if_neg hb5]
           try dsimp only [pure_bind_ex, ok_bind])
      all_goals trivial
  · intro i eidx pidx B hlen heidx he64 hpidx hp64
    have hid : read_id "value_ref_id" (i ++ (write_varint eidx ++ (write_varint pidx ++ (B :: rest)))) =
        .ok (i, write_varint eidx ++ (write_varint pidx ++ (B :: rest))) :=
      read_id_exact _ hlen _
    have hv1 : read_varint "entity" (write_varint eidx ++ (write_varint pidx ++ (B :: rest))) =
        .ok (eidx, write_varint pidx ++ (B :: rest)) := read_varint_write _ he64 _
    have hv2 : read_varint "property" (write_varint pidx ++ (B :: rest)) =
        .ok (pidx, B :: rest) := read_varint_write _ hp64 _
    have hro : resolve_object dicts eidx = .ok (dicts.objects.getD eidx []) := by
      unfold resolve_object
      rw [if_neg (by omega)]
    constructor
    · intro hB
      unfold decode_create_value_ref
      simp only [hid, ok_bind, hv1, hro, hv2, read_byte]
      rw [if_neg (by omega), if_pos hB]
    · intro hB c
      unfold decode_create_value_ref
      simp only [hid, ok_bind, hv1, hro, hv2, read_byte]
      rw [if_neg (by omega), if_neg (by omega)]
      refine @errs_ne_error rbs_free _ _ ?_ _ (fun hh => hh c rfl)
      repeat' first
        | trivial
        | (intro c2 h2; simp at h2)
        | split
        | (apply errs_bind (rbs_read_varint _ _)
           rintro ⟨_, _⟩)
        | (apply errs_bind (rbs_read_id _ _)
           rintro ⟨_, _⟩)


/-- Witness for C8 at the concrete dictionary `d8`: flag bytes with reserved
bits set are rejected, and with them clear the `ReservedBitsSet` error does
not occur. -/
theorem C8_reserved_bits_witness :
    decode_update_entity d8 (write_varint 0 ++ (0xFF :: [])) =
      .error (.reservedBitsSet "UpdateEntity flags") ∧
    decode_update_entity d8 (write_varint 0 ++ (0x00 :: [])) ≠
      .error (.reservedBitsSet "UpdateEntity flags") ∧
    decode_update_relation d8 (write_varint 0 ++ (0xE0 :: 0x00 :: [])) =
      .error (.reservedBitsSet "UpdateRelation set_flags") ∧
    decode_update_relation d8 (write_varint 0 ++ (0x00 :: 0xE0 :: [])) =
      .error (.reservedBitsSet "UpdateRelation unset_flags") ∧
    decode_create_value_ref d8 (idC ++ (write_varint 0 ++ (write_varint 0 ++ (0xFF :: [])))) =
      .error (.reservedBitsSet "CreateValueRef flags") := by
  obtain ⟨hue, hur, hcvr⟩ := C8_reserved_bits d8 []
  refine ⟨?_, ?_, ?_, ?_, ?_⟩
  · exact (hue 0 0xFF (by decide) (by norm_num)).1 (by decide)
  · exact (hue 0 0x00 (by decide) (by norm_num)).2 (by decide) "UpdateEntity flags"
  · exact (hur 0 0xE0 0x00 (by decide) (by norm_num)).1 (by decide)
  · exact (hur 0 0x00 0xE0 (by decide) (by norm_num)).2.1 (by decide) (by decide)
  · exact (hcvr idC 0 0 0xFF (by decide) (by decide) (by norm_num) (by decide)
      (by norm_num)).1 (by decide)


/-! ## Claim C3: length-prefix bound checks -/

theorem len_read_byte (ctx : String) (bs : List Nat) : errs len_free (read_byte ctx bs) := by
  cases bs with
  | nil => intro f l m h; simp at h
  | cons b rest => trivial

theorem len_read_bytes (n : Nat) (ctx : String) (bs : List Nat) :
    errs len_free (read_bytes n ctx bs) := by
  unfold read_bytes
  split
  · trivial
  · intro f l m h; simp at h

theorem len_read_varint_loop (ctx : String) :
    ∀ (fuel res shift : Nat) (bs : List Nat),
      errs len_free (read_varint_loop ctx fuel res shift bs)
  | 0, _, _, _ => by intro f l m h; simp at h
  | fuel + 1, res, shift, bs => by
    rw [read_varint_loop]
    apply errs_bind (len_read_byte ctx bs)
    rintro ⟨byte, bs2⟩
    dsimp only
    repeat' split
    all_goals first
      | trivial
      | (intro f l m h; simp at h)
      | exact len_read_varint_loop ctx fuel _ _ _

theorem len_read_varint (ctx : String) (bs : List Nat) :
    errs len_free (read_varint ctx bs) :=
  len_read_varint_loop ctx _ _ _ _

theorem len_read_signed_varint (ctx : String) (bs : List Nat) :
    errs len_free (read_signed_varint ctx bs) := by
  unfold read_signed_varint
  apply errs_bind (len_read_varint ctx bs)
  rintro ⟨v, bs2⟩
  trivial

theorem len_resolve_unit (dicts : WireDictionaries) (n : Nat) :
    errs len_free (resolve_unit dicts n) := by
  unfold resolve_unit
  split
  · trivial
  · split
    · intro f l m h; simp at h
    · trivial

/-- `decode_decimal` never reports a length over a limit: the big-mantissa
declared length is not checked against any maximum. -/
theorem len_decode_decimal (dicts : WireDictionaries) (bs : List Nat) :
    errs len_free (decode_decimal dicts bs) := by
  unfold decode_decimal
  apply errs_bind (len_read_signed_varint _ _)
  rintro ⟨e, bs1⟩
  dsimp only
  apply errs_bind (len_read_byte _ _)
  rintro ⟨mt, bs2⟩
  dsimp only
  rcases mt with _ | _ | mt
  · apply errs_bind (len_read_signed_varint _ _)
    rintro ⟨v, bs3⟩
    dsimp only
    apply errs_pure_bind
    dsimp only
    repeat' split
    all_goals first
      | (intro f l m h; simp at h)
      | (apply errs_bind (len_read_varint _ _)
         rintro ⟨ui, bsu⟩
         dsimp only
         apply errs_bind (len_resolve_unit _ _)
         intro unit
         trivial)
  · apply errs_bind (len_read_varint _ _)
    rintro ⟨len2, bs3⟩
    dsimp only
    apply errs_bind (len_read_bytes _ _ _)
    rintro ⟨bytes, bs4⟩
    dsimp only
    repeat' split
    all_goals first
      | (intro f l m h; simp at h)
      | (apply errs_pure_bind
         dsimp only
         repeat' split
         all_goals first
           | (intro f l m h; simp at h)
           | (apply errs_bind (len_read_varint _ _)
              rintro ⟨ui, bsu⟩
              dsimp only
              apply errs_bind (len_resolve_unit _ _)
              intro unit
              trivial))
  · intro f l m h; simp at h

theorem pow256_mod10 : ∀ k : Nat, 256 ^ k % 10 = if k = 0 then 1 else 6
  | 0 => rfl
  | k + 1 => by
    have ih := pow256_mod10 k
    rw [pow_succ, Nat.mul_mod, ih]
    split <;> norm_num

/-- A decimal wire value with declared big-mantissa length `n` and `n`
available mantissa bytes (`0x01` then zeros) decodes successfully, for every
`n` — the declared length is bounded only by varint range, never by a field
maximum. -/
theorem dec_stream_ok (dicts : WireDictionaries) (n : Nat) (h1 : 1 ≤ n) (h2 : n < 2 ^ 64) :
    decode_decimal dicts (dec_stream n) =
      .ok (.decimal 0 (.big (1 :: List.replicate (n - 1) 0)) none, []) := by
  unfold decode_decimal
  rw [show dec_stream n =
      write_signed_varint 0 ++
        (1 :: (write_varint n ++ ((1 :: List.replicate (n - 1) 0) ++ [0]))) by
    simp [dec_stream, write_signed_varint, zigzag_encode, write_varint_small]]
  rw [@read_signed_varint_write "decimal.exponent" 0 (by norm_num) (by norm_num) _]
  simp only [ok_bind, read_byte]
  try dsimp only
  rw [read_varint_write _ h2 _]
  simp only [ok_bind]
  rw [read_bytes_exact _ (by simp; omega) _]
  simp only [ok_bind]
  have hsec : (1 :: List.replicate (n - 1) 0).getD 1 0 = 0 := by
    cases h : n - 1 with
    | zero => rfl
    | succ m => simp [List.getD]
  have hmin : ¬ (((1 :: List.replicate (n - 1) 0).getD 0 0 = 0 ∧
      (1 :: List.replicate (n - 1) 0).getD 1 0 &&& 0x80 = 0) ∨
      ((1 :: List.replicate (n - 1) 0).getD 0 0 = 0xFF ∧
      (1 :: List.replicate (n - 1) 0).getD 1 0 &&& 0x80 ≠ 0)) := by
    simp [List.getD]
  have hz : is_big_mantissa_zero (1 :: List.replicate (n - 1) 0) = false := by
    simp [is_big_mantissa_zero]
  have hdiv : is_big_mantissa_divisible_by_10 (1 :: List.replicate (n - 1) 0) = false := by
    have hfold := fold6_pos (1 :: List.replicate (n - 1) 0)
    have hbe : be_to_nat (1 :: List.replicate (n - 1) 0) = 256 ^ (n - 1) := by
      rw [be_to_nat_cons]
      have : be_to_nat (List.replicate (n - 1) 0) = 0 :=
        (be_eq_zero_iff _).mpr (by simp [is_big_mantissa_zero])
      simp [this, List.length_replicate]
    rw [show is_big_mantissa_divisible_by_10 (1 :: List.replicate (n - 1) 0) =
        decide ((1 :: List.replicate (n - 1) 0).foldl
          (fun r byte => (r * 6 + byte) % 10) 0 = 0) from rfl]
    rw [hfold, hbe, pow256_mod10]
    split <;> simp
  by_cases hlen : (1 :: List.replicate (n - 1) 0).length > 1
  · rw [if_pos hlen]
    try dsimp only
    rw [if_neg hmin]
    try simp only [pure_bind_ex]
    try dsimp only
    rw [if_neg (by simp [hz]), if_neg (by simp [hdiv])]
    try simp only [pure_bind_ex]
    rw [show ([0] : List Nat) = write_varint 0 ++ [] from rfl,
      read_varint_write _ (by norm_num) _]
    simp only [ok_bind]
    rw [show resolve_unit dicts 0 = .ok none from rfl]
    simp only [ok_bind]
    norm_num [to_i32]
  · rw [if_neg hlen]
    try simp only [pure_bind_ex]
    try dsimp only
    rw [if_neg (by simp [hz]), if_neg (by simp [hdiv])]
    try simp only [pure_bind_ex]
    rw [show ([0] : List Nat) = write_varint 0 ++ [] from rfl,
      read_varint_write _ (by norm_num) _]
    simp only [ok_bind]
    rw [show resolve_unit dicts 0 = .ok none from rfl]
    simp only [ok_bind]
    norm_num [to_i32]


/-- C3 counterexample: `decode_decimal` has no maximum for the declared
big-mantissa byte length — there is no bound `M` past which the declared
length is rejected with `LengthExceedsLimit` (indeed `decode_decimal` never
produces a `LengthExceedsLimit` error at all). -/
theorem C3_counterexample :
    ¬ ∃ M : Nat, ∀ n : Nat, M < n →
      is_length_error (decode_decimal empty_dicts (dec_stream n)) := by
  rintro ⟨M, hM⟩
  have h := hM (M + 1) (Nat.lt_succ_self M)
  have hfree := len_decode_decimal empty_dicts (dec_stream (M + 1))
  cases hres : decode_decimal empty_dicts (dec_stream (M + 1)) with
  | ok a => rw [hres] at h; exact h
  | error e =>
    rw [hres] at h hfree
    cases e <;> first
      | exact h
      | exact hfree _ _ _ rfl

/-- C3 (amended): strings, byte arrays, id vectors, bytes values and
embedding dimensions have their varint length prefix checked against the
field maximum before the body is read, but the decimal big-mantissa declared
length is not checked against any maximum: the mantissa body is read for
arbitrarily large declared lengths. -/
theorem C3_length_checks :
    (∀ max f len rest, len > max → len < 2 ^ 64 →
      read_bytes_prefixed max f (write_varint len ++ rest) =
        .error (.lengthExceedsLimit f len max)) ∧
    (∀ max f len rest, len > max → len < 2 ^ 64 →
      read_str max f (write_varint len ++ rest) =
        .error (.lengthExceedsLimit f len max)) ∧
    (∀ max f count rest, count > max → count < 2 ^ 64 →
      read_id_vec max f (write_varint count ++ rest) =
        .error (.lengthExceedsLimit f count max)) ∧
    (∀ len rest, len > MAX_BYTES_LEN → len < 2 ^ 64 →
      decode_bytes (write_varint len ++ rest) =
        .error (.lengthExceedsLimit "bytes" len MAX_BYTES_LEN)) ∧
    (∀ dims rest, dims > MAX_EMBEDDING_DIMS → dims < 2 ^ 64 →
      decode_embedding (0 :: (write_varint dims ++ rest)) =
        .error (.lengthExceedsLimit "embedding.dims" dims MAX_EMBEDDING_DIMS)) ∧
    (∀ dicts n, 1 ≤ n → n < 2 ^ 64 →
      decode_decimal dicts (dec_stream n) =
        .ok (.decimal 0 (.big (1 :: List.replicate (n - 1) 0)) none, [])) := by
  refine ⟨?_, ?_, ?_, ?_, ?_, fun dicts n h1 h2 => dec_stream_ok dicts n h1 h2⟩
  · intro max f len rest hgt hlt
    unfold read_bytes_prefixed
    rw [read_varint_write _ hlt _]
    simp only [ok_bind]
    rw [if_pos hgt]
  · intro max f len rest hgt hlt
    unfold read_str
    rw [read_varint_write _ hlt _]
    simp only [ok_bind]
    rw [if_pos hgt]
  · intro max f count rest hgt hlt
    unfold read_id_vec
    rw [read_varint_write _ hlt _]
    simp only [ok_bind]
    rw [if_pos hgt]
  · intro len rest hgt hlt
    unfold decode_bytes
    rw [read_varint_write _ hlt _]
    simp only [ok_bind]
    rw [if_pos hgt]
  · intro dims rest hgt hlt
    unfold decode_embedding
    simp only [read_byte, ok_bind]
    try dsimp only [EmbeddingSubType.from_u8]
    rw [read_varint_write _ hlt _]
    simp only [ok_bind]
    rw [if_pos hgt]

/-- Witness for C3 at concrete inputs: a declared length of 6 over a maximum
of 5 is rejected for prefixed bytes, strings and id vectors; an oversized
bytes value and embedding dims are rejected; and a decimal with declared
mantissa length 3 decodes fine. -/
theorem C3_length_checks_witness :
    read_bytes_prefixed 5 "f" (write_varint 6 ++ [1, 2, 3, 4, 5, 6]) =
      .error (.lengthExceedsLimit "f" 6 5) ∧
    read_str 5 "s" (write_varint 6 ++ [97, 97, 97, 97, 97, 97]) =
      .error (.lengthExceedsLimit "s" 6 5) ∧
    read_id_vec 2 "ids" (write_varint 3 ++ []) =
      .error (.lengthExceedsLimit "ids" 3 2) ∧
    decode_bytes (write_varint (MAX_BYTES_LEN + 1) ++ []) =
      .error (.lengthExceedsLimit "bytes" (MAX_BYTES_LEN + 1) MAX_BYTES_LEN) ∧
    decode_embedding (0 :: (write_varint (MAX_EMBEDDING_DIMS + 1) ++ [])) =
      .error (.lengthExceedsLimit "embedding.dims" (MAX_EMBEDDING_DIMS + 1)
        MAX_EMBEDDING_DIMS) ∧
    decode_decimal empty_dicts (dec_stream 3) =
      .ok (.decimal 0 (.big (1 :: List.replicate 2 0)) none, []) := by
  obtain ⟨hb, hs, hi, hby, he, hd⟩ := C3_length_checks
  exact ⟨hb 5 "f" 6 _ (by norm_num) (by norm_num),
    hs 5 "s" 6 _ (by norm_num) (by norm_num),
    hi 2 "ids" 3 _ (by norm_num) (by norm_num),
    hby _ _ (by norm_num) (by norm_num [MAX_BYTES_LEN]),
    he _ _ (by norm_num) (by norm_num [MAX_EMBEDDING_DIMS]),
    hd empty_dicts 3 (by norm_num) (by norm_num)⟩


/-! ## Claim C10: decoders are stable under trailing bytes -/

theorem ext_read_byte (ctx : String) (bs extra : List Nat) (a : Nat) (rest : List Nat)
    (h : read_byte ctx bs = .ok (a, rest)) :
    read_byte ctx (bs ++ extra) = .ok (a, rest ++ extra) := by
  cases bs with
  | nil => exact absurd h (by simp [read_byte])
  | cons b tl =>
    simp only [read_byte, Except.ok.injEq, Prod.mk.injEq] at h
    obtain ⟨rfl, rfl⟩ := h
    rfl

theorem ext_read_bytes (n : Nat) (ctx : String) (bs extra : List Nat) (a rest : List Nat)
    (h : read_bytes n ctx bs = .ok (a, rest)) :
    read_bytes n ctx (bs ++ extra) = .ok (a, rest ++ extra) := by
  unfold read_bytes at h ⊢
  by_cases hle : n ≤ bs.length
  · rw [if_pos hle] at h
    simp only [Except.ok.injEq, Prod.mk.injEq] at h
    obtain ⟨rfl, rfl⟩ := h
    rw [if_pos (by simp; omega)]
    rw [List.take_append_of_le_length hle, List.drop_append_of_le_length hle]
  · rw [if_neg hle] at h
    exact absurd h (by simp)

theorem ext_read_id (ctx : String) (bs extra : List Nat) (a : Id) (rest : List Nat)
    (h : read_id ctx bs = .ok (a, rest)) :
    read_id ctx (bs ++ extra) = .ok (a, rest ++ extra) :=
  ext_read_bytes 16 ctx bs extra a rest h

theorem ext_read_varint_loop (ctx : String) :
    ∀ (fuel res shift : Nat) (bs extra : List Nat) (a : Nat) (rest : List Nat),
      read_varint_loop ctx fuel res shift bs = .ok (a, rest) →
      read_varint_loop ctx fuel res shift (bs ++ extra) = .ok (a, rest ++ extra)
  | 0, res, shift, bs, extra, a, rest => by
    intro h
    exact absurd h (by simp [read_varint_loop])
  | fuel + 1, res, shift, bs, extra, a, rest => by
    intro h
    cases bs with
    | nil =>
      rw [read_varint_loop] at h
      exact absurd h (by simp [read_byte])
    | cons b tl =>
      rw [read_varint_loop] at h
      rw [List.cons_append, read_varint_loop]
      simp only [read_byte, ok_bind] at h ⊢
      by_cases hc : shift ≥ 64 ∨ (shift = 63 ∧ b &&& 0x7F > 1)
      · rw [if_pos hc] at h
        exact absurd h (by simp)
      · rw [if_neg hc] at h
        rw [if_neg hc]
        by_cases hcont : b &&& 0x80 = 0
        · rw [if_pos hcont] at h
          rw [if_pos hcont]
          simp only [Except.ok.injEq, Prod.mk.injEq] at h
          obtain ⟨rfl, rfl⟩ := h
          rfl
        · rw [if_neg hcont] at h
          rw [if_neg hcont]
          exact ext_read_varint_loop ctx fuel _ _ tl extra a rest h

theorem ext_read_varint (ctx : String) (bs extra : List Nat) (a : Nat) (rest : List Nat)
    (h : read_varint ctx bs = .ok (a, rest)) :
    read_varint ctx (bs ++ extra) = .ok (a, rest ++ extra) :=
  ext_read_varint_loop ctx _ _ _ bs extra a rest h

theorem ext_read_signed_varint (ctx : String) (bs extra : List Nat) (a : Int)
    (rest : List Nat) (h : read_signed_varint ctx bs = .ok (a, rest)) :
    read_signed_varint ctx (bs ++ extra) = .ok (a, rest ++ extra) := by
  unfold read_signed_varint at h ⊢
  cases h1 : read_varint ctx bs with
  | error e => rw [h1] at h; exact absurd h (by simp)
  | ok p =>
    obtain ⟨v, bs1⟩ := p
    rw [h1] at h
    rw [ext_read_varint ctx bs extra v bs1 h1]
    simp only [ok_bind, Except.ok.injEq, Prod.mk.injEq] at h ⊢
    obtain ⟨rfl, rfl⟩ := h
    exact ⟨rfl, rfl⟩

theorem ext_read_str (max_len : Nat) (field : String) (bs extra : List Nat)
    (a rest : List Nat) (h : read_str max_len field bs = .ok (a, rest)) :
    read_str max_len field (bs ++ extra) = .ok (a, rest ++ extra) := by
  unfold read_str at h ⊢
  cases h1 : read_varint field bs with
  | error e => rw [h1] at h; exact absurd h (by simp)
  | ok p =>
    obtain ⟨len, bs1⟩ := p
    rw [h1] at h
    rw [ext_read_varint field bs extra len bs1 h1]
    simp only [ok_bind] at h ⊢
    by_cases hgt : len > max_len
    · rw [if_pos hgt] at h
      exact absurd h (by simp)
    · rw [if_neg hgt] at h
      rw [if_neg hgt]
      cases h2 : read_bytes len field bs1 with
      | error e => rw [h2] at h; exact absurd h (by simp)
      | ok p2 =>
        obtain ⟨bytes, bs2⟩ := p2
        rw [h2] at h
        rw [ext_read_bytes len field bs1 extra bytes bs2 h2]
        simp only [ok_bind] at h ⊢
        by_cases hu : isValidUtf8 bytes
        · rw [if_pos hu] at h
          rw [if_pos hu]
          simp only [Except.ok.injEq, Prod.mk.injEq] at h ⊢
          obtain ⟨rfl, rfl⟩ := h
          exact ⟨rfl, rfl⟩
        · rw [if_neg hu] at h
          exact absurd h (by simp)

theorem ext_read_f64 (ctx : String) (bs extra : List Nat) (a : Nat) (rest : List Nat)
    (h : read_f64 ctx bs = .ok (a, rest)) :
    read_f64 ctx (bs ++ extra) = .ok (a, rest ++ extra) := by
  unfold read_f64 at h ⊢
  cases h1 : read_bytes 8 ctx bs with
  | error e => rw [h1] at h; exact absurd h (by simp)
  | ok p =>
    obtain ⟨bytes, bs1⟩ := p
    rw [h1] at h
    rw [ext_read_bytes 8 ctx bs extra bytes bs1 h1]
    simp only [ok_bind] at h ⊢
    by_cases hn : f64_is_nan (le_to_nat bytes)
    · rw [if_pos hn] at h
      exact absurd h (by simp)
    · rw [if_neg hn] at h
      rw [if_neg hn]
      simp only [Except.ok.injEq, Prod.mk.injEq] at h ⊢
      obtain ⟨rfl, rfl⟩ := h
      exact ⟨rfl, rfl⟩

theorem ext_read_ids (field : String) :
    ∀ (n : Nat) (bs extra : List Nat) (a : List Id) (rest : List Nat),
      read_ids field n bs = .ok (a, rest) →
      read_ids field n (bs ++ extra) = .ok (a, rest ++ extra)
  | 0, bs, extra, a, rest => by
    intro h
    simp only [read_ids, Except.ok.injEq, Prod.mk.injEq] at h
    obtain ⟨rfl, rfl⟩ := h
    rfl
  | n + 1, bs, extra, a, rest => by
    intro h
    rw [read_ids] at h ⊢
    cases h1 : read_id field bs with
    | error e => rw [h1] at h; exact absurd h (by simp)
    | ok p =>
      obtain ⟨id1, bs1⟩ := p
      rw [h1] at h
      rw [ext_read_id field bs extra id1 bs1 h1]
      simp only [ok_bind] at h ⊢
      cases h2 : read_ids field n bs1 with
      | error e => rw [h2] at h; exact absurd h (by simp)
      | ok p2 =>
        obtain ⟨ids, bs2⟩ := p2
        rw [h2] at h
        rw [ext_read_ids field n bs1 extra ids bs2 h2]
        simp only [ok_bind, Except.ok.injEq, Prod.mk.injEq] at h ⊢
        obtain ⟨rfl, rfl⟩ := h
        exact ⟨rfl, rfl⟩

theorem ext_read_id_vec (max_len : Nat) (field : String) (bs extra : List Nat)
    (a : List Id) (rest : List Nat) (h : read_id_vec max_len field bs = .ok (a, rest)) :
    read_id_vec max_len field (bs ++ extra) = .ok (a, rest ++ extra) := by
  unfold read_id_vec at h ⊢
  cases h1 : read_varint field bs with
  | error e => rw [h1] at h; exact absurd h (by simp)
  | ok p =>
    obtain ⟨count, bs1⟩ := p
    rw [h1] at h
    rw [ext_read_varint field bs extra count bs1 h1]
    simp only [ok_bind] at h ⊢
    by_cases hgt : count > max_len
    · rw [if_pos hgt] at h
      exact absurd h (by simp)
    · rw [if_neg hgt] at h
      rw [if_neg hgt]
      exact ext_read_ids field count bs1 extra a rest h


theorem ext_decimal_tail (dicts : WireDictionaries) (e : Int) (M : DecimalMantissa)
    (cur extra : List Nat) (a : Value) (rest : List Nat)
    (h : (read_varint "decimal.unit" cur >>= fun p =>
          resolve_unit dicts p.1 >>= fun unit =>
          Except.ok (Value.decimal (to_i32 e) M unit, p.2)) = .ok (a, rest)) :
    (read_varint "decimal.unit" (cur ++ extra) >>= fun p =>
        resolve_unit dicts p.1 >>= fun unit =>
        Except.ok (Value.decimal (to_i32 e) M unit, p.2)) = .ok (a, rest ++ extra) := by
  cases h1 : read_varint "decimal.unit" cur with
  | error e2 => rw [h1] at h; exact absurd h (by simp)
  | ok p =>
    obtain ⟨ui, cur1⟩ := p
    rw [h1] at h
    rw [ext_read_varint _ cur extra ui cur1 h1]
    simp only [ok_bind] at h ⊢
    cases h2 : resolve_unit dicts ui with
    | error e2 => rw [h2] at h; exact absurd h (by simp)
    | ok unit =>
      rw [h2] at h
      simp only [ok_bind, Except.ok.injEq, Prod.mk.injEq] at h ⊢
      obtain ⟨rfl, rfl⟩ := h
      exact ⟨rfl, rfl⟩

theorem ext_decode_decimal (dicts : WireDictionaries) (bs extra : List Nat) (a : Value)
    (rest : List Nat) (h : decode_decimal dicts bs = .ok (a, rest)) :
    decode_decimal dicts (bs ++ extra) = .ok (a, rest ++ extra) := by
  unfold decode_decimal at h ⊢
  cases h1 : read_signed_varint "decimal.exponent" bs with
  | error e2 => rw [h1] at h; exact absurd h (by simp)
  | ok p =>
    obtain ⟨e, bs1⟩ := p
    rw [h1] at h
    rw [ext_read_signed_varint _ bs extra e bs1 h1]
    simp only [ok_bind] at h ⊢
    cases h2 : read_byte "decimal.mantissa_type" bs1 with
    | error e2 => rw [h2] at h; exact absurd h (by simp)
    | ok p2 =>
      obtain ⟨mt, bs2⟩ := p2
      rw [h2] at h
      rw [ext_read_byte _ bs1 extra mt bs2 h2]
      simp only [ok_bind] at h ⊢
      rcases mt with _ | _ | mt
      · cases h3 : read_signed_varint "decimal.mantissa" bs2 with
        | error e2 => rw [h3] at h; exact absurd h (by simp)
        | ok p3 =>
          obtain ⟨v, bs3⟩ := p3
          rw [h3] at h
          rw [ext_read_signed_varint _ bs2 extra v bs3 h3]
          simp only [ok_bind, pure_bind_ex] at h ⊢
          try dsimp only at h ⊢
          by_cases h5 : v = 0
          · by_cases h6 : to_i32 e ≠ 0
            · rw [if_pos h5, if_pos h6] at h
              exact absurd h (by simp)
            · rw [if_pos h5, if_neg h6] at h
              rw [if_pos h5, if_neg h6]
              exact ext_decimal_tail dicts e _ bs3 extra a rest h
          · by_cases h6 : v % 10 = 0
            · rw [if_neg h5, if_pos h6] at h
              exact absurd h (by simp)
            · rw [if_neg h5, if_neg h6] at h
              rw [if_neg h5, if_neg h6]
              exact ext_decimal_tail dicts e _ bs3 extra a rest h
      · cases h3 : read_varint "decimal.mantissa_len" bs2 with
        | error e2 => rw [h3] at h; exact absurd h (by simp)
        | ok p3 =>
          obtain ⟨len, bs3⟩ := p3
          rw [h3] at h
          rw [ext_read_varint _ bs2 extra len bs3 h3]
          simp only [ok_bind] at h ⊢
          cases h4 : read_bytes len "decimal.mantissa_bytes" bs3 with
          | error e2 => rw [h4] at h; exact absurd h (by simp)
          | ok p4 =>
            obtain ⟨bytes, bs4⟩ := p4
            rw [h4] at h
            rw [ext_read_bytes len _ bs3 extra bytes bs4 h4]
            simp only [ok_bind] at h ⊢
            by_cases hlen : bytes.length > 1
            · rw [if_pos hlen] at h
              rw [if_pos hlen]
              try dsimp only at h ⊢
              by_cases hmin : (bytes.getD 0 0 = 0 ∧ bytes.getD 1 0 &&& 0x80 = 0) ∨
                  (bytes.getD 0 0 = 0xFF ∧ bytes.getD 1 0 &&& 0x80 ≠ 0)
              · rw [if_pos hmin] at h
                exact absurd h (by simp)
              · rw [if_neg hmin] at h
                rw [if_neg hmin]
                simp only [pure_bind_ex] at h ⊢
                try dsimp only at h ⊢
                by_cases h5 : is_big_mantissa_zero bytes = true
                · by_cases h6 : to_i32 e ≠ 0
                  · rw [if_pos h5, if_pos h6] at h
                    exact absurd h (by simp)
                  · rw [if_pos h5, if_neg h6] at h
                    rw [if_pos h5, if_neg h6]
                    exact ext_decimal_tail dicts e _ bs4 extra a rest h
                · by_cases h6 : is_big_mantissa_divisible_by_10 bytes = true
                  · rw [if_neg h5, if_pos h6] at h
                    exact absurd h (by simp)
                  · rw [if_neg h5, if_neg h6] at h
                    rw [if_neg h5, if_neg h6]
                    exact ext_decimal_tail dicts e _ bs4 extra a rest h
            · rw [if_neg hlen] at h
              rw [if_neg hlen]
              simp only [pure_bind_ex] at h ⊢
              try dsimp only at h ⊢
              by_cases h5 : is_big_mantissa_zero bytes = true
              · by_cases h6 : to_i32 e ≠ 0
                · rw [if_pos h5, if_pos h6] at h
                  exact absurd h (by simp)
                · rw [if_pos h5, if_neg h6] at h
                  rw [if_pos h5, if_neg h6]
                  exact ext_decimal_tail dicts e _ bs4 extra a rest h
              · by_cases h6 : is_big_mantissa_divisible_by_10 bytes = true
                · rw [if_neg h5, if_pos h6] at h
                  exact absurd h (by simp)
                · rw [if_neg h5, if_neg h6] at h
                  rw [if_neg h5, if_neg h6]
                  exact ext_decimal_tail dicts e _ bs4 extra a rest h
      · exact absurd h (by simp)


theorem ext_decode_bool (bs extra : List Nat) (a : Value) (rest : List Nat)
    (h : decode_bool bs = .ok (a, rest)) :
    decode_bool (bs ++ extra) = .ok (a, rest ++ extra) := by
  unfold decode_bool at h ⊢
  cases h1 : read_byte "bool" bs with
  | error e => rw [h1] at h; exact absurd h (by simp)
  | ok p =>
    obtain ⟨b, bs1⟩ := p
    rw [h1] at h
    rw [ext_read_byte _ bs extra b bs1 h1]
    simp only [ok_bind] at h ⊢
    rcases b with _ | _ | b <;> simp_all

theorem ext_decode_int64 (dicts : WireDictionaries) (bs extra : List Nat) (a : Value)
    (rest : List Nat) (h : decode_int64 dicts bs = .ok (a, rest)) :
    decode_int64 dicts (bs ++ extra) = .ok (a, rest ++ extra) := by
  unfold decode_int64 at h ⊢
  cases h1 : read_signed_varint "int64" bs with
  | error e => rw [h1] at h; exact absurd h (by simp)
  | ok p =>
    obtain ⟨v, bs1⟩ := p
    rw [h1] at h
    rw [ext_read_signed_varint _ bs extra v bs1 h1]
    simp only [ok_bind] at h ⊢
    cases h2 : read_varint "int64.unit" bs1 with
    | error e => rw [h2] at h; exact absurd h (by simp)
    | ok p2 =>
      obtain ⟨ui, bs2⟩ := p2
      rw [h2] at h
      rw [ext_read_varint _ bs1 extra ui bs2 h2]
      simp only [ok_bind] at h ⊢
      cases h3 : resolve_unit dicts ui with
      | error e => rw [h3] at h; exact absurd h (by simp)
      | ok unit =>
        rw [h3] at h
        simp only [ok_bind, Except.ok.injEq, Prod.mk.injEq] at h ⊢
        obtain ⟨rfl, rfl⟩ := h
        exact ⟨rfl, rfl⟩

theorem ext_decode_float64 (dicts : WireDictionaries) (bs extra : List Nat) (a : Value)
    (rest : List Nat) (h : decode_float64 dicts bs = .ok (a, rest)) :
    decode_float64 dicts (bs ++ extra) = .ok (a, rest ++ extra) := by
  unfold decode_float64 at h ⊢
  cases h1 : read_f64 "float64" bs with
  | error e => rw [h1] at h; exact absurd h (by simp)
  | ok p =>
    obtain ⟨v, bs1⟩ := p
    rw [h1] at h
    rw [ext_read_f64 _ bs extra v bs1 h1]
    simp only [ok_bind] at h ⊢
    cases h2 : read_varint "float64.unit" bs1 with
    | error e => rw [h2] at h; exact absurd h (by simp)
    | ok p2 =>
      obtain ⟨ui, bs2⟩ := p2
      rw [h2] at h
      rw [ext_read_varint _ bs1 extra ui bs2 h2]
      simp only [ok_bind] at h ⊢
      cases h3 : resolve_unit dicts ui with
      | error e => rw [h3] at h; exact absurd h (by simp)
      | ok unit =>
        rw [h3] at h
        simp only [ok_bind, Except.ok.injEq, Prod.mk.injEq] at h ⊢
        obtain ⟨rfl, rfl⟩ := h
        exact ⟨rfl, rfl⟩

theorem ext_decode_text (dicts : WireDictionaries) (bs extra : List Nat) (a : Value)
    (rest : List Nat) (h : decode_text dicts bs = .ok (a, rest)) :
    decode_text dicts (bs ++ extra) = .ok (a, rest ++ extra) := by
  unfold decode_text at h ⊢
  cases h1 : read_str MAX_STRING_LEN "text" bs with
  | error e => rw [h1] at h; exact absurd h (by simp)
  | ok p =>
    obtain ⟨v, bs1⟩ := p
    rw [h1] at h
    rw [ext_read_str _ _ bs extra v bs1 h1]
    simp only [ok_bind] at h ⊢
    cases h2 : read_varint "text.language" bs1 with
    | error e => rw [h2] at h; exact absurd h (by simp)
    | ok p2 =>
      obtain ⟨li, bs2⟩ := p2
      rw [h2] at h
      rw [ext_read_varint _ bs1 extra li bs2 h2]
      simp only [ok_bind] at h ⊢
      cases h3 : resolve_language dicts li with
      | error e => rw [h3] at h; exact absurd h (by simp)
      | ok lang =>
        rw [h3] at h
        simp only [ok_bind, Except.ok.injEq, Prod.mk.injEq] at h ⊢
        obtain ⟨rfl, rfl⟩ := h
        exact ⟨rfl, rfl⟩

theorem ext_decode_bytes (bs extra : List Nat) (a : Value) (rest : List Nat)
    (h : decode_bytes bs = .ok (a, rest)) :
    decode_bytes (bs ++ extra) = .ok (a, rest ++ extra) := by
  unfold decode_bytes at h ⊢
  cases h1 : read_varint "bytes.len" bs with
  | error e => rw [h1] at h; exact absurd h (by simp)
  | ok p =>
    obtain ⟨len, bs1⟩ := p
    rw [h1] at h
    rw [ext_read_varint _ bs extra len bs1 h1]
    simp only [ok_bind] at h ⊢
    by_cases hgt : len > MAX_BYTES_LEN
    · rw [if_pos hgt] at h
      exact absurd h (by simp)
    · rw [if_neg hgt] at h
      rw [if_neg hgt]
      cases h2 : read_bytes len "bytes" bs1 with
      | error e => rw [h2] at h; exact absurd h (by simp)
      | ok p2 =>
        obtain ⟨bytes, bs2⟩ := p2
        rw [h2] at h
        rw [ext_read_bytes len _ bs1 extra bytes bs2 h2]
        simp only [ok_bind, Except.ok.injEq, Prod.mk.injEq] at h ⊢
        obtain ⟨rfl, rfl⟩ := h
        exact ⟨rfl, rfl⟩

theorem ext_decode_date (bs extra : List Nat) (a : Value) (rest : List Nat)
    (h : decode_date bs = .ok (a, rest)) :
    decode_date (bs ++ extra) = .ok (a, rest ++ extra) := by
  unfold decode_date at h ⊢
  cases h1 : read_bytes 6 "date" bs with
  | error e => rw [h1] at h; exact absurd h (by simp)
  | ok p =>
    obtain ⟨bytes, bs1⟩ := p
    rw [h1] at h
    rw [ext_read_bytes 6 _ bs extra bytes bs1 h1]
    simp only [ok_bind] at h ⊢
    try dsimp only at h ⊢
    split at h
    · exact absurd h (by simp)
    · rw [if_neg (by assumption)]
      simp only [Except.ok.injEq, Prod.mk.injEq] at h ⊢
      obtain ⟨rfl, rfl⟩ := h
      exact ⟨rfl, rfl⟩

theorem ext_decode_time (bs extra : List Nat) (a : Value) (rest : List Nat)
    (h : decode_time bs = .ok (a, rest)) :
    decode_time (bs ++ extra) = .ok (a, rest ++ extra) := by
  unfold decode_time at h ⊢
  cases h1 : read_bytes 8 "time" bs with
  | error e => rw [h1] at h; exact absurd h (by simp)
  | ok p =>
    obtain ⟨bytes, bs1⟩ := p
    rw [h1] at h
    rw [ext_read_bytes 8 _ bs extra bytes bs1 h1]
    simp only [ok_bind] at h ⊢
    try dsimp only at h ⊢
    split at h
    · exact absurd h (by simp)
    · rw [if_neg (by assumption)]
      split at h
      · exact absurd h (by simp)
      · rw [if_neg (by assumption)]
        simp only [Except.ok.injEq, Prod.mk.injEq] at h ⊢
        obtain ⟨rfl, rfl⟩ := h
        exact ⟨rfl, rfl⟩

theorem ext_decode_datetime (bs extra : List Nat) (a : Value) (rest : List Nat)
    (h : decode_datetime bs = .ok (a, rest)) :
    decode_datetime (bs ++ extra) = .ok (a, rest ++ extra) := by
  unfold decode_datetime at h ⊢
  cases h1 : read_bytes 10 "datetime" bs with
  | error e => rw [h1] at h; exact absurd h (by simp)
  | ok p =>
    obtain ⟨bytes, bs1⟩ := p
    rw [h1] at h
    rw [ext_read_bytes 10 _ bs extra bytes bs1 h1]
    simp only [ok_bind] at h ⊢
    try dsimp only at h ⊢
    split at h
    · exact absurd h (by simp)
    · rw [if_neg (by assumption)]
      simp only [Except.ok.injEq, Prod.mk.injEq] at h ⊢
      obtain ⟨rfl, rfl⟩ := h
      exact ⟨rfl, rfl⟩

theorem ext_decode_schedule (bs extra : List Nat) (a : Value) (rest : List Nat)
    (h : decode_schedule bs = .ok (a, rest)) :
    decode_schedule (bs ++ extra) = .ok (a, rest ++ extra) := by
  unfold decode_schedule at h ⊢
  cases h1 : read_str MAX_STRING_LEN "schedule" bs with
  | error e => rw [h1] at h; exact absurd h (by simp)
  | ok p =>
    obtain ⟨v, bs1⟩ := p
    rw [h1] at h
    rw [ext_read_str _ _ bs extra v bs1 h1]
    simp only [ok_bind, Except.ok.injEq, Prod.mk.injEq] at h ⊢
    obtain ⟨rfl, rfl⟩ := h
    exact ⟨rfl, rfl⟩


theorem ext_decode_point (bs extra : List Nat) (a : Value) (rest : List Nat)
    (h : decode_point bs = .ok (a, rest)) :
    decode_point (bs ++ extra) = .ok (a, rest ++ extra) := by
  unfold decode_point at h ⊢
  cases h1 : read_byte "point.ordinate_count" bs with
  | error e => rw [h1] at h; exact absurd h (by simp)
  | ok p =>
    obtain ⟨n, bs1⟩ := p
    rw [h1] at h
    rw [ext_read_byte _ bs extra n bs1 h1]
    simp only [ok_bind] at h ⊢
    by_cases hn : n ≠ 2 ∧ n ≠ 3
    · rw [if_pos hn] at h
      exact absurd h (by simp)
    · rw [if_neg hn] at h
      rw [if_neg hn]
      cases h2 : read_f64 "point.lat" bs1 with
      | error e => rw [h2] at h; exact absurd h (by simp)
      | ok p2 =>
        obtain ⟨lat, bs2⟩ := p2
        rw [h2] at h
        rw [ext_read_f64 _ bs1 extra lat bs2 h2]
        simp only [ok_bind] at h ⊢
        cases h3 : read_f64 "point.lon" bs2 with
        | error e => rw [h3] at h; exact absurd h (by simp)
        | ok p3 =>
          obtain ⟨lon, bs3⟩ := p3
          rw [h3] at h
          rw [ext_read_f64 _ bs2 extra lon bs3 h3]
          simp only [ok_bind] at h ⊢
          by_cases h4 : n = 3
          · rw [if_pos h4] at h
            rw [if_pos h4]
            cases h5 : read_f64 "point.alt" bs3 with
            | error e => rw [h5] at h; exact absurd h (by simp)
            | ok p5 =>
              obtain ⟨alt, bs4⟩ := p5
              rw [h5] at h
              rw [ext_read_f64 _ bs3 extra alt bs4 h5]
              simp only [ok_bind, pure_bind_ex] at h ⊢
              try dsimp only at h ⊢
              split at h
              · exact absurd h (by simp)
              · rw [if_neg (by assumption)]
                split at h
                · exact absurd h (by simp)
                · rw [if_neg (by assumption)]
                  split at h
                  · exact absurd h (by simp)
                  · rw [if_neg (by assumption)]
                    split at h
                    · exact absurd h (by simp)
                    · rw [if_neg (by assumption)]
                      simp only [Except.ok.injEq, Prod.mk.injEq] at h ⊢
                      obtain ⟨rfl, rfl⟩ := h
                      exact ⟨rfl, rfl⟩
          · rw [if_neg h4] at h
            rw [if_neg h4]
            simp only [pure_bind_ex] at h ⊢
            try dsimp only at h ⊢
            split at h
            · exact absurd h (by simp)
            · rw [if_neg (by assumption)]
              split at h
              · exact absurd h (by simp)
              · rw [if_neg (by assumption)]
                split at h
                · exact absurd h (by simp)
                · rw [if_neg (by assumption)]
                  split at h
                  · exact absurd h (by simp)
                  · rw [if_neg (by assumption)]
                    simp only [Except.ok.injEq, Prod.mk.injEq] at h ⊢
                    obtain ⟨rfl, rfl⟩ := h
                    exact ⟨rfl, rfl⟩

theorem ext_decode_rect (bs extra : List Nat) (a : Value) (rest : List Nat)
    (h : decode_rect bs = .ok (a, rest)) :
    decode_rect (bs ++ extra) = .ok (a, rest ++ extra) := by
  unfold decode_rect at h ⊢
  cases h1 : read_f64 "rect.min_lat" bs with
  | error e => rw [h1] at h; exact absurd h (by simp)
  | ok p =>
    obtain ⟨v1, bs1⟩ := p
    rw [h1] at h
    rw [ext_read_f64 _ bs extra v1 bs1 h1]
    simp only [ok_bind] at h ⊢
    cases h2 : read_f64 "rect.min_lon" bs1 with
    | error e => rw [h2] at h; exact absurd h (by simp)
    | ok p2 =>
      obtain ⟨v2, bs2⟩ := p2
      rw [h2] at h
      rw [ext_read_f64 _ bs1 extra v2 bs2 h2]
      simp only [ok_bind] at h ⊢
      cases h3 : read_f64 "rect.max_lat" bs2 with
      | error e => rw [h3] at h; exact absurd h (by simp)
      | ok p3 =>
        obtain ⟨v3, bs3⟩ := p3
        rw [h3] at h
        rw [ext_read_f64 _ bs2 extra v3 bs3 h3]
        simp only [ok_bind] at h ⊢
        cases h4 : read_f64 "rect.max_lon" bs3 with
        | error e => rw [h4] at h; exact absurd h (by simp)
        | ok p4 =>
          obtain ⟨v4, bs4⟩ := p4
          rw [h4] at h
          rw [ext_read_f64 _ bs3 extra v4 bs4 h4]
          simp only [ok_bind] at h ⊢
          split at h
          · exact absurd h (by simp)
          · rw [if_neg (by assumption)]
            split at h
            · exact absurd h (by simp)
            · rw [if_neg (by assumption)]
              split at h
              · exact absurd h (by simp)
              · rw [if_neg (by assumption)]
                simp only [Except.ok.injEq, Prod.mk.injEq] at h ⊢
                obtain ⟨rfl, rfl⟩ := h
                exact ⟨rfl, rfl⟩

theorem ext_decode_embedding (bs extra : List Nat) (a : Value) (rest : List Nat)
    (h : decode_embedding bs = .ok (a, rest)) :
    decode_embedding (bs ++ extra) = .ok (a, rest ++ extra) := by
  unfold decode_embedding at h ⊢
  cases h1 : read_byte "embedding.sub_type" bs with
  | error e => rw [h1] at h; exact absurd h (by simp)
  | ok p =>
    obtain ⟨st, bs1⟩ := p
    rw [h1] at h
    rw [ext_read_byte _ bs extra st bs1 h1]
    simp only [ok_bind] at h ⊢
    cases hst : EmbeddingSubType.from_u8 st with
    | none => rw [hst] at h; exact absurd h (by simp)
    | some sub_type =>
      rw [hst] at h
      simp only at h ⊢
      cases h2 : read_varint "embedding.dims" bs1 with
      | error e => rw [h2] at h; exact absurd h (by simp)
      | ok p2 =>
        obtain ⟨dims, bs2⟩ := p2
        rw [h2] at h
        rw [ext_read_varint _ bs1 extra dims bs2 h2]
        simp only [ok_bind] at h ⊢
        by_cases h3 : dims > MAX_EMBEDDING_DIMS
        · rw [if_pos h3] at h
          exact absurd h (by simp)
        · rw [if_neg h3] at h
          rw [if_neg h3]
          try dsimp only at h ⊢
          by_cases h4 : sub_type.bytes_for_dims dims > MAX_EMBEDDING_BYTES
          · rw [if_pos h4] at h
            exact absurd h (by simp)
          · rw [if_neg h4] at h
            rw [if_neg h4]
            cases h5 : read_bytes (sub_type.bytes_for_dims dims) "embedding.data" bs2 with
            | error e => rw [h5] at h; exact absurd h (by simp)
            | ok p5 =>
              obtain ⟨data, bs3⟩ := p5
              rw [h5] at h
              rw [ext_read_bytes _ _ bs2 extra data bs3 h5]
              simp only [ok_bind] at h ⊢
              split at h
              · exact absurd h (by simp)
              · rw [if_neg (by assumption)]
                split at h
                · exact absurd h (by simp)
                · rw [if_neg (by assumption)]
                  simp only [Except.ok.injEq, Prod.mk.injEq] at h ⊢
                  obtain ⟨rfl, rfl⟩ := h
                  exact ⟨rfl, rfl⟩

theorem ext_decode_value (data_type : DataType) (dicts : WireDictionaries)
    (bs extra : List Nat) (a : Value) (rest : List Nat)
    (h : decode_value data_type dicts bs = .ok (a, rest)) :
    decode_value data_type dicts (bs ++ extra) = .ok (a, rest ++ extra) := by
  cases data_type
  · exact ext_decode_bool bs extra a rest h
  · exact ext_decode_int64 dicts bs extra a rest h
  · exact ext_decode_float64 dicts bs extra a rest h
  · exact ext_decode_decimal dicts bs extra a rest h
  · exact ext_decode_text dicts bs extra a rest h
  · exact ext_decode_bytes bs extra a rest h
  · exact ext_decode_date bs extra a rest h
  · exact ext_decode_time bs extra a rest h
  · exact ext_decode_datetime bs extra a rest h
  · exact ext_decode_schedule bs extra a rest h
  · exact ext_decode_point bs extra a rest h
  · exact ext_decode_rect bs extra a rest h
  · exact ext_decode_embedding bs extra a rest h

theorem ext_decode_property_value (dicts : WireDictionaries) (bs extra : List Nat)
    (a : PropertyValue) (rest : List Nat)
    (h : decode_property_value dicts bs = .ok (a, rest)) :
    decode_property_value dicts (bs ++ extra) = .ok (a, rest ++ extra) := by
  unfold decode_property_value at h ⊢
  cases h1 : read_varint "property" bs with
  | error e => rw [h1] at h; exact absurd h (by simp)
  | ok p =>
    obtain ⟨pi, bs1⟩ := p
    rw [h1] at h
    rw [ext_read_varint _ bs extra pi bs1 h1]
    simp only [ok_bind] at h ⊢
    by_cases h2 : pi ≥ dicts.properties.length
    · rw [if_pos h2] at h
      exact absurd h (by simp)
    · rw [if_neg h2] at h
      rw [if_neg h2]
      try dsimp only at h ⊢
      cases h3 : decode_value (dicts.properties.getD pi ([], DataType.bool)).2 dicts bs1 with
      | error e => rw [h3] at h; exact absurd h (by simp)
      | ok p3 =>
        obtain ⟨v, bs2⟩ := p3
        rw [h3] at h
        rw [ext_decode_value _ _ bs1 extra v bs2 h3]
        simp only [ok_bind, Except.ok.injEq, Prod.mk.injEq] at h ⊢
        obtain ⟨rfl, rfl⟩ := h
        exact ⟨rfl, rfl⟩

theorem ext_decode_property_values (dicts : WireDictionaries) :
    ∀ (n : Nat) (bs extra : List Nat) (a : List PropertyValue) (rest : List Nat),
      decode_property_values dicts n bs = .ok (a, rest) →
      decode_property_values dicts n (bs ++ extra) = .ok (a, rest ++ extra)
  | 0, bs, extra, a, rest => by
    intro h
    simp only [decode_property_values, Except.ok.injEq, Prod.mk.injEq] at h
    obtain ⟨rfl, rfl⟩ := h
    rfl
  | n + 1, bs, extra, a, rest => by
    intro h
    rw [decode_property_values] at h ⊢
    cases h1 : decode_property_value dicts bs with
    | error e => rw [h1] at h; exact absurd h (by simp)
    | ok p =>
      obtain ⟨pv, bs1⟩ := p
      rw [h1] at h
      rw [ext_decode_property_value dicts bs extra pv bs1 h1]
      simp only [ok_bind] at h ⊢
      cases h2 : decode_property_values dicts n bs1 with
      | error e => rw [h2] at h; exact absurd h (by simp)
      | ok p2 =>
        obtain ⟨pvs, bs2⟩ := p2
        rw [h2] at h
        rw [ext_decode_property_values dicts n bs1 extra pvs bs2 h2]
        simp only [ok_bind, Except.ok.injEq, Prod.mk.injEq] at h ⊢
        obtain ⟨rfl, rfl⟩ := h
        exact ⟨rfl, rfl⟩

theorem ext_decode_unset_value (dicts : WireDictionaries) (bs extra : List Nat)
    (a : UnsetValue) (rest : List Nat)
    (h : decode_unset_value dicts bs = .ok (a, rest)) :
    decode_unset_value dicts (bs ++ extra) = .ok (a, rest ++ extra) := by
  unfold decode_unset_value at h ⊢
  cases h1 : read_varint "property" bs with
  | error e => rw [h1] at h; exact absurd h (by simp)
  | ok p =>
    obtain ⟨pi, bs1⟩ := p
    rw [h1] at h
    rw [ext_read_varint _ bs extra pi bs1 h1]
    simp only [ok_bind] at h ⊢
    by_cases h2 : pi ≥ dicts.properties.length
    · rw [if_pos h2] at h
      exact absurd h (by simp)
    · rw [if_neg h2] at h
      rw [if_neg h2]
      try dsimp only at h ⊢
      cases h3 : read_varint "unset.language" bs1 with
      | error e => rw [h3] at h; exact absurd h (by simp)
      | ok p3 =>
        obtain ⟨lv, bs2⟩ := p3
        rw [h3] at h
        rw [ext_read_varint _ bs1 extra lv bs2 h3]
        simp only [ok_bind] at h ⊢
        try dsimp only at h ⊢
        split at h
        · rw [if_pos (by assumption)]
          simp only [Except.ok.injEq, Prod.mk.injEq] at h ⊢
          obtain ⟨rfl, rfl⟩ := h
          exact ⟨rfl, rfl⟩
        · rw [if_neg (by assumption)]
          split at h
          · rw [if_pos (by assumption)]
            simp only [Except.ok.injEq, Prod.mk.injEq] at h ⊢
            obtain ⟨rfl, rfl⟩ := h
            exact ⟨rfl, rfl⟩
          · rw [if_neg (by assumption)]
            split at h
            · exact absurd h (by simp)
            · rw [if_neg (by assumption)]
              simp only [Except.ok.injEq, Prod.mk.injEq] at h ⊢
              obtain ⟨rfl, rfl⟩ := h
              exact ⟨rfl, rfl⟩

theorem ext_decode_unset_values (dicts : WireDictionaries) :
    ∀ (n : Nat) (bs extra : List Nat) (a : List UnsetValue) (rest : List Nat),
      decode_unset_values dicts n bs = .ok (a, rest) →
      decode_unset_values dicts n (bs ++ extra) = .ok (a, rest ++ extra)
  | 0, bs, extra, a, rest => by
    intro h
    simp only [decode_unset_values, Except.ok.injEq, Prod.mk.injEq] at h
    obtain ⟨rfl, rfl⟩ := h
    rfl
  | n + 1, bs, extra, a, rest => by
    intro h
    rw [decode_unset_values] at h ⊢
    cases h1 : decode_unset_value dicts bs with
    | error e => rw [h1] at h; exact absurd h (by simp)
    | ok p =>
      obtain ⟨u, bs1⟩ := p
      rw [h1] at h
      rw [ext_decode_unset_value dicts bs extra u bs1 h1]
      simp only [ok_bind] at h ⊢
      cases h2 : decode_unset_values dicts n bs1 with
      | error e => rw [h2] at h; exact absurd h (by simp)
      | ok p2 =>
        obtain ⟨us, bs2⟩ := p2
        rw [h2] at h
        rw [ext_decode_unset_values dicts n bs1 extra us bs2 h2]
        simp only [ok_bind, Except.ok.injEq, Prod.mk.injEq] at h ⊢
        obtain ⟨rfl, rfl⟩ := h
        exact ⟨rfl, rfl⟩

theorem ext_decode_position (bs extra : List Nat) (a rest : List Nat)
    (h : decode_position bs = .ok (a, rest)) :
    decode_position (bs ++ extra) = .ok (a, rest ++ extra) := by
  unfold decode_position at h ⊢
  cases h1 : read_str MAX_POSITION_LEN "position" bs with
  | error e => rw [h1] at h; exact absurd h (by simp)
  | ok p =>
    obtain ⟨pos, bs1⟩ := p
    rw [h1] at h
    rw [ext_read_str _ _ bs extra pos bs1 h1]
    simp only [ok_bind] at h ⊢
    cases hf : pos.find? (fun c => !is_ascii_alphanumeric c) with
    | some c => rw [hf] at h; exact absurd h (by simp)
    | none =>
      rw [hf] at h
      simp only [Except.ok.injEq, Prod.mk.injEq] at h ⊢
      obtain ⟨rfl, rfl⟩ := h
      exact ⟨rfl, rfl⟩


/-- Step a bind whose head reader is stable under trailing bytes. -/
theorem ext_bind_step {α β : Type} {D D' : List Nat → Except DecodeError (α × List Nat)}
    {K K' : α × List Nat → Except DecodeError (β × List Nat)}
    {bs extra : List Nat} {b : β} {rest : List Nat}
    (h : (D bs >>= K) = .ok (b, rest))
    (hD : ∀ a r, D bs = .ok (a, r) → D' (bs ++ extra) = .ok (a, r ++ extra))
    (hK : ∀ (v : α) (cur : List Nat), K (v, cur) = .ok (b, rest) →
          K' (v, cur ++ extra) = .ok (b, rest ++ extra)) :
    (D' (bs ++ extra) >>= K') = .ok (b, rest ++ extra) := by
  cases hd : D bs with
  | error e => rw [hd] at h; exact absurd h (by simp)
  | ok p =>
    rw [hd] at h
    rw [hD p.1 p.2 (by rw [hd])]
    simp only [ok_bind] at h ⊢
    exact hK p.1 p.2 h

/-- Step a bind whose head does not consume the stream. -/
theorem ext_resolve_step {α β : Type} {R : Except DecodeError α}
    {K K' : α → Except DecodeError (β × List Nat)}
    {extra : List Nat} {b : β} {rest : List Nat}
    (h : (R >>= K) = .ok (b, rest))
    (hK : ∀ v, K v = .ok (b, rest) → K' v = .ok (b, rest ++ extra)) :
    (R >>= K') = .ok (b, rest ++ extra) := by
  cases hr : R with
  | error e =>
    rw [hr] at h
    exact absurd h (by simp)
  | ok v =>
    rw [hr] at h
    simp only [ok_bind] at h ⊢
    exact hK v h

theorem ext_decode_create_entity (dicts : WireDictionaries) (bs extra : List Nat)
    (a : Op) (rest : List Nat) (h : decode_create_entity dicts bs = .ok (a, rest)) :
    decode_create_entity dicts (bs ++ extra) = .ok (a, rest ++ extra) := by
  unfold decode_create_entity at h ⊢
  repeat' first
    | (simp only [Except.ok.injEq, Prod.mk.injEq] at h ⊢
       obtain ⟨rfl, rfl⟩ := h
       exact ⟨rfl, rfl⟩)
    | (exact Except.noConfusion h)
    | (refine ext_bind_step h (fun a2 r2 hh => ext_read_id _ _ _ _ _ hh) ?_
       intro v cur h)
    | (refine ext_bind_step h (fun a2 r2 hh => ext_read_varint _ _ _ _ _ hh) ?_
       intro v cur h)
    | (refine ext_bind_step h (fun a2 r2 hh => ext_decode_property_values _ _ _ _ _ _ hh) ?_
       intro v cur h)
    | (split at h
       all_goals first
         | rw [if_pos (by assumption)]
         | rw [if_neg (by assumption)])
    | (simp only [pure_bind_ex] at h ⊢)
    | (dsimp only at h ⊢)


theorem ext_decode_delete_entity (dicts : WireDictionaries) (bs extra : List Nat)
    (a : Op) (rest : List Nat) (h : decode_delete_entity dicts bs = .ok (a, rest)) :
    decode_delete_entity dicts (bs ++ extra) = .ok (a, rest ++ extra) := by
  unfold decode_delete_entity at h ⊢
  repeat' first
    | (simp only [Except.ok.injEq, Prod.mk.injEq] at h ⊢
       obtain ⟨rfl, rfl⟩ := h
       exact ⟨rfl, rfl⟩)
    | (exact Except.noConfusion h)
    | (refine ext_bind_step h (fun a2 r2 hh => ext_read_varint _ _ _ _ _ hh) ?_
       intro v cur h)
    | (refine ext_resolve_step h ?_
       intro v h)
    | (simp only [pure_bind_ex] at h ⊢)
    | (dsimp only at h ⊢)

theorem ext_decode_restore_entity (dicts : WireDictionaries) (bs extra : List Nat)
    (a : Op) (rest : List Nat) (h : decode_restore_entity dicts bs = .ok (a, rest)) :
    decode_restore_entity dicts (bs ++ extra) = .ok (a, rest ++ extra) := by
  unfold decode_restore_entity at h ⊢
  repeat' first
    | (simp only [Except.ok.injEq, Prod.mk.injEq] at h ⊢
       obtain ⟨rfl, rfl⟩ := h
       exact ⟨rfl, rfl⟩)
    | (exact Except.noConfusion h)
    | (refine ext_bind_step h (fun a2 r2 hh => ext_read_varint _ _ _ _ _ hh) ?_
       intro v cur h)
    | (refine ext_resolve_step h ?_
       intro v h)
    | (simp only [pure_bind_ex] at h ⊢)
    | (dsimp only at h ⊢)

theorem ext_decode_delete_relation (dicts : WireDictionaries) (bs extra : List Nat)
    (a : Op) (rest : List Nat) (h : decode_delete_relation dicts bs = .ok (a, rest)) :
    decode_delete_relation dicts (bs ++ extra) = .ok (a, rest ++ extra) := by
  unfold decode_delete_relation at h ⊢
  repeat' first
    | (simp only [Except.ok.injEq, Prod.mk.injEq] at h ⊢
       obtain ⟨rfl, rfl⟩ := h
       exact ⟨rfl, rfl⟩)
    | (exact Except.noConfusion h)
    | (refine ext_bind_step h (fun a2 r2 hh => ext_read_varint _ _ _ _ _ hh) ?_
       intro v cur h)
    | (refine ext_resolve_step h ?_
       intro v h)
    | (simp only [pure_bind_ex] at h ⊢)
    | (dsimp only at h ⊢)

theorem ext_decode_restore_relation (dicts : WireDictionaries) (bs extra : List Nat)
    (a : Op) (rest : List Nat) (h : decode_restore_relation dicts bs = .ok (a, rest)) :
    decode_restore_relation dicts (bs ++ extra) = .ok (a, rest ++ extra) := by
  unfold decode_restore_relation at h ⊢
  repeat' first
    | (simp only [Except.ok.injEq, Prod.mk.injEq] at h ⊢
       obtain ⟨rfl, rfl⟩ := h
       exact ⟨rfl, rfl⟩)
    | (exact Except.noConfusion h)
    | (refine ext_bind_step h (fun a2 r2 hh => ext_read_varint _ _ _ _ _ hh) ?_
       intro v cur h)
    | (refine ext_resolve_step h ?_
       intro v h)
    | (simp only [pure_bind_ex] at h ⊢)
    | (dsimp only at h ⊢)

theorem ext_decode_update_entity (dicts : WireDictionaries) (bs extra : List Nat)
    (a : Op) (rest : List Nat) (h : decode_update_entity dicts bs = .ok (a, rest)) :
    decode_update_entity dicts (bs ++ extra) = .ok (a, rest ++ extra) := by
  unfold decode_update_entity at h ⊢
  repeat' first
    | (simp only [Except.ok.injEq, Prod.mk.injEq] at h ⊢
       obtain ⟨rfl, rfl⟩ := h
       exact ⟨rfl, rfl⟩)
    | (exact Except.noConfusion h)
    | (refine ext_bind_step h (fun a2 r2 hh => ext_read_varint _ _ _ _ _ hh) ?_
       intro v cur h)
    | (refine ext_bind_step h (fun a2 r2 hh => ext_read_byte _ _ _ _ _ hh) ?_
       intro v cur h)
    | (refine ext_bind_step h (fun a2 r2 hh => ext_decode_property_values _ _ _ _ _ _ hh) ?_
       intro v cur h)
    | (refine ext_bind_step h (fun a2 r2 hh => ext_decode_unset_values _ _ _ _ _ _ hh) ?_
       intro v cur h)
    | (refine ext_resolve_step h ?_
       intro v h)
    | (split at h
       all_goals first
         | rw [if_pos (by assumption)]
         | rw [if_neg (by assumption)])
    | (simp only [pure_bind_ex] at h ⊢)
    | (dsimp only at h ⊢)

/-- Step a decoder guard: an `if` whose then-branch raises and whose
else-branch continues. -/
theorem ext_jp_guard {β : Type} (c : Prop) [Decidable c] (e : DecodeError)
    {X X' : Except DecodeError β} {b b' : β}
    (h : (if c then Except.error e else X) = .ok b)
    (hX : X = .ok b → X' = .ok b') :
    (if c then Except.error e else X') = .ok b' := by
  by_cases hc : c
  · rw [if_pos hc] at h; exact absurd h (by simp)
  · rw [if_neg hc] at h ⊢
    exact hX h

/-- Step an optional 16-byte-id field guarded by a flag bit, in the
join-point shape produced by `do`-desugaring. -/
theorem ext_jp_opt_id {β : Type} (c : Prop) [Decidable c] (f : String)
    {J J' : Option Id × List Nat → Except DecodeError (β × List Nat)}
    {bs extra : List Nat} {b : β} {rest : List Nat}
    (h : (if c then
            read_id f bs >>= fun d =>
              match d with
              | (v, bs1) => pure ((some v : Option Id), bs1) >>= fun y => J y
          else pure ((none : Option Id), bs) >>= fun y => J y) = .ok (b, rest))
    (hJ : ∀ v cur, J (v, cur) = .ok (b, rest) → J' (v, cur ++ extra) = .ok (b, rest ++ extra)) :
    (if c then
       read_id f (bs ++ extra) >>= fun d =>
         match d with
         | (v, bs1) => pure ((some v : Option Id), bs1) >>= fun y => J' y
     else pure ((none : Option Id), bs ++ extra) >>= fun y => J' y) = .ok (b, rest ++ extra) := by
  by_cases hc : c
  · rw [if_pos hc] at h ⊢
    cases hr : read_id f bs with
    | error e => rw [hr] at h; exact absurd h (by simp)
    | ok p =>
      obtain ⟨v, bs1⟩ := p
      rw [hr] at h
      rw [ext_read_id _ _ _ _ _ hr]
      simp only [ok_bind] at h ⊢
      try dsimp only at h ⊢
      simp only [pure_bind_ex] at h ⊢
      try dsimp only at h ⊢
      exact hJ (some v) bs1 h
  · rw [if_neg hc] at h ⊢
    simp only [pure_bind_ex] at h ⊢
    try dsimp only at h ⊢
    exact hJ none bs h

/-- Step the optional position field, join-point shape. -/
theorem ext_jp_opt_pos {β : Type} (c : Prop) [Decidable c]
    {J J' : Option (List Nat) × List Nat → Except DecodeError (β × List Nat)}
    {bs extra : List Nat} {b : β} {rest : List Nat}
    (h : (if c then
            decode_position bs >>= fun d =>
              match d with
              | (v, bs1) => pure ((some v : Option (List Nat)), bs1) >>= fun y => J y
          else pure ((none : Option (List Nat)), bs) >>= fun y => J y) = .ok (b, rest))
    (hJ : ∀ v cur, J (v, cur) = .ok (b, rest) → J' (v, cur ++ extra) = .ok (b, rest ++ extra)) :
    (if c then
       decode_position (bs ++ extra) >>= fun d =>
         match d with
         | (v, bs1) => pure ((some v : Option (List Nat)), bs1) >>= fun y => J' y
     else pure ((none : Option (List Nat)), bs ++ extra) >>= fun y => J' y) =
      .ok (b, rest ++ extra) := by
  by_cases hc : c
  · rw [if_pos hc] at h ⊢
    cases hr : decode_position bs with
    | error e => rw [hr] at h; exact absurd h (by simp)
    | ok p =>
      obtain ⟨v, bs1⟩ := p
      rw [hr] at h
      rw [ext_decode_position _ _ _ _ hr]
      simp only [ok_bind] at h ⊢
      try dsimp only at h ⊢
      simp only [pure_bind_ex] at h ⊢
      try dsimp only at h ⊢
      exact hJ (some v) bs1 h
  · rw [if_neg hc] at h ⊢
    simp only [pure_bind_ex] at h ⊢
    try dsimp only at h ⊢
    exact hJ none bs h

/-- Step a relation endpoint: raw id when the value-ref bit is set, otherwise
an object-dictionary index resolution; join-point shape. -/
theorem ext_jp_fromto {β : Type} (c : Prop) [Decidable c] (f : String)
    (dicts : WireDictionaries)
    {J J' : Id × List Nat → Except DecodeError (β × List Nat)}
    {bs extra : List Nat} {b : β} {rest : List Nat}
    (h : (if c then read_id f bs >>= fun y => J y
          else
            read_varint f bs >>= fun d =>
              match d with
              | (i, bs1) => resolve_object dicts i >>= fun v => pure (v, bs1) >>= fun y => J y) =
      .ok (b, rest))
    (hJ : ∀ v cur, J (v, cur) = .ok (b, rest) → J' (v, cur ++ extra) = .ok (b, rest ++ extra)) :
    (if c then read_id f (bs ++ extra) >>= fun y => J' y
     else
       read_varint f (bs ++ extra) >>= fun d =>
         match d with
         | (i, bs1) => resolve_object dicts i >>= fun v => pure (v, bs1) >>= fun y => J' y) =
      .ok (b, rest ++ extra) := by
  by_cases hc : c
  · rw [if_pos hc] at h ⊢
    exact ext_bind_step h (fun a2 r2 hh => ext_read_id _ _ _ _ _ hh) hJ
  · rw [if_neg hc] at h ⊢
    cases hr : read_varint f bs with
    | error e => rw [hr] at h; exact absurd h (by simp)
    | ok p =>
      obtain ⟨i, bs1⟩ := p
      rw [hr] at h
      rw [ext_read_varint _ _ _ _ _ hr]
      simp only [ok_bind] at h ⊢
      try dsimp only at h ⊢
      cases hro : resolve_object dicts i with
      | error e => rw [hro] at h; exact absurd h (by simp)
      | ok v =>
        rw [hro] at h
        simp only [ok_bind, pure_bind_ex] at h ⊢
        try dsimp only at h ⊢
        exact hJ v bs1 h

theorem ext_decode_create_relation (dicts : WireDictionaries) (bs extra : List Nat)
    (a : Op) (rest : List Nat) (h : decode_create_relation dicts bs = .ok (a, rest)) :
    decode_create_relation dicts (bs ++ extra) = .ok (a, rest ++ extra) := by
  unfold decode_create_relation at h ⊢
  refine ext_bind_step h (fun a2 r2 hh => ext_read_id _ _ _ _ _ hh) ?_
  intro v1 cur1 h
  refine ext_bind_step h (fun a2 r2 hh => ext_read_varint _ _ _ _ _ hh) ?_
  intro v2 cur2 h
  refine ext_jp_guard (v2 ≥ dicts.relation_types.length) _ h ?_
  intro h
  refine ext_bind_step h (fun a2 r2 hh => ext_read_byte _ _ _ _ _ hh) ?_
  intro fl cur3 h
  refine ext_jp_fromto (fl &&& 64 ≠ 0) "from" dicts h ?_
  intro vf cur4 h
  refine ext_jp_fromto (fl &&& 128 ≠ 0) "to" dicts h ?_
  intro vt cur5 h
  refine ext_jp_opt_id (fl &&& 1 ≠ 0) "from_space" h ?_
  intro v4 cur6 h
  refine ext_jp_opt_id (fl &&& 2 ≠ 0) "from_version" h ?_
  intro v5 cur7 h
  refine ext_jp_opt_id (fl &&& 4 ≠ 0) "to_space" h ?_
  intro v6 cur8 h
  refine ext_jp_opt_id (fl &&& 8 ≠ 0) "to_version" h ?_
  intro v7 cur9 h
  refine ext_jp_opt_id (fl &&& 16 ≠ 0) "entity_id" h ?_
  intro v8 cur10 h
  refine ext_jp_opt_pos (fl &&& 32 ≠ 0) h ?_
  intro v9 cur11 h
  try dsimp only at h ⊢
  simp only [Except.ok.injEq, Prod.mk.injEq] at h ⊢
  obtain ⟨rfl, rfl⟩ := h
  exact ⟨rfl, rfl⟩

theorem ext_decode_create_value_ref (dicts : WireDictionaries) (bs extra : List Nat)
    (a : Op) (rest : List Nat) (h : decode_create_value_ref dicts bs = .ok (a, rest)) :
    decode_create_value_ref dicts (bs ++ extra) = .ok (a, rest ++ extra) := by
  unfold decode_create_value_ref at h ⊢
  repeat' first
    | (simp only [Except.ok.injEq, Prod.mk.injEq] at h ⊢
       obtain ⟨rfl, rfl⟩ := h
       exact ⟨rfl, rfl⟩)
    | (exact Except.noConfusion h)
    | (refine ext_bind_step h (fun a2 r2 hh => ext_read_varint _ _ _ _ _ hh) ?_
       intro v cur h)
    | (refine ext_bind_step h (fun a2 r2 hh => ext_read_byte _ _ _ _ _ hh) ?_
       intro v cur h)
    | (refine ext_bind_step h (fun a2 r2 hh => ext_read_id _ _ _ _ _ hh) ?_
       intro v cur h)
    | (refine ext_resolve_step h ?_
       intro v h)
    | (split at h
       all_goals first
         | rw [if_pos (by assumption)]
         | rw [if_neg (by assumption)])
    | (simp only [pure_bind_ex] at h ⊢)
    | (dsimp only at h ⊢)


set_option maxHeartbeats 2000000 in
theorem ext_decode_update_relation (dicts : WireDictionaries) (bs extra : List Nat)
    (a : Op) (rest : List Nat) (h : decode_update_relation dicts bs = .ok (a, rest)) :
    decode_update_relation dicts (bs ++ extra) = .ok (a, rest ++ extra) := by
  unfold decode_update_relation at h ⊢
  cases h1 : read_varint "relation_id" bs with
  | error e => rw [h1] at h; exact absurd h (by simp)
  | ok p =>
    obtain ⟨idx, bs1⟩ := p
    rw [h1] at h
    rw [ext_read_varint _ bs extra idx bs1 h1]
    simp only [ok_bind] at h ⊢
    try dsimp only at h ⊢
    cases h2 : resolve_object dicts idx with
    | error e => rw [h2] at h; exact absurd h (by simp)
    | ok id =>
      rw [h2] at h
      simp only [ok_bind] at h ⊢
      cases h3 : read_byte "set_flags" bs1 with
      | error e => rw [h3] at h; exact absurd h (by simp)
      | ok p3 =>
        obtain ⟨S, bs2⟩ := p3
        rw [h3] at h
        rw [ext_read_byte _ bs1 extra S bs2 h3]
        simp only [ok_bind] at h ⊢
        cases h4 : read_byte "unset_flags" bs2 with
        | error e => rw [h4] at h; exact absurd h (by simp)
        | ok p4 =>
          obtain ⟨U, bs3⟩ := p4
          rw [h4] at h
          rw [ext_read_byte _ bs2 extra U bs3 h4]
          simp only [ok_bind] at h ⊢
          try dsimp only at h ⊢
          by_cases hS : S &&& 0xE0 ≠ 0
          all_goals first
            | (rw [if_pos hS] at h
               exact absurd h (by simp))
            | (rw [if_neg hS] at h ⊢)
          all_goals by_cases hU : U &&& 0xE0 ≠ 0
          all_goals first
            | (rw [if_pos hU] at h
               exact absurd h (by simp))
            | (rw [if_neg hU] at h ⊢
               try simp only [pure_bind_ex] at h ⊢
               try dsimp only at h ⊢)
          all_goals by_cases hb1 : S &&& 1 ≠ 0
          all_goals first
            | (rw [if_pos hb1] at h ⊢
               refine ext_bind_step h (fun a2 r2 hh => ext_read_id _ _ _ _ _ hh) ?_
               intro v cur h
               try simp only [pure_bind_ex] at h ⊢
               try dsimp only at h ⊢)
            | (rw [if_neg hb1] at h ⊢
               try simp only [pure_bind_ex] at h ⊢
               try dsimp only at h ⊢)
          all_goals by_cases hb2 : S &&& 2 ≠ 0
          all_goals first
            | (rw [if_pos hb2] at h ⊢
               refine ext_bind_step h (fun a2 r2 hh => ext_read_id _ _ _ _ _ hh) ?_
               intro v cur h
               try simp only [pure_bind_ex] at h ⊢
               try dsimp only at h ⊢)
            | (rw [if_neg hb2] at h ⊢
               try simp only [pure_bind_ex] at h ⊢
               try dsimp only at h ⊢)
          all_goals by_cases hb4 : S &&& 4 ≠ 0
          all_goals first
            | (rw [if_pos hb4] at h ⊢
               refine ext_bind_step h (fun a2 r2 hh => ext_read_id _ _ _ _ _ hh) ?_
               intro v cur h
               try simp only [pure_bind_ex] at h ⊢
               try dsimp only at h ⊢)
            | (rw [if_neg hb4] at h ⊢
               try simp only [pure_bind_ex] at h ⊢
               try dsimp only at h ⊢)
          all_goals by_cases hb8 : S &&& 8 ≠ 0
          all_goals first
            | (rw [if_pos hb8] at h ⊢
               refine ext_bind_step h (fun a2 r2 hh => ext_read_id _ _ _ _ _ hh) ?_
               intro v cur h
               try simp only [pure_bind_ex] at h ⊢
               try dsimp only at h ⊢)
            | (rw [if_neg hb8] at h ⊢
               try simp only [pure_bind_ex] at h ⊢
               try dsimp only at h ⊢)
          all_goals by_cases hb16 : S &&& 16 ≠ 0
          all_goals first
            | (rw [if_pos hb16] at h ⊢
               refine ext_bind_step h (fun a2 r2 hh => ext_decode_position _ _ _ _ hh) ?_
               intro v cur h
               try simp only [pure_bind_ex] at h ⊢
               try dsimp only at h ⊢)
            | (rw [if_neg hb16] at h ⊢
               try simp only [pure_bind_ex] at h ⊢
               try dsimp only at h ⊢)
          all_goals simp only [Except.ok.injEq, Prod.mk.injEq] at h ⊢
          all_goals obtain ⟨rfl, rfl⟩ := h
          all_goals exact ⟨rfl, rfl⟩

theorem ext_decode_op (dicts : WireDictionaries) (bs extra : List Nat)
    (a : Op) (rest : List Nat) (h : decode_op dicts bs = .ok (a, rest)) :
    decode_op dicts (bs ++ extra) = .ok (a, rest ++ extra) := by
  unfold decode_op at h ⊢
  cases h1 : read_byte "op_type" bs with
  | error e => rw [h1] at h; exact absurd h (by simp)
  | ok p =>
    obtain ⟨t, bs1⟩ := p
    rw [h1] at h
    rw [ext_read_byte _ bs extra t bs1 h1]
    simp only [ok_bind] at h ⊢
    rcases t with _|_|_|_|_|_|_|_|_|_|n
    · exact Except.noConfusion h
    · exact ext_decode_create_entity dicts bs1 extra a rest h
    · exact ext_decode_update_entity dicts bs1 extra a rest h
    · exact ext_decode_delete_entity dicts bs1 extra a rest h
    · exact ext_decode_restore_entity dicts bs1 extra a rest h
    · exact ext_decode_create_relation dicts bs1 extra a rest h
    · exact ext_decode_update_relation dicts bs1 extra a rest h
    · exact ext_decode_delete_relation dicts bs1 extra a rest h
    · exact ext_decode_restore_relation dicts bs1 extra a rest h
    · exact ext_decode_create_value_ref dicts bs1 extra a rest h
    · exact Except.noConfusion h

theorem ext_decode_ops (dicts : WireDictionaries) :
    ∀ (n : Nat) (bs extra : List Nat) (a : List Op) (rest : List Nat),
      decode_ops dicts n bs = .ok (a, rest) →
      decode_ops dicts n (bs ++ extra) = .ok (a, rest ++ extra)
  | 0, bs, extra, a, rest => by
    intro h
    simp only [decode_ops, Except.ok.injEq, Prod.mk.injEq] at h
    obtain ⟨rfl, rfl⟩ := h
    rfl
  | n + 1, bs, extra, a, rest => by
    intro h
    rw [decode_ops] at h ⊢
    cases h1 : decode_op dicts bs with
    | error e => rw [h1] at h; exact absurd h (by simp)
    | ok p =>
      obtain ⟨op, bs1⟩ := p
      rw [h1] at h
      rw [ext_decode_op dicts bs extra op bs1 h1]
      simp only [ok_bind] at h ⊢
      cases h2 : decode_ops dicts n bs1 with
      | error e => rw [h2] at h; exact absurd h (by simp)
      | ok p2 =>
        obtain ⟨ops, bs2⟩ := p2
        rw [h2] at h
        rw [ext_decode_ops dicts n bs1 extra ops bs2 h2]
        simp only [ok_bind, Except.ok.injEq, Prod.mk.injEq] at h ⊢
        obtain ⟨rfl, rfl⟩ := h
        exact ⟨rfl, rfl⟩

theorem ext_read_properties :
    ∀ (seen : List Id) (n : Nat) (bs extra : List Nat)
      (a : List (Id × DataType)) (rest : List Nat),
      read_properties seen n bs = .ok (a, rest) →
      read_properties seen n (bs ++ extra) = .ok (a, rest ++ extra)
  | seen, 0, bs, extra, a, rest => by
    intro h
    simp only [read_properties, Except.ok.injEq, Prod.mk.injEq] at h
    obtain ⟨rfl, rfl⟩ := h
    rfl
  | seen, n + 1, bs, extra, a, rest => by
    intro h
    rw [read_properties] at h ⊢
    cases h1 : read_id "property_id" bs with
    | error e => rw [h1] at h; exact absurd h (by simp)
    | ok p =>
      obtain ⟨id, bs1⟩ := p
      rw [h1] at h
      rw [ext_read_id _ bs extra id bs1 h1]
      simp only [ok_bind] at h ⊢
      by_cases h2 : id ∈ seen
      · rw [if_pos h2] at h; exact absurd h (by simp)
      · rw [if_neg h2] at h ⊢
        try dsimp only at h ⊢
        cases h3 : read_byte "data_type" bs1 with
        | error e => rw [h3] at h; exact absurd h (by simp)
        | ok p3 =>
          obtain ⟨dtb, bs2⟩ := p3
          rw [h3] at h
          rw [ext_read_byte _ bs1 extra dtb bs2 h3]
          simp only [ok_bind] at h ⊢
          cases hdt : DataType.from_u8 dtb with
          | none => rw [hdt] at h; exact absurd h (by simp)
          | some dt =>
            rw [hdt] at h
            try dsimp only at h ⊢
            cases h4 : read_properties (id :: seen) n bs2 with
            | error e => rw [h4] at h; exact absurd h (by simp)
            | ok p4 =>
              obtain ⟨tl, bs3⟩ := p4
              rw [h4] at h
              rw [ext_read_properties (id :: seen) n bs2 extra tl bs3 h4]
              simp only [ok_bind, Except.ok.injEq, Prod.mk.injEq] at h ⊢
              obtain ⟨rfl, rfl⟩ := h
              exact ⟨rfl, rfl⟩

theorem ext_read_ids_no_duplicates (field : String) :
    ∀ (seen : List Id) (n : Nat) (bs extra : List Nat) (a : List Id) (rest : List Nat),
      read_ids_no_duplicates field seen n bs = .ok (a, rest) →
      read_ids_no_duplicates field seen n (bs ++ extra) = .ok (a, rest ++ extra)
  | seen, 0, bs, extra, a, rest => by
    intro h
    simp only [read_ids_no_duplicates, Except.ok.injEq, Prod.mk.injEq] at h
    obtain ⟨rfl, rfl⟩ := h
    rfl
  | seen, n + 1, bs, extra, a, rest => by
    intro h
    rw [read_ids_no_duplicates] at h ⊢
    cases h1 : read_id field bs with
    | error e => rw [h1] at h; exact absurd h (by simp)
    | ok p =>
      obtain ⟨id, bs1⟩ := p
      rw [h1] at h
      rw [ext_read_id _ bs extra id bs1 h1]
      simp only [ok_bind] at h ⊢
      by_cases h2 : id ∈ seen
      · rw [if_pos h2] at h; exact absurd h (by simp)
      · rw [if_neg h2] at h ⊢
        try dsimp only at h ⊢
        cases h3 : read_ids_no_duplicates field (id :: seen) n bs1 with
        | error e => rw [h3] at h; exact absurd h (by simp)
        | ok p3 =>
          obtain ⟨ids, bs2⟩ := p3
          rw [h3] at h
          rw [ext_read_ids_no_duplicates field (id :: seen) n bs1 extra ids bs2 h3]
          simp only [ok_bind, Except.ok.injEq, Prod.mk.injEq] at h ⊢
          obtain ⟨rfl, rfl⟩ := h
          exact ⟨rfl, rfl⟩

theorem ext_read_id_vec_no_duplicates (max_len : Nat) (field : String)
    (bs extra : List Nat) (a : List Id) (rest : List Nat)
    (h : read_id_vec_no_duplicates max_len field bs = .ok (a, rest)) :
    read_id_vec_no_duplicates max_len field (bs ++ extra) = .ok (a, rest ++ extra) := by
  unfold read_id_vec_no_duplicates at h ⊢
  cases h1 : read_varint field bs with
  | error e => rw [h1] at h; exact absurd h (by simp)
  | ok p =>
    obtain ⟨count, bs1⟩ := p
    rw [h1] at h
    rw [ext_read_varint _ bs extra count bs1 h1]
    simp only [ok_bind] at h ⊢
    by_cases h2 : count > max_len
    · rw [if_pos h2] at h; exact absurd h (by simp)
    · rw [if_neg h2] at h ⊢
      exact ext_read_ids_no_duplicates field [] count bs1 extra a rest h

theorem ext_decode_context_edges (dicts : WireDictionaries) :
    ∀ (n : Nat) (bs extra : List Nat) (a : List ContextEdge) (rest : List Nat),
      decode_context_edges dicts n bs = .ok (a, rest) →
      decode_context_edges dicts n (bs ++ extra) = .ok (a, rest ++ extra)
  | 0, bs, extra, a, rest => by
    intro h
    simp only [decode_context_edges, Except.ok.injEq, Prod.mk.injEq] at h
    obtain ⟨rfl, rfl⟩ := h
    rfl
  | n + 1, bs, extra, a, rest => by
    intro h
    rw [decode_context_edges] at h ⊢
    cases h1 : read_varint "edge_type_id" bs with
    | error e => rw [h1] at h; exact absurd h (by simp)
    | ok p =>
      obtain ⟨ti, bs1⟩ := p
      rw [h1] at h
      rw [ext_read_varint _ bs extra ti bs1 h1]
      simp only [ok_bind] at h ⊢
      by_cases h2 : ti ≥ dicts.relation_types.length
      · rw [if_pos h2] at h; exact absurd h (by simp)
      · rw [if_neg h2] at h ⊢
        try dsimp only at h ⊢
        cases h3 : read_varint "edge_to_entity_id" bs1 with
        | error e => rw [h3] at h; exact absurd h (by simp)
        | ok p3 =>
          obtain ⟨te, bs2⟩ := p3
          rw [h3] at h
          rw [ext_read_varint _ bs1 extra te bs2 h3]
          simp only [ok_bind] at h ⊢
          by_cases h4 : te ≥ dicts.context_ids.length
          · rw [if_pos h4] at h; exact absurd h (by simp)
          · rw [if_neg h4] at h ⊢
            try dsimp only at h ⊢
            cases h5 : decode_context_edges dicts n bs2 with
            | error e => rw [h5] at h; exact absurd h (by simp)
            | ok p5 =>
              obtain ⟨edges, bs3⟩ := p5
              rw [h5] at h
              rw [ext_decode_context_edges dicts n bs2 extra edges bs3 h5]
              simp only [ok_bind, Except.ok.injEq, Prod.mk.injEq] at h ⊢
              obtain ⟨rfl, rfl⟩ := h
              exact ⟨rfl, rfl⟩

theorem ext_decode_context (dicts : WireDictionaries) (bs extra : List Nat)
    (a : Context) (rest : List Nat) (h : decode_context dicts bs = .ok (a, rest)) :
    decode_context dicts (bs ++ extra) = .ok (a, rest ++ extra) := by
  unfold decode_context at h ⊢
  cases h1 : read_varint "root_id" bs with
  | error e => rw [h1] at h; exact absurd h (by simp)
  | ok p =>
    obtain ⟨ri, bs1⟩ := p
    rw [h1] at h
    rw [ext_read_varint _ bs extra ri bs1 h1]
    simp only [ok_bind] at h ⊢
    by_cases h2 : ri ≥ dicts.context_ids.length
    · rw [if_pos h2] at h; exact absurd h (by simp)
    · rw [if_neg h2] at h ⊢
      try dsimp only at h ⊢
      cases h3 : read_varint "edge_count" bs1 with
      | error e => rw [h3] at h; exact absurd h (by simp)
      | ok p3 =>
        obtain ⟨ec, bs2⟩ := p3
        rw [h3] at h
        rw [ext_read_varint _ bs1 extra ec bs2 h3]
        simp only [ok_bind] at h ⊢
        by_cases h4 : ec > MAX_DICT_SIZE
        · rw [if_pos h4] at h; exact absurd h (by simp)
        · rw [if_neg h4] at h ⊢
          try dsimp only at h ⊢
          cases h5 : decode_context_edges dicts ec bs2 with
          | error e => rw [h5] at h; exact absurd h (by simp)
          | ok p5 =>
            obtain ⟨edges, bs3⟩ := p5
            rw [h5] at h
            rw [ext_decode_context_edges dicts ec bs2 extra edges bs3 h5]
            simp only [ok_bind, Except.ok.injEq, Prod.mk.injEq] at h ⊢
            obtain ⟨rfl, rfl⟩ := h
            exact ⟨rfl, rfl⟩

theorem ext_decode_contexts (dicts : WireDictionaries) :
    ∀ (n : Nat) (bs extra : List Nat) (a : List Context) (rest : List Nat),
      decode_contexts dicts n bs = .ok (a, rest) →
      decode_contexts dicts n (bs ++ extra) = .ok (a, rest ++ extra)
  | 0, bs, extra, a, rest => by
    intro h
    simp only [decode_contexts, Except.ok.injEq, Prod.mk.injEq] at h
    obtain ⟨rfl, rfl⟩ := h
    rfl
  | n + 1, bs, extra, a, rest => by
    intro h
    rw [decode_contexts] at h ⊢
    cases h1 : decode_context dicts bs with
    | error e => rw [h1] at h; exact absurd h (by simp)
    | ok p =>
      obtain ⟨ctx, bs1⟩ := p
      rw [h1] at h
      rw [ext_decode_context dicts bs extra ctx bs1 h1]
      simp only [ok_bind] at h ⊢
      cases h2 : decode_contexts dicts n bs1 with
      | error e => rw [h2] at h; exact absurd h (by simp)
      | ok p2 =>
        obtain ⟨ctxs, bs2⟩ := p2
        rw [h2] at h
        rw [ext_decode_contexts dicts n bs1 extra ctxs bs2 h2]
        simp only [ok_bind, Except.ok.injEq, Prod.mk.injEq] at h ⊢
        obtain ⟨rfl, rfl⟩ := h
        exact ⟨rfl, rfl⟩

theorem read_byte_shape (ctx : String) (bs : List Nat) (v : Nat) (rest : List Nat)
    (h : read_byte ctx bs = .ok (v, rest)) : bs = v :: rest := by
  cases bs with
  | nil => exact absurd h (by simp [read_byte])
  | cons b t =>
    simp only [read_byte, Except.ok.injEq, Prod.mk.injEq] at h
    obtain ⟨rfl, rfl⟩ := h
    rfl

theorem read_bytes_shape (n : Nat) (ctx : String) (bs a rest : List Nat)
    (h : read_bytes n ctx bs = .ok (a, rest)) : bs = a ++ rest ∧ a.length = n := by
  unfold read_bytes at h
  by_cases hn : n ≤ bs.length
  · rw [if_pos hn] at h
    simp only [Except.ok.injEq, Prod.mk.injEq] at h
    obtain ⟨rfl, rfl⟩ := h
    refine ⟨(List.take_append_drop n bs).symm, ?_⟩
    simp [List.length_take]
    omega
  · rw [if_neg hn] at h; exact absurd h (by simp)

/-- A successful borrowed decode pins down the first five bytes: four magic
bytes followed by version byte 1. -/
theorem decode_edit_borrowed_shape (bs : List Nat) (e : Edit)
    (h : decode_edit_borrowed bs = .ok e) :
    ∃ m t, bs = m ++ 1 :: t ∧ m.length = 4 := by
  unfold decode_edit_borrowed at h
  try dsimp only at h
  cases h1 : read_bytes 4 "magic" bs with
  | error e1 => rw [h1] at h; exact absurd h (by simp)
  | ok p1 =>
    obtain ⟨m, bs1⟩ := p1
    rw [h1] at h
    simp only [ok_bind] at h
    obtain ⟨hbs, hm⟩ := read_bytes_shape 4 "magic" bs m bs1 h1
    cases h2 : read_byte "version" bs1 with
    | error e2 => rw [h2] at h; exact absurd h (by simp)
    | ok p2 =>
      obtain ⟨v, bs2⟩ := p2
      rw [h2] at h
      simp only [ok_bind] at h
      have hb1 : bs1 = v :: bs2 := read_byte_shape _ _ _ _ h2
      by_cases hv : v < MIN_FORMAT_VERSION ∨ v > FORMAT_VERSION
      · rw [if_pos hv] at h; exact absurd h (by simp)
      · have hv1 : v = 1 := by
          unfold MIN_FORMAT_VERSION FORMAT_VERSION at hv
          omega
        exact ⟨m, bs2, by rw [hbs, hb1, hv1], hm⟩

theorem ext_decode_edit_borrowed (bs extra : List Nat) (e : Edit)
    (h : decode_edit_borrowed bs = .ok e) :
    decode_edit_borrowed (bs ++ extra) = .ok e := by
  unfold decode_edit_borrowed at h ⊢
  try dsimp only at h ⊢
  cases h1 : read_bytes 4 "magic" bs with
  | error e1 => rw [h1] at h; exact absurd h (by simp)
  | ok p1 =>
    obtain ⟨m, bs1⟩ := p1
    rw [h1] at h
    rw [ext_read_bytes 4 "magic" bs extra m bs1 h1]
    simp only [ok_bind] at h ⊢
    cases h2 : read_byte "version" bs1 with
    | error e2 => rw [h2] at h; exact absurd h (by simp)
    | ok p2 =>
      obtain ⟨v, bs2⟩ := p2
      rw [h2] at h
      rw [ext_read_byte "version" bs1 extra v bs2 h2]
      simp only [ok_bind] at h ⊢
      by_cases hv : v < MIN_FORMAT_VERSION ∨ v > FORMAT_VERSION
      · rw [if_pos hv] at h; exact absurd h (by simp)
      · rw [if_neg hv] at h ⊢
        try dsimp only at h ⊢
        cases h3 : read_id "edit_id" bs2 with
        | error e3 => rw [h3] at h; exact absurd h (by simp)
        | ok p3 =>
          obtain ⟨eid, bs3⟩ := p3
          rw [h3] at h
          rw [ext_read_id "edit_id" bs2 extra eid bs3 h3]
          simp only [ok_bind] at h ⊢
          cases h4 : read_str MAX_STRING_LEN "name" bs3 with
          | error e4 => rw [h4] at h; exact absurd h (by simp)
          | ok p4 =>
            obtain ⟨name, bs4⟩ := p4
            rw [h4] at h
            rw [ext_read_str MAX_STRING_LEN "name" bs3 extra name bs4 h4]
            simp only [ok_bind] at h ⊢
            cases h5 : read_id_vec MAX_AUTHORS "authors" bs4 with
            | error e5 => rw [h5] at h; exact absurd h (by simp)
            | ok p5 =>
              obtain ⟨authors, bs5⟩ := p5
              rw [h5] at h
              rw [ext_read_id_vec MAX_AUTHORS "authors" bs4 extra authors bs5 h5]
              simp only [ok_bind] at h ⊢
              cases h6 : read_signed_varint "created_at" bs5 with
              | error e6 => rw [h6] at h; exact absurd h (by simp)
              | ok p6 =>
                obtain ⟨created, bs6⟩ := p6
                rw [h6] at h
                rw [ext_read_signed_varint "created_at" bs5 extra created bs6 h6]
                simp only [ok_bind] at h ⊢
                cases h7 : read_varint "property_count" bs6 with
                | error e7 => rw [h7] at h; exact absurd h (by simp)
                | ok p7 =>
                  obtain ⟨pc, bs7⟩ := p7
                  rw [h7] at h
                  rw [ext_read_varint "property_count" bs6 extra pc bs7 h7]
                  simp only [ok_bind] at h ⊢
                  by_cases hpc : pc > MAX_DICT_SIZE
                  · rw [if_pos hpc] at h; exact absurd h (by simp)
                  · rw [if_neg hpc] at h ⊢
                    try dsimp only at h ⊢
                    cases h8 : read_properties [] pc bs7 with
                    | error e8 => rw [h8] at h; exact absurd h (by simp)
                    | ok p8 =>
                      obtain ⟨props, bs8⟩ := p8
                      rw [h8] at h
                      rw [ext_read_properties [] pc bs7 extra props bs8 h8]
                      simp only [ok_bind] at h ⊢
                      cases h9 : read_id_vec_no_duplicates MAX_DICT_SIZE "relation_types" bs8 with
                      | error e9 => rw [h9] at h; exact absurd h (by simp)
                      | ok p9 =>
                        obtain ⟨rts, bs9⟩ := p9
                        rw [h9] at h
                        rw [ext_read_id_vec_no_duplicates MAX_DICT_SIZE "relation_types" bs8 extra rts bs9 h9]
                        simp only [ok_bind] at h ⊢
                        cases h10 : read_id_vec_no_duplicates MAX_DICT_SIZE "languages" bs9 with
                        | error e10 => rw [h10] at h; exact absurd h (by simp)
                        | ok p10 =>
                          obtain ⟨langs, bs10⟩ := p10
                          rw [h10] at h
                          rw [ext_read_id_vec_no_duplicates MAX_DICT_SIZE "languages" bs9 extra langs bs10 h10]
                          simp only [ok_bind] at h ⊢
                          cases h11 : read_id_vec_no_duplicates MAX_DICT_SIZE "units" bs10 with
                          | error e11 => rw [h11] at h; exact absurd h (by simp)
                          | ok p11 =>
                            obtain ⟨units, bs11⟩ := p11
                            rw [h11] at h
                            rw [ext_read_id_vec_no_duplicates MAX_DICT_SIZE "units" bs10 extra units bs11 h11]
                            simp only [ok_bind] at h ⊢
                            cases h12 : read_id_vec_no_duplicates MAX_DICT_SIZE "objects" bs11 with
                            | error e12 => rw [h12] at h; exact absurd h (by simp)
                            | ok p12 =>
                              obtain ⟨objs, bs12⟩ := p12
                              rw [h12] at h
                              rw [ext_read_id_vec_no_duplicates MAX_DICT_SIZE "objects" bs11 extra objs bs12 h12]
                              simp only [ok_bind] at h ⊢
                              cases h13 : read_id_vec_no_duplicates MAX_DICT_SIZE "context_ids" bs12 with
                              | error e13 => rw [h13] at h; exact absurd h (by simp)
                              | ok p13 =>
                                obtain ⟨cids, bs13⟩ := p13
                                rw [h13] at h
                                rw [ext_read_id_vec_no_duplicates MAX_DICT_SIZE "context_ids" bs12 extra cids bs13 h13]
                                simp only [ok_bind] at h ⊢
                                try dsimp only at h ⊢
                                cases h14 : read_varint "context_count" bs13 with
                                | error e14 => rw [h14] at h; exact absurd h (by simp)
                                | ok p14 =>
                                  obtain ⟨cc, bs14⟩ := p14
                                  rw [h14] at h
                                  rw [ext_read_varint "context_count" bs13 extra cc bs14 h14]
                                  simp only [ok_bind] at h ⊢
                                  by_cases hcc : cc > MAX_DICT_SIZE
                                  · rw [if_pos hcc] at h; exact absurd h (by simp)
                                  · rw [if_neg hcc] at h ⊢
                                    try dsimp only at h ⊢
                                    cases h15 : decode_contexts ⟨props, rts, langs, units, objs, cids, []⟩ cc bs14 with
                                    | error e15 => rw [h15] at h; exact absurd h (by simp)
                                    | ok p15 =>
                                      obtain ⟨ctxs, bs15⟩ := p15
                                      rw [h15] at h
                                      rw [ext_decode_contexts ⟨props, rts, langs, units, objs, cids, []⟩ cc bs14 extra ctxs bs15 h15]
                                      simp only [ok_bind] at h ⊢
                                      try dsimp only at h ⊢
                                      cases h16 : read_varint "op_count" bs15 with
                                      | error e16 => rw [h16] at h; exact absurd h (by simp)
                                      | ok p16 =>
                                        obtain ⟨oc, bs16⟩ := p16
                                        rw [h16] at h
                                        rw [ext_read_varint "op_count" bs15 extra oc bs16 h16]
                                        simp only [ok_bind] at h ⊢
                                        by_cases hoc : oc > MAX_OPS_PER_EDIT
                                        · rw [if_pos hoc] at h; exact absurd h (by simp)
                                        · rw [if_neg hoc] at h ⊢
                                          try dsimp only at h ⊢
                                          cases h17 : decode_ops ⟨props, rts, langs, units, objs, cids, ctxs⟩ oc bs16 with
                                          | error e17 => rw [h17] at h; exact absurd h (by simp)
                                          | ok p17 =>
                                            obtain ⟨ops, bs17⟩ := p17
                                            rw [h17] at h
                                            rw [ext_decode_ops ⟨props, rts, langs, units, objs, cids, ctxs⟩ oc bs16 extra ops bs17 h17]
                                            simp only [ok_bind] at h ⊢
                                            exact h

/-- C10: a successfully decoded uncompressed edit still decodes, to the same
edit, after arbitrary trailing bytes are appended (as long as the padded input
stays within `MAX_EDIT_SIZE`), so distinct byte strings decode to equal edits. -/
theorem C10_trailing_bytes (bs extra : List Nat) (e : Edit)
    (h : decode_edit bs = .ok e)
    (hsize : bs.length + extra.length ≤ MAX_EDIT_SIZE) :
    decode_edit (bs ++ extra) = .ok e := by
  unfold decode_edit at h
  by_cases h4 : bs.length < 4
  · rw [if_pos h4] at h; exact absurd h (by simp)
  · rw [if_neg h4] at h
    by_cases hz : bs.length ≥ 5 ∧ bs.take 5 = MAGIC_COMPRESSED
    · rw [if_pos hz] at h; exact absurd h (by simp)
    · rw [if_neg hz] at h
      by_cases hm : bs.take 4 = MAGIC_UNCOMPRESSED
      · rw [if_pos hm] at h
        by_cases hs : bs.length > MAX_EDIT_SIZE
        · rw [if_pos hs] at h; exact absurd h (by simp)
        · rw [if_neg hs] at h
          obtain ⟨m, t, hbs, hml⟩ := decode_edit_borrowed_shape bs e h
          subst hbs
          have hm4 : m = MAGIC_UNCOMPRESSED := by
            have htk : (m ++ 1 :: t).take 4 = m := by
              rw [List.take_append_eq_append_take, ← hml, List.take_length]
              simp
            rw [htk] at hm
            exact hm
          subst hm4
          unfold decode_edit
          rw [if_neg (by simp [MAGIC_UNCOMPRESSED])]
          rw [if_neg (by
            simp only [MAGIC_UNCOMPRESSED, MAGIC_COMPRESSED, List.cons_append,
              List.nil_append, List.take_succ_cons, List.take, not_and]
            intro hlen
            simp)]
          rw [if_pos (by
            simp [MAGIC_UNCOMPRESSED, List.take_succ_cons])]
          rw [if_neg (by
            simp only [MAGIC_UNCOMPRESSED] at hsize ⊢
            simp only [List.length_append, List.length_cons, not_lt, gt_iff_lt] at hsize ⊢
            omega)]
          exact ext_decode_edit_borrowed (MAGIC_UNCOMPRESSED ++ 1 :: t) extra e h
      · rw [if_neg hm] at h; exact absurd h (by simp)

theorem C10_trailing_bytes_witness :
    decode_edit (MAGIC_UNCOMPRESSED ++ 1 :: (idA ++ List.replicate 11 0)) =
      .ok ⟨idA, [], [], 0, []⟩ ∧
    (MAGIC_UNCOMPRESSED ++ 1 :: (idA ++ List.replicate 11 0)).length + [7].length ≤
      MAX_EDIT_SIZE ∧
    decode_edit ((MAGIC_UNCOMPRESSED ++ 1 :: (idA ++ List.replicate 11 0)) ++ [7]) =
      .ok ⟨idA, [], [], 0, []⟩ :=
  ⟨by decide, by decide,
    C10_trailing_bytes (MAGIC_UNCOMPRESSED ++ 1 :: (idA ++ List.replicate 11 0)) [7]
      ⟨idA, [], [], 0, []⟩ (by decide) (by decide)⟩

/-- C1: the fast-encoder round-trip is NOT the identity on every structurally
valid edit: an UpdateRelation unset list is collapsed to flag bits on the wire,
so decoding returns it in fixed field order, not in the encoded order. -/
theorem C1_roundtrip_broken :
    encode_edit eC1 = .ok c1_bytes ∧
    decode_edit c1_bytes = .ok eC1_wire ∧
    eC1_wire ≠ eC1 :=
  ⟨by decide, by decide, by decide⟩

/-- C2: canonical encoding is NOT invariant under reordering the values of a
CreateEntity: the property dictionary keeps the data type of the first value
seen for each property id, so the two orders yield different dictionary tag
bytes while both encodings succeed. -/
theorem C2_canonical_depends_on_value_order :
    encode_edit_with_options e2a ⟨true⟩ = .ok (c2_front ++ DataType.bool.toTag :: c2_suffix) ∧
    encode_edit_with_options e2b ⟨true⟩ = .ok (c2_front ++ DataType.text.toTag :: c2_suffix) ∧
    encode_edit_with_options e2a ⟨true⟩ ≠ encode_edit_with_options e2b ⟨true⟩ :=
  ⟨by decide, by decide, by decide⟩

end GRC20
